import Mathlib

/-! OFS video pipeline: VR format detector, playback clock, processing tick, sorted vector
and waveform pyramid.

A shallow embedding of

* `OFS-lib/videoplayer/OFS_VRFormatDetector.{h,cpp}` (the VR format classifier),
* the parts of `OFS-lib/videoplayer/impl/OFS_MpvVideoplayer.cpp` that hold the cached
  decoder state, the playback clock and the per-frame processing path
  (`RenderFrameToTexture`),
* `OFS-lib/state/states/ProcessingVideoWindowState.h` (the UI override settings),
* the fragment shader of `VRCropShader` in `OFS-lib/gl/OFS_Shader.h` (its sampling
  coordinate, in exact rational arithmetic),
* `OFS-lib/OFS_VectorSet.h` (the sorted vector `vector_set`),
* the level-of-detail pyramid of `OFS-lib/UI/OFS_Waveform.cpp`,

followed by theorems about them.

Number model.  `float` and `double` arithmetic is embedded exactly: a finite binary32 or
binary64 value is the rational number it denotes, and `f32` and `f64` are IEEE-754
round-to-nearest-even onto binary32 and binary64.  The detector only meets finite values.
The playback clock mixes `float` and `double` operations, and a division by zero there
does not trap in C++ but gives an infinity or a NaN; its values are of type `Flt`, which
adds the infinities and NaN to the finite numbers, and every operation is the exact
operation followed by the rounding to the type the C++ expression has.  The sign of a zero
is not represented (a zero divisor is read as `+0.0`), and the duration, speed and frame
rate that the decoder reports are finite `double`s.
The waveform samples are `float`s of which only magnitudes, comparisons and maxima are
taken, all of them exact, so a sample is the rational number it denotes.  Container sizes
and loop counters are natural numbers or integers; where the code narrows one to `int`
the narrowing is explicit (`toInt32`).  Loops are recursive functions with an iteration
bound, and the theorems show the bound used is never the reason a loop stops.
-/

namespace OFS

/-! ## binary32 and binary64 arithmetic -/

/-- Round a rational to the nearest integer, ties to the even neighbour. -/
def roundNearestEven (q : ℚ) : ℤ :=
  let f := Rat.floor q
  let r := q - f
  if r < 1/2 then f
  else if 1/2 < r then f + 1
  else if f % 2 = 0 then f else f + 1

/-- The integer `k` with `2^k ≤ q < 2^(k+1)` for positive `q`, found by repeated halving or
doubling; `fuel` bounds the number of steps (`|k| ≤ fuel` suffices). -/
def floorLog2 : Nat → ℚ → ℤ
  | 0, _ => 0
  | fuel + 1, q =>
    if 2 ≤ q then floorLog2 fuel (q / 2) + 1
    else if q < 1 then floorLog2 fuel (q * 2) - 1
    else 0

/-- IEEE-754 binary32 rounding (round to nearest, ties to even) of a rational number.
The significand has 24 bits, so the unit in the last place of a value in `[2^k, 2^(k+1))`
is `2^(k-23)`, and never less than `2^(-149)` (subnormal range).  Overflow to infinity
(magnitudes of `2^128` and above) is not represented: every value the embedded code feeds
to `f32` is an `int`, a quotient of two nonzero `int`s, or a literal. -/
def f32 (q : ℚ) : ℚ :=
  if q = 0 then 0
  else
    let a := |q|
    let e := max (floorLog2 300 a - 23) (-149)
    let m := roundNearestEven (a / (2:ℚ) ^ e)
    (if q < 0 then -1 else 1) * m * (2:ℚ) ^ e

/-- Rounding to nearest, ties to even, onto the binary format whose significand has `p + 1`
bits and whose smallest positive value is `2^emin`: the unit in the last place of a value
in `[2^k, 2^(k+1))` is `2^(k-p)`, and never less than `2^emin`.  `f32` is the case
`p = 23`, `emin = -149`. -/
def roundBinary (p : Nat) (emin : ℤ) (fuel : Nat) (q : ℚ) : ℚ :=
  if q = 0 then 0
  else
    let a := |q|
    let e := max (floorLog2 fuel a - p) emin
    let m := roundNearestEven (a / (2:ℚ) ^ e)
    (if q < 0 then -1 else 1) * m * (2:ℚ) ^ e

/-- IEEE-754 binary64 rounding (round to nearest, ties to even) of a rational number: a
53-bit significand and a subnormal unit of `2^(-1074)`.  Overflow to infinity is handled
where the function is used (`Flt.round64`). -/
def f64 (q : ℚ) : ℚ :=
  roundBinary 52 (-1074) 1200 q

/-- A value of type `float` or `double`: a finite number, given as the rational number it
denotes, an infinity, or a NaN.  The sign of a zero is not kept: a zero divisor is read as
`+0.0`. -/
inductive Flt where
  | fin (value : ℚ)
  | inf (negative : Bool)
  | nan
  deriving DecidableEq, Repr

namespace Flt

/-- Conversion to `float`: round to nearest, ties to even.  A magnitude of at least
`2^128 - 2^103`, the midpoint between the largest `float` and `2^128`, overflows to an
infinity. -/
def round32 : Flt → Flt
  | fin q => if (2:ℚ) ^ 128 - 2 ^ 103 ≤ |q| then inf (decide (q < 0)) else fin (f32 q)
  | inf s => inf s
  | nan => nan

/-- Rounding to `double`: round to nearest, ties to even.  A magnitude of at least
`2^1024 - 2^970`, the midpoint between the largest `double` and `2^1024`, overflows to an
infinity. -/
def round64 : Flt → Flt
  | fin q => if (2:ℚ) ^ 1024 - 2 ^ 970 ≤ |q| then inf (decide (q < 0)) else fin (f64 q)
  | inf s => inf s
  | nan => nan

/-- The sum before rounding: infinities of opposite sign give NaN. -/
def add : Flt → Flt → Flt
  | fin a, fin b => fin (a + b)
  | fin _, inf s => inf s
  | inf s, fin _ => inf s
  | inf s, inf t => if s = t then inf s else nan
  | nan, _ => nan
  | _, nan => nan

/-- The product before rounding: zero times an infinity gives NaN. -/
def mul : Flt → Flt → Flt
  | fin a, fin b => fin (a * b)
  | fin a, inf s => if a = 0 then nan else inf (xor s (decide (a < 0)))
  | inf s, fin b => if b = 0 then nan else inf (xor s (decide (b < 0)))
  | inf s, inf t => inf (xor s t)
  | nan, _ => nan
  | _, nan => nan

/-- The quotient before rounding: a nonzero number over zero is an infinity, zero over zero
and infinity over infinity are NaN, a finite number over an infinity is zero. -/
def div : Flt → Flt → Flt
  | fin a, fin b =>
    if b = 0 then (if a = 0 then nan else inf (decide (a < 0))) else fin (a / b)
  | fin _, inf _ => fin 0
  | inf s, fin b => inf (xor s (decide (b < 0)))
  | inf _, inf _ => nan
  | nan, _ => nan
  | _, nan => nan

/-- The comparison `a < b`; false when an operand is NaN. -/
def lt : Flt → Flt → Bool
  | fin a, fin b => decide (a < b)
  | fin _, inf s => !s
  | inf s, fin _ => s
  | inf s, inf t => s && !t
  | nan, _ => false
  | _, nan => false

/-- The comparison `a != b`; true when an operand is NaN. -/
def ne : Flt → Flt → Bool
  | fin a, fin b => decide (a ≠ b)
  | inf s, inf t => decide (s ≠ t)
  | _, _ => true

/-- `a + b` in `float`. -/
def add32 (a b : Flt) : Flt := round32 (add a b)

/-- `a * b` in `float`. -/
def mul32 (a b : Flt) : Flt := round32 (mul a b)

/-- `a / b` in `float`. -/
def div32 (a b : Flt) : Flt := round32 (div a b)

/-- `a + b` in `double`. -/
def add64 (a b : Flt) : Flt := round64 (add a b)

/-- `a * b` in `double`. -/
def mul64 (a b : Flt) : Flt := round64 (mul a b)

/-- `a / b` in `double`. -/
def div64 (a b : Flt) : Flt := round64 (div a b)

/-- `std::max(a, b)`: `(a < b) ? b : a`. -/
def stdMax (a b : Flt) : Flt :=
  if lt a b then b else a

end Flt

/-! ## `std::string` helpers -/

/-- The `std::transform(..., ::toupper)` pass over the name: `a`..`z` become `A`..`Z`, every
other character is kept (the C locale).  All tokens searched for are ASCII, so reading the
name as characters instead of UTF-8 bytes finds the same occurrences. -/
def toUpperChars (s : String) : List Char :=
  s.data.map Char.toUpper

/-- The search loop of `std::string::find`: the first position (counted from `pos`) at which
`needle` occurs in the remaining text, `none` for `npos`. -/
def findFrom (needle : List Char) : List Char → Nat → Option Nat
  | [], pos => if needle.isPrefixOf [] then some pos else none
  | c :: cs, pos =>
    if needle.isPrefixOf (c :: cs) then some pos else findFrom needle cs (pos + 1)

/-- The test `upper.find(kw) != std::string::npos`. -/
def contains (upper : List Char) (kw : String) : Bool :=
  (findFrom kw.data upper 0).isSome

/-! ## `OFS_VRFormatDetector.h` -/

/-- The `enum class VRProjection`. -/
inductive VRProjection where
  | None
  | Equirectangular180
  | Equirectangular360
  | Fisheye190
  | Fisheye200
  deriving DecidableEq, Repr

/-- The `enum class VRLayout`. -/
inductive VRLayout where
  | None
  | SideBySide
  | TopBottom
  deriving DecidableEq, Repr

/-- The `struct VRFormatInfo` with its default member initialisers. -/
structure VRFormatInfo where
  isVR : Bool := false
  projection : VRProjection := VRProjection.None
  layout : VRLayout := VRLayout.None
  confidence : ℚ := 0
  userForced : Bool := false
  deriving DecidableEq, Repr

namespace OFS_VRFormatDetector

/-- `GetAspectRatio`: `0.0f` for height 0, else the binary32 quotient of the two converted
integers. -/
def GetAspectRatio (width height : Int) : ℚ :=
  if height = 0 then 0
  else f32 (f32 width / f32 height)

/-- `IsSBSAspect`: `aspect >= 1.8f && aspect <= 2.2f`. -/
def IsSBSAspect (aspect : ℚ) : Bool :=
  decide (f32 (9/5) ≤ aspect) && decide (aspect ≤ f32 (11/5))

/-- `IsTBAspect`: `aspect >= 0.45f && aspect <= 0.55f`. -/
def IsTBAspect (aspect : ℚ) : Bool :=
  decide (f32 (9/20) ≤ aspect) && decide (aspect ≤ f32 (11/20))

/-- `IsLikelyVR`. -/
def IsLikelyVR (width height : Int) : Bool :=
  let aspect := GetAspectRatio width height
  let isHighRes := decide (width ≥ 2048) || decide (height ≥ 2048)
  (IsSBSAspect aspect || IsTBAspect aspect) && isHighRes

/-- The keyword table of `HasVRKeyword`. -/
def keywords : List String :=
  ["VR", "_180", "_360", "SBS", "_TB", "FISHEYE",
   "EQUIRECTANGULAR", "LR_", "OCULUS", "_3DH", "MKX200"]

/-- `HasVRKeyword`: the loop returns true at the first keyword found in the upper-cased name. -/
def HasVRKeyword (filename : String) : Bool :=
  let upper := toUpperChars filename
  keywords.any (fun kw => contains upper kw)

/-- `DetectProjectionFromFilename`. -/
def DetectProjectionFromFilename (filename : String) : VRProjection :=
  let upper := toUpperChars filename
  if contains upper "FISHEYE" then
    if contains upper "200" then VRProjection.Fisheye200
    else VRProjection.Fisheye190
  else if contains upper "EQUIRECT" || contains upper "360" then
    VRProjection.Equirectangular360
  else if contains upper "180" then
    VRProjection.Equirectangular180
  else VRProjection.None

/-- `DetectLayoutFromFilename`. -/
def DetectLayoutFromFilename (filename : String) : VRLayout :=
  let upper := toUpperChars filename
  if contains upper "SBS" || contains upper "LR_" || contains upper "_LR" then
    VRLayout.SideBySide
  else if contains upper "_TB" || contains upper "TB_" then
    VRLayout.TopBottom
  else VRLayout.None

/-- `DetectFormat`.  The first `if` chain either fixes `isVR`/`confidence` and falls through
(`some`) or takes the early `return info` (`none`). -/
def DetectFormat (width height : Int) (filename : String) : VRFormatInfo :=
  let info : VRFormatInfo := {}
  let aspect := GetAspectRatio width height
  let isSBS := IsSBSAspect aspect
  let isTB := IsTBAspect aspect
  let isHighRes := decide (width ≥ 2048) || decide (height ≥ 2048)
  let hasVRKeyword := HasVRKeyword filename
  let filenameProjection := DetectProjectionFromFilename filename
  let filenameLayout := DetectLayoutFromFilename filename
  let decision : Option VRFormatInfo :=
    if (isSBS || isTB) && isHighRes then
      some { info with isVR := true, confidence := f32 (9/10) }
    else if hasVRKeyword then
      some { info with isVR := true, confidence := f32 (7/10) }
    else none
  match decision with
  | none => { info with isVR := false, confidence := 0 }
  | some info =>
    let info : VRFormatInfo :=
      if filenameLayout ≠ VRLayout.None then { info with layout := filenameLayout }
      else if isSBS then { info with layout := VRLayout.SideBySide }
      else if isTB then { info with layout := VRLayout.TopBottom }
      else { info with layout := VRLayout.None }
    let info : VRFormatInfo :=
      if filenameProjection ≠ VRProjection.None then
        { info with projection := filenameProjection }
      else { info with projection := VRProjection.Equirectangular180 }
    info

end OFS_VRFormatDetector

open OFS_VRFormatDetector

/-! ## `ProcessingVideoWindowState.h` -/

/-- The `enum class ProcessingVideoType`. -/
inductive ProcessingVideoType where
  | Auto
  | Force2D
  | ForceVR
  deriving DecidableEq, Repr

/-- The `enum class ProcessingVRLayout`. -/
inductive ProcessingVRLayout where
  | Auto
  | ForceSBS
  | ForceTB
  deriving DecidableEq, Repr

/-- The VR processing settings of `struct ProcessingVideoWindowState`, which are the fields
`RenderFrameToTexture` reads (the window translation, zoom and the `vrPitch`/`vrZoom`
values are not read by the embedded code). -/
structure ProcessingVideoWindowState where
  videoType : ProcessingVideoType := ProcessingVideoType.Auto
  vrLayout : ProcessingVRLayout := ProcessingVRLayout.Auto
  useRightEye : Bool := false
  deriving DecidableEq, Repr

/-! ## `OFS_VideoplayerEvents.h` -/

/-- The `enum class VideoplayerType`. -/
inductive VideoplayerType where
  | Main
  | Preview
  deriving DecidableEq, Repr

/-- The notifications the player enqueues with `EV::Enqueue`. -/
inductive VideoplayerEvent where
  | VideoLoadedEvent (videoPath : String) (playerType : VideoplayerType)
  | PlayPauseChangeEvent (paused : Bool) (playerType : VideoplayerType)
  | TimeChangeEvent (time : Flt) (playerType : VideoplayerType)
  | DurationChangeEvent (duration : Flt) (playerType : VideoplayerType)
  | PlaybackSpeedChangeEvent (playbackSpeed : Flt) (playerType : VideoplayerType)
  | ProcessingFrameReadyEvent (frameData : Nat) (width height : Int) (timeSeconds : Flt)
      (playerType : VideoplayerType) (originalWidth originalHeight : Int)
  deriving DecidableEq, Repr

/-- The asynchronous requests the player sends to the decoder (`mpv_command_async`,
`mpv_set_property_async`).  They take effect in the decoder only; the cached data changes
when the decoder later reports a property change.  A numeric argument is the `float` that
is printed into the command. -/
inductive MpvRequest where
  | seekAbsolutePercent (percent : Flt)
  | setPause (paused : Bool)
  | setSpeed (speed : Flt)
  | setVolume (volume : Flt)
  | loadfile (path : String)
  | stop
  deriving DecidableEq, Repr

/-! ## `OFS_MpvVideoplayer.cpp`: state -/

/-- The `struct MpvDataCache` with its default member initialisers.  `paused` is an
`int64_t` that only ever holds a converted `bool`.  `duration`, `currentSpeed` and `fps`
only ever hold what the decoder reported, a finite `double`; `percentPos`,
`averageFrameTime` and `currentVolume` receive computed values, which need not be
finite. -/
structure MpvDataCache where
  duration : ℚ := 1
  percentPos : Flt := Flt.fin 0
  currentSpeed : ℚ := 1
  fps : ℚ := 30
  averageFrameTime : Flt := Flt.div64 (Flt.fin 1) (Flt.fin fps)
  abLoopA : ℚ := 0
  abLoopB : ℚ := 0
  totalNumFrames : Int := 0
  paused : Bool := false
  videoWidth : Int := 0
  videoHeight : Int := 0
  currentVolume : Flt := Flt.fin (1 / 2)
  videoLoaded : Bool := false
  filePath : String := ""
  deriving DecidableEq, Repr

/-- The `struct MpvPlayerContext`.  GL object names are numbers (0 = not created), the two
shader pointers are flags (true = non-null), `frameTexture` and `logicalPosition` hold the
values behind the two pointers into the owning `OFS_Videoplayer` (`logicalPosition` is a
`float`).  `events` is the queue
filled by `EV::Enqueue` and `requests` the asynchronous requests sent to the decoder, both
in order of issue.  The decoder handles, the scratch buffer and the two atomic counters are
left out. -/
structure MpvPlayerContext where
  framebuffer : Nat := 0
  data : MpvDataCache := {}
  frameTexture : Nat := 0
  logicalPosition : Flt := Flt.fin 0
  smoothTimer : Nat := 0
  playerType : VideoplayerType := VideoplayerType.Main
  processingFramebuffer : Nat := 0
  processingTexture : Nat := 0
  processingPBO : Nat × Nat := (0, 0)
  processingPBOIndex : Int := 0
  trackingActive : Bool := false
  fullResFramebuffer : Nat := 0
  fullResTexture : Nat := 0
  croppedFramebuffer : Nat := 0
  croppedTexture : Nat := 0
  unwarpedFramebuffer : Nat := 0
  unwarpedTexture : Nat := 0
  quadVAO : Nat := 0
  quadVBO : Nat := 0
  vrFormat : VRFormatInfo := {}
  vrDetectionDone : Bool := false
  cropShader : Bool := false
  vrShader : Bool := false
  vrStateHandle : Nat := 0
  events : List VideoplayerEvent := []
  requests : List MpvRequest := []
  deriving DecidableEq, Repr

/-- The constant `MpvPlayerContext::PROCESSING_SIZE`. -/
def PROCESSING_SIZE : Int := 640

/-- Conversion of an `int64_t` to `int` (32 bits, two's complement wrap-around). -/
def toInt32 (x : Int) : Int :=
  (x + 2 ^ 31) % 2 ^ 32 - 2 ^ 31

/-- The difference of two `uint64_t` tick counts. -/
def ticksSince (now timer : Nat) : Nat :=
  Int.toNat (((now : Int) - (timer : Int)) % 2 ^ 64)

/-! ## `OFS_MpvVideoplayer.cpp`: the processing path of `RenderFrameToTexture` -/

/-- What one pass through the processing branch of `RenderFrameToTexture` did on the GPU
side: the merged format, whether the crop draw call was issued and with which uniforms,
the texture bound for `glGetTexImage`, the index of the pixel buffer that received the
copy (`writeIndex`), the index of the one that was mapped (`readIndex`) and whether a
`ProcessingFrameReadyEvent` was enqueued. -/
structure ProcessingPass where
  activeFormat : VRFormatInfo
  cropInvoked : Bool
  layoutType : Int
  useRightEye : Bool
  finalTexture : Nat
  readIndex : Int
  writeIndex : Int
  frameEmitted : Bool
  deriving DecidableEq, Repr

/-- The lazy VR detection at the head of the processing branch. -/
def lazyDetect (ctx : MpvPlayerContext) : MpvPlayerContext :=
  if !ctx.vrDetectionDone && decide (ctx.data.videoWidth > 0)
      && decide (ctx.data.videoHeight > 0) then
    { ctx with
      vrFormat := DetectFormat (toInt32 ctx.data.videoWidth) (toInt32 ctx.data.videoHeight)
        ctx.data.filePath
      vrDetectionDone := true }
  else ctx

/-- The merge of the UI overrides into a copy of the detected format. -/
def applyOverrides (vrFormat : VRFormatInfo) (vrState : ProcessingVideoWindowState) :
    VRFormatInfo :=
  let activeFormat := vrFormat
  let activeFormat : VRFormatInfo :=
    if vrState.videoType = ProcessingVideoType.Force2D then
      { activeFormat with isVR := false }
    else if vrState.videoType = ProcessingVideoType.ForceVR then
      { activeFormat with isVR := true }
    else activeFormat
  let activeFormat : VRFormatInfo :=
    if vrState.vrLayout = ProcessingVRLayout.ForceSBS then
      { activeFormat with layout := VRLayout.SideBySide }
    else if vrState.vrLayout = ProcessingVRLayout.ForceTB then
      { activeFormat with layout := VRLayout.TopBottom }
    else activeFormat
  activeFormat

/-- `RenderFrameToTexture`, the processing path that follows the main render.  `vrState` is
the UI state read through `vrStateHandle`; `frameData` is the result of `glMapBuffer`
(`none` for a null pointer).  The second component is `none` when the branch is skipped. -/
def RenderFrameToTexture (ctx : MpvPlayerContext) (vrState : ProcessingVideoWindowState)
    (frameData : Option Nat) : MpvPlayerContext × Option ProcessingPass :=
  if ctx.trackingActive && decide (ctx.processingFramebuffer ≠ 0)
      && decide (ctx.frameTexture ≠ 0) then
    let ctx := lazyDetect ctx
    let activeFormat := applyOverrides ctx.vrFormat vrState
    let isVR := activeFormat.isVR
    let needsProcessing := isVR && decide (activeFormat.layout ≠ VRLayout.None)
    let crop := needsProcessing && ctx.cropShader && decide (ctx.quadVAO ≠ 0)
    let layoutType : Int := if activeFormat.layout = VRLayout.SideBySide then 0 else 1
    let finalTexture := if crop then ctx.croppedTexture else ctx.processingTexture
    let readIndex := ctx.processingPBOIndex
    let writeIndex := Int.tmod (ctx.processingPBOIndex + 1) 2
    let events :=
      match frameData with
      | some ptr =>
        let timeSeconds := Flt.mul64 (Flt.fin ctx.data.duration) ctx.data.percentPos
        ctx.events ++ [VideoplayerEvent.ProcessingFrameReadyEvent ptr PROCESSING_SIZE
          PROCESSING_SIZE timeSeconds ctx.playerType (toInt32 ctx.data.videoWidth)
          (toInt32 ctx.data.videoHeight)]
      | none => ctx.events
    ({ ctx with events := events, processingPBOIndex := writeIndex },
     some { activeFormat := activeFormat, cropInvoked := crop, layoutType := layoutType,
            useRightEye := vrState.useRightEye, finalTexture := finalTexture,
            readIndex := readIndex, writeIndex := writeIndex,
            frameEmitted := frameData.isSome })
  else (ctx, none)

/-- One input of a run of render ticks: the UI state read on that tick and the result of
mapping the read buffer. -/
structure TickInput where
  vrState : ProcessingVideoWindowState
  frameData : Option Nat
  deriving DecidableEq, Repr

/-- A run of consecutive render ticks: the context is threaded through
`RenderFrameToTexture`, and each tick is recorded with the value of `processingPBOIndex`
before and after it and with its processing pass, if any. -/
def runTicks : MpvPlayerContext → List TickInput → List (Int × Option ProcessingPass × Int)
  | _, [] => []
  | ctx, i :: rest =>
    let r := RenderFrameToTexture ctx i.vrState i.frameData
    (ctx.processingPBOIndex, r.2, r.1.processingPBOIndex) :: runTicks r.1 rest

/-! ## `OFS_MpvVideoplayer.cpp`: playback clock -/

namespace OFS_Videoplayer

/-- `Duration`. -/
def Duration (ctx : MpvPlayerContext) : ℚ :=
  ctx.data.duration

/-- `SetPaused`: nothing when the cached flag already has the value, else an asynchronous
property request; the cached flag itself is not written. -/
def SetPaused (ctx : MpvPlayerContext) (paused : Bool) : MpvPlayerContext :=
  if ctx.data.paused = paused then ctx
  else { ctx with requests := ctx.requests ++ [MpvRequest.setPause paused] }

/-- `SetPositionPercent`.  The argument is converted to the `float` parameter; the seek
command carries `(float)(percentPos * 100.0f)`. -/
def SetPositionPercent (ctx : MpvPlayerContext) (percentPos : Flt) (pausesVideo : Bool) :
    MpvPlayerContext :=
  let percentPos := Flt.round32 percentPos
  let ctx := { ctx with logicalPosition := percentPos }
  let ctx := { ctx with data := { ctx.data with percentPos := percentPos } }
  let ctx := if pausesVideo then SetPaused ctx true else ctx
  { ctx with requests := ctx.requests ++
      [MpvRequest.seekAbsolutePercent (Flt.mul32 percentPos (Flt.fin 100))] }

/-- The `float timeSinceLastUpdate = (SDL_GetTicks64() - smoothTimer) / 1000.f` of
`CurrentTime` and of the pause handler: the tick difference is converted to `float` and
divided in `float`. -/
def timeSinceLastUpdate (now timer : Nat) : Flt :=
  Flt.div32 (Flt.round32 (Flt.fin (ticksSince now timer))) (Flt.fin 1000)

/-- The `float positionOffset = (timeSinceLastUpdate * currentSpeed) / duration` of
`CurrentTime` and of the pause handler: product and quotient are taken in `double` and the
result is stored in a `float`. -/
def positionOffset (ctx : MpvPlayerContext) (now : Nat) : Flt :=
  Flt.round32 (Flt.div64
    (Flt.mul64 (timeSinceLastUpdate now ctx.smoothTimer) (Flt.fin ctx.data.currentSpeed))
    (Flt.fin ctx.data.duration))

/-- `CurrentTime`; `now` is the value of `SDL_GetTicks64()` at the call.  The sum of the
two `float`s is a `float`, the product with the `double` duration a `double`. -/
def CurrentTime (ctx : MpvPlayerContext) (now : Nat) : Flt :=
  if ctx.data.paused then
    Flt.mul64 ctx.logicalPosition (Flt.fin ctx.data.duration)
  else
    let positionOffset := positionOffset ctx now
    Flt.mul64 (Flt.add32 ctx.logicalPosition positionOffset) (Flt.fin ctx.data.duration)

end OFS_Videoplayer

open OFS_Videoplayer


/-! ## `OFS_Shader.h`: `VRCropShader` -/

/-- The object names handed out by the `glGen*` calls of one `updateRenderTexture` call, in
case it reaches them. -/
structure GLNames where
  framebuffer : Nat
  frameTexture : Nat
  processingFramebuffer : Nat
  processingTexture : Nat
  processingPBO : Nat × Nat
  fullResFramebuffer : Nat
  fullResTexture : Nat
  croppedFramebuffer : Nat
  croppedTexture : Nat
  unwarpedFramebuffer : Nat
  unwarpedTexture : Nat
  quadVAO : Nat
  quadVBO : Nat
  deriving DecidableEq, Repr

/-- First block of `updateProcessingFBO`: the processing framebuffer, its texture and the
two pixel buffers. -/
def createProcessingTarget (ctx : MpvPlayerContext) (gl : GLNames) : MpvPlayerContext :=
  if ctx.processingFramebuffer = 0 then
    { ctx with processingFramebuffer := gl.processingFramebuffer
               processingTexture := gl.processingTexture
               processingPBO := gl.processingPBO }
  else ctx

/-- Second block of `updateProcessingFBO`: the full-resolution framebuffer. -/
def createFullResTarget (ctx : MpvPlayerContext) (gl : GLNames) : MpvPlayerContext :=
  if ctx.fullResFramebuffer = 0 then
    { ctx with fullResFramebuffer := gl.fullResFramebuffer
               fullResTexture := gl.fullResTexture }
  else ctx

/-- Third block of `updateProcessingFBO`: the cropped and the unwarped framebuffer. -/
def createCropTargets (ctx : MpvPlayerContext) (gl : GLNames) : MpvPlayerContext :=
  if ctx.croppedFramebuffer = 0 then
    { ctx with croppedFramebuffer := gl.croppedFramebuffer
               croppedTexture := gl.croppedTexture
               unwarpedFramebuffer := gl.unwarpedFramebuffer
               unwarpedTexture := gl.unwarpedTexture }
  else ctx

/-- Fourth block of `updateProcessingFBO`: the full-screen quad. -/
def createQuad (ctx : MpvPlayerContext) (gl : GLNames) : MpvPlayerContext :=
  if ctx.quadVAO = 0 then { ctx with quadVAO := gl.quadVAO, quadVBO := gl.quadVBO }
  else ctx

/-- Last block of `updateProcessingFBO`: the two shaders. -/
def createShaders (ctx : MpvPlayerContext) : MpvPlayerContext :=
  let ctx := if !ctx.cropShader then { ctx with cropShader := true } else ctx
  if !ctx.vrShader then { ctx with vrShader := true } else ctx

/-- `updateProcessingFBO`: every resource that is still absent is created. -/
def updateProcessingFBO (ctx : MpvPlayerContext) (gl : GLNames) : MpvPlayerContext :=
  createShaders
    (createQuad (createCropTargets (createFullResTarget (createProcessingTarget ctx gl) gl) gl)
      gl)

/-- `updateRenderTexture`: the display framebuffer and texture are created when absent
(otherwise the texture is only resized), then `updateProcessingFBO` runs. -/
def updateRenderTexture (ctx : MpvPlayerContext) (gl : GLNames) : MpvPlayerContext :=
  let ctx :=
    if ctx.framebuffer = 0 then
      { ctx with framebuffer := gl.framebuffer, frameTexture := gl.frameTexture }
    else ctx
  updateProcessingFBO ctx gl

/-! ## `OFS_MpvVideoplayer.cpp`: `ProcessEvents` -/

/-- A property change as the handler reads it: the identifier of `enum MpvPropertyGet`
(the `reply_userdata`) with the value behind `prop->data`, typed as the handler casts it.
The pause flag is read into a `bool`. -/
inductive MpvProperty where
  | MpvDuration (value : ℚ)
  | MpvPosition (value : ℚ)
  | MpvTotalFrames (value : Int)
  | MpvSpeed (value : ℚ)
  | MpvVideoWidth (value : Int)
  | MpvVideoHeight (value : Int)
  | MpvPauseState (value : Bool)
  | MpvFilePath (value : String)
  | MpvHwDecoder (value : String)
  | MpvFramesPerSecond (value : ℚ)
  deriving DecidableEq, Repr

/-- The events `ProcessEvents` distinguishes.  A property change with `prop->data == nullptr`
carries `none`; `otherEvent` is any event identifier without a `case`. -/
inductive MpvEvent where
  | MPV_EVENT_LOG_MESSAGE
  | MPV_EVENT_COMMAND_REPLY
  | MPV_EVENT_FILE_LOADED
  | MPV_EVENT_PROPERTY_CHANGE (prop : Option MpvProperty)
  | otherEvent
  deriving DecidableEq, Repr

/-- One event returned by `mpv_wait_event`, with what its handler reads from outside the
context: `now`, the first `SDL_GetTicks64()` reading of the handler, `now2`, the second
reading (only the pause handler takes two), and the names `glGen*` would hand out. -/
structure MpvEventInput where
  event : MpvEvent
  now : Nat
  now2 : Nat
  gl : GLNames
  deriving DecidableEq, Repr

/-- `notifyVideoLoaded`. -/
def notifyVideoLoaded (ctx : MpvPlayerContext) : MpvPlayerContext :=
  { ctx with events := ctx.events ++
      [VideoplayerEvent.VideoLoadedEvent ctx.data.filePath ctx.playerType] }

/-- `notifyPaused`. -/
def notifyPaused (ctx : MpvPlayerContext) : MpvPlayerContext :=
  { ctx with events := ctx.events ++
      [VideoplayerEvent.PlayPauseChangeEvent ctx.data.paused ctx.playerType] }

/-- `notifyTime`. -/
def notifyTime (ctx : MpvPlayerContext) : MpvPlayerContext :=
  { ctx with events := ctx.events ++
      [VideoplayerEvent.TimeChangeEvent
        (Flt.round32 (Flt.mul64 (Flt.fin ctx.data.duration) ctx.data.percentPos))
        ctx.playerType] }

/-- `notifyDuration`. -/
def notifyDuration (ctx : MpvPlayerContext) : MpvPlayerContext :=
  { ctx with events := ctx.events ++
      [VideoplayerEvent.DurationChangeEvent (Flt.round32 (Flt.fin ctx.data.duration))
        ctx.playerType] }

/-- `notifyPlaybackSpeed`. -/
def notifyPlaybackSpeed (ctx : MpvPlayerContext) : MpvPlayerContext :=
  { ctx with events := ctx.events ++
      [VideoplayerEvent.PlaybackSpeedChangeEvent (Flt.round32 (Flt.fin ctx.data.currentSpeed))
        ctx.playerType] }

/-- The VR detection of the `MPV_EVENT_FILE_LOADED` and `MpvVideoHeight` handlers. -/
def detectNow (ctx : MpvPlayerContext) : MpvPlayerContext :=
  { ctx with
    vrFormat := DetectFormat (toInt32 ctx.data.videoWidth) (toInt32 ctx.data.videoHeight)
      ctx.data.filePath
    vrDetectionDone := true }

/-- The inner `switch (mp_event->reply_userdata)` of `ProcessEvents`. -/
def handleProperty (ctx : MpvPlayerContext) (e : MpvEventInput) :
    MpvProperty → MpvPlayerContext
  | MpvProperty.MpvHwDecoder _ => ctx
  | MpvProperty.MpvVideoWidth value =>
    let ctx := { ctx with data := { ctx.data with videoWidth := value } }
    if ctx.data.videoHeight > 0 then
      let ctx := updateRenderTexture ctx e.gl
      { ctx with data := { ctx.data with videoLoaded := true } }
    else ctx
  | MpvProperty.MpvVideoHeight value =>
    let ctx := { ctx with data := { ctx.data with videoHeight := value } }
    if ctx.data.videoWidth > 0 then
      let ctx := updateRenderTexture ctx e.gl
      let ctx := { ctx with data := { ctx.data with videoLoaded := true } }
      if !ctx.vrDetectionDone then detectNow ctx else ctx
    else ctx
  | MpvProperty.MpvFramesPerSecond value =>
    let ctx := { ctx with data := { ctx.data with fps := value } }
    { ctx with data := { ctx.data with
        averageFrameTime := Flt.div64 (Flt.fin 1) (Flt.fin ctx.data.fps) } }
  | MpvProperty.MpvDuration value =>
    notifyDuration { ctx with data := { ctx.data with duration := value } }
  | MpvProperty.MpvTotalFrames value =>
    { ctx with data := { ctx.data with totalNumFrames := value } }
  | MpvProperty.MpvPosition value =>
    let newPercentPos := Flt.div64 (Flt.fin value) (Flt.fin 100)
    let ctx := { ctx with data := { ctx.data with percentPos := newPercentPos } }
    let ctx := { ctx with smoothTimer := e.now }
    let ctx :=
      if !ctx.data.paused then { ctx with logicalPosition := Flt.round32 newPercentPos }
      else ctx
    notifyTime ctx
  | MpvProperty.MpvSpeed value =>
    notifyPlaybackSpeed { ctx with data := { ctx.data with currentSpeed := value } }
  | MpvProperty.MpvPauseState paused =>
    let ctx :=
      if paused then
        let positionOffset := positionOffset ctx e.now
        { ctx with logicalPosition := Flt.add32 ctx.logicalPosition positionOffset }
      else ctx
    let ctx := { ctx with smoothTimer := e.now2 }
    let ctx := { ctx with data := { ctx.data with paused := paused } }
    notifyPaused ctx
  | MpvProperty.MpvFilePath value =>
    notifyVideoLoaded { ctx with data := { ctx.data with filePath := value } }

/-- The body of the `for (;;)` loop of `ProcessEvents` for one event. -/
def ProcessEvent (ctx : MpvPlayerContext) (e : MpvEventInput) : MpvPlayerContext :=
  match e.event with
  | MpvEvent.MPV_EVENT_LOG_MESSAGE => ctx
  | MpvEvent.MPV_EVENT_COMMAND_REPLY => ctx
  | MpvEvent.MPV_EVENT_FILE_LOADED =>
    let ctx := { ctx with data := { ctx.data with videoLoaded := true } }
    if !ctx.vrDetectionDone && decide (ctx.data.videoWidth > 0)
        && decide (ctx.data.videoHeight > 0) then
      detectNow ctx
    else ctx
  | MpvEvent.MPV_EVENT_PROPERTY_CHANGE none => ctx
  | MpvEvent.MPV_EVENT_PROPERTY_CHANGE (some prop) => handleProperty ctx e prop
  | MpvEvent.otherEvent => ctx

/-- `ProcessEvents`: the events are handled in the order `mpv_wait_event` returns them,
up to `MPV_EVENT_NONE`. -/
def ProcessEvents (ctx : MpvPlayerContext) (pending : List MpvEventInput) :
    MpvPlayerContext :=
  pending.foldl ProcessEvent ctx

namespace OFS_Videoplayer

/-- `SetTrackingActive`. -/
def SetTrackingActive (ctx : MpvPlayerContext) (active : Bool) : MpvPlayerContext :=
  { ctx with trackingActive := active }

end OFS_Videoplayer

/-! ## `OFS_MpvVideoplayer.cpp`: opening a video and seeking -/

namespace Util

/-- Modelled from the spec: `Util::Clamp` is declared in `OFS_Util.h`, which is not among the
sources; the spec speaks of values "clamped to" a minimum and a maximum.  It is read as
`(v < mn) ? mn : (v > mx) ? mx : v`, which passes a NaN on. -/
def Clamp (v mn mx : Flt) : Flt :=
  if Flt.lt v mn then mn else if Flt.lt mx v then mx else v

/-- Modelled from the spec: `Util::Max` is declared in `OFS_Util.h`, which is not among the
sources; it is read as the larger of its two arguments. -/
def Max (a b : ℚ) : ℚ :=
  if a < b then b else a

end Util

/-- What `OFS_Videoplayer.h`, which is not among the sources, declares and the embedded
functions use: the constants `MinPlaybackSpeed` and `MaxPlaybackSpeed`, and the default
argument for `pausesVideo` of `SetPositionExact`.  They are parameters. -/
structure PlayerConstants where
  MinPlaybackSpeed : ℚ
  MaxPlaybackSpeed : ℚ
  pausesVideoDefault : Bool
  deriving DecidableEq, Repr

namespace OFS_Videoplayer

/-- `CurrentSpeed`: the cached `double` returned as `float`. -/
def CurrentSpeed (ctx : MpvPlayerContext) : Flt :=
  Flt.round32 (Flt.fin ctx.data.currentSpeed)

/-- `SetVolume`.  The argument is converted to the `float` parameter; the command carries
`(float)(volume * 100.f)`. -/
def SetVolume (ctx : MpvPlayerContext) (volume : Flt) : MpvPlayerContext :=
  let volume := Flt.round32 volume
  let ctx := { ctx with data := { ctx.data with currentVolume := volume } }
  { ctx with requests := ctx.requests ++
      [MpvRequest.setVolume (Flt.mul32 volume (Flt.fin 100))] }

/-- `SetSpeed`.  The argument is converted to the `float` parameter, and `Util::Clamp<float>`
takes the two limits as `float`. -/
def SetSpeed (k : PlayerConstants) (ctx : MpvPlayerContext) (speed : Flt) : MpvPlayerContext :=
  let speed := Flt.round32 speed
  let speed := Util.Clamp speed (Flt.round32 (Flt.fin k.MinPlaybackSpeed))
    (Flt.round32 (Flt.fin k.MaxPlaybackSpeed))
  if Flt.ne (CurrentSpeed ctx) speed then
    { ctx with requests := ctx.requests ++ [MpvRequest.setSpeed speed] }
  else ctx

/-- `CloseVideo`. -/
def CloseVideo (ctx : MpvPlayerContext) : MpvPlayerContext :=
  let ctx := { ctx with data := { ctx.data with videoLoaded := false } }
  let ctx := { ctx with requests := ctx.requests ++ [MpvRequest.stop] }
  SetPaused ctx true

/-- `OpenVideo`. -/
def OpenVideo (k : PlayerConstants) (ctx : MpvPlayerContext) (path : String) :
    MpvPlayerContext :=
  let ctx := CloseVideo ctx
  let ctx := { ctx with requests := ctx.requests ++ [MpvRequest.loadfile path] }
  let newCache : MpvDataCache := {}
  let newCache := { newCache with currentSpeed := ctx.data.currentSpeed }
  let newCache := { newCache with paused := ctx.data.paused }
  let ctx := { ctx with data := newCache }
  let ctx := { ctx with vrDetectionDone := false }
  let ctx := SetPaused ctx true
  let ctx := SetVolume ctx ctx.data.currentVolume
  SetSpeed k ctx (Flt.fin ctx.data.currentSpeed)

/-- `SetPositionExact`.  The argument is converted to the `float` parameter;
`Util::Clamp<float>` takes the `double` duration as `float`; the quotient of the clamped
`float` by the `double` duration is taken in `double` and stored in the `float relPos`. -/
def SetPositionExact (ctx : MpvPlayerContext) (timeSeconds : Flt) (pausesVideo : Bool) :
    MpvPlayerContext :=
  let timeSeconds := Flt.round32 timeSeconds
  let timeSeconds := Util.Clamp timeSeconds (Flt.fin 0) (Flt.round32 (Flt.fin (Duration ctx)))
  let relPos := Flt.round32 (Flt.div64 timeSeconds (Flt.fin (Duration ctx)))
  SetPositionPercent ctx relPos pausesVideo

/-- `SeekRelative`; `now` is the clock reading inside `CurrentTime()`.  The argument is
converted to the `float` parameter, the sum with the `double` current time is a `double`,
and the call of `SetPositionExact` converts it to `float`. -/
def SeekRelative (k : PlayerConstants) (ctx : MpvPlayerContext) (timeSeconds : Flt)
    (now : Nat) : MpvPlayerContext :=
  let timeSeconds := Flt.round32 timeSeconds
  let seekTo := Flt.add64 (CurrentTime ctx now) timeSeconds
  let seekTo := Flt.stdMax seekTo (Flt.fin 0)
  SetPositionExact ctx seekTo k.pausesVideoDefault

end OFS_Videoplayer

/-! ## `OFS_VectorSet.h` -/

/-- `DefaultComparison<T>`: its `operator()` is `a < b`, with `lt` the `operator<` of `T`. -/
def DefaultComparison {T : Type} (lt : T → T → Bool) (a b : T) : Bool :=
  lt a b

/-- The binary search of `std::lower_bound(first, last, a, comp)` over the `len` positions
from `first` on: the range is halved until it is empty.  `fuel` bounds the number of
halvings; `len` itself is enough. -/
def lowerBoundLoop {T : Type} (comp : T → T → Bool) (v : List T) (a : T) :
    Nat → Nat → Nat → Nat
  | 0, first, _ => first
  | fuel + 1, first, len =>
    if 0 < len then
      let half := len / 2
      let middle := first + half
      match v[middle]? with
      | some m =>
        if comp m a then lowerBoundLoop comp v a fuel (middle + 1) (len - half - 1)
        else lowerBoundLoop comp v a fuel first half
      | none => first
    else first

/-- The insertion step of a sort by `operator<`: `x` goes before the first element that is
not less than it. -/
def sortedInsert {T : Type} (lt : T → T → Bool) (x : T) : List T → List T
  | [] => [x]
  | y :: ys => if lt y x then y :: sortedInsert lt x ys else x :: y :: ys

/-- `std::sort(first, last)`: the elements in non-descending order of `operator<`.  The
standard leaves the relative order of equivalent elements open; here it is the one of an
insertion sort. -/
def stdSort {T : Type} (lt : T → T → Bool) : List T → List T
  | [] => []
  | x :: xs => sortedInsert lt x (stdSort lt xs)

namespace vector_set

/-- `lower_bound`: the contents are a list, an iterator is a position in it and `end()` is
its length. -/
def lower_bound {T : Type} (Comparison : T → T → Bool) (v : List T) (a : T) : Nat :=
  lowerBoundLoop Comparison v a v.length 0 v.length

/-- `lower_bound_idx`: the iterator and its distance from `begin()`. -/
def lower_bound_idx {T : Type} (Comparison : T → T → Bool) (v : List T) (a : T) :
    Nat × Nat :=
  let it := lowerBoundLoop Comparison v a v.length 0 v.length
  let idx := it - 0
  (it, idx)

/-- `sort`: `std::sort` without a comparison argument, that is by `operator<` (`lt`). -/
def sort {T : Type} (lt : T → T → Bool) (v : List T) : List T :=
  stdSort lt v

/-- `emplace`: the flag returned and the contents afterwards. -/
def emplace {T : Type} (Comparison : T → T → Bool) (v : List T) (obj : T) :
    Bool × List T :=
  let it := lower_bound Comparison v obj
  let areEqual := false
  let areEqual :=
    if it ≠ v.length then
      match v[it]? with
      | some e => !Comparison e obj && !Comparison obj e
      | none => areEqual
    else areEqual
  if !areEqual then (true, v.take it ++ obj :: v.drop it)
  else (false, v)

/-- `emplace_back_unsorted`. -/
def emplace_back_unsorted {T : Type} (v : List T) (a : T) : List T :=
  v ++ [a]

/-- `find`; `eq` is the `operator==` of `T`. -/
def find {T : Type} (Comparison : T → T → Bool) (eq : T → T → Bool) (v : List T) (a : T) :
    Nat :=
  let it := lower_bound Comparison v a
  match v[it]? with
  | some e => if it ≠ v.length ∧ eq e a then it else v.length
  | none => v.length

end vector_set

/-! ## `OFS_Waveform.{h,cpp}`: the level-of-detail pyramid -/

/-- The `struct WaveformLODLevel`. -/
structure WaveformLODLevel where
  maxValues : List ℚ
  samplesPerPixel : Int
  deriving DecidableEq, Repr

namespace OFS_Waveform

/-- The loop `for (int j = 0; j < samplesPerPixel && (i + j) < samples.size(); ++j)` of
`BuildLODPyramid`, from the given `j` and `maxVal` on; the result is the final `maxVal`.
`fuel` bounds the number of iterations. -/
def maxLoop (samples : List ℚ) (samplesPerPixel : Int) (i : Nat) : Nat → Nat → ℚ → ℚ
  | 0, _, maxVal => maxVal
  | fuel + 1, j, maxVal =>
    if (j : Int) < samplesPerPixel ∧ i + j < samples.length then
      let s := |samples.getD (i + j) 0|
      let maxVal := Util.Max maxVal s
      maxLoop samples samplesPerPixel i fuel (j + 1) maxVal
    else maxVal

/-- The loop `for (size_t i = 0; i < samples.size(); i += samplesPerPixel)` of
`BuildLODPyramid`, from the given `i` and `maxValues` on.  The step is positive wherever the
loop is entered; `fuel` bounds the number of iterations of this loop and of the inner one. -/
def levelLoop (samples : List ℚ) (samplesPerPixel : Int) (fuel : Nat) :
    Nat → Nat → List ℚ → List ℚ
  | 0, _, maxValues => maxValues
  | steps + 1, i, maxValues =>
    if i < samples.length then
      let maxVal := maxLoop samples samplesPerPixel i fuel 0 0
      levelLoop samples samplesPerPixel fuel steps (i + samplesPerPixel.toNat)
        (maxValues ++ [maxVal])
    else maxValues

/-- The `while` loop of `BuildLODPyramid`, from the given `samplesPerPixel` and `lodLevels`
on.  `(int)samples.size()` is the size narrowed to 32 bits, the quotient by 100 truncates,
and the product by 10 is an `int` product.  `fuel` bounds the iterations of the inner loops
and `rounds` those of this one. -/
def pyramidLoop (samples : List ℚ) (fuel : Nat) :
    Nat → Int → List WaveformLODLevel → List WaveformLODLevel
  | 0, _, lodLevels => lodLevels
  | rounds + 1, samplesPerPixel, lodLevels =>
    if samplesPerPixel ≤ Int.tdiv (toInt32 samples.length) 100 then
      let level : WaveformLODLevel :=
        { maxValues := levelLoop samples samplesPerPixel fuel fuel 0 []
          samplesPerPixel := samplesPerPixel }
      pyramidLoop samples fuel rounds (toInt32 (samplesPerPixel * 10)) (lodLevels ++ [level])
    else lodLevels

/-- `BuildLODPyramid`: the new value of `lodLevels`.  The loops run with an iteration bound
of the number of samples plus ten. -/
def BuildLODPyramid (samples : List ℚ) : List WaveformLODLevel :=
  if samples.isEmpty then []
  else pyramidLoop samples (samples.length + 10) (samples.length + 10) 1 []

/-- The range-based `for` loop of `GetLODForSamplesPerPixel` over the remaining levels;
`bestLOD` is the level pointed to. -/
def bestLoop (samplesPerPixel : Int) : List WaveformLODLevel → WaveformLODLevel →
    WaveformLODLevel
  | [], bestLOD => bestLOD
  | level :: rest, bestLOD =>
    if level.samplesPerPixel ≤ samplesPerPixel then bestLoop samplesPerPixel rest level
    else bestLOD

/-- `GetLODForSamplesPerPixel`: the level behind the returned pointer, `none` for
`nullptr`. -/
def GetLODForSamplesPerPixel (lodLevels : List WaveformLODLevel) (samplesPerPixel : Int) :
    Option WaveformLODLevel :=
  match lodLevels with
  | [] => none
  | first :: _ => some (bestLoop samplesPerPixel lodLevels first)

end OFS_Waveform

/-! ## Specification vocabulary -/

/-- The file name contains the upper-case keyword `kw` case-insensitively: `kw` is a
contiguous part of the upper-cased name. -/
def containsKeyword (filename kw : String) : Prop :=
  kw.data <:+: toUpperChars filename

/-- The layout that follows from the aspect ratio alone. -/
def aspectLayout (width height : Int) : VRLayout :=
  if IsSBSAspect (GetAspectRatio width height) then VRLayout.SideBySide
  else if IsTBAspect (GetAspectRatio width height) then VRLayout.TopBottom
  else VRLayout.None

/-- A render tick takes the processing branch: tracking is active and both the processing
framebuffer and the display texture exist. -/
def processingEnabled (ctx : MpvPlayerContext) : Prop :=
  ctx.trackingActive = true ∧ ctx.processingFramebuffer ≠ 0 ∧ ctx.frameTexture ≠ 0

/-- A context in which tracking has been switched on and the processing resources exist
(framebuffer 1, textures 2 and 3, pixel buffers 4 and 5, crop target 6 and 7, quad 8), for a
paused 3840x1920 clip of 10 seconds whose format has been detected. -/
def sampleContext : MpvPlayerContext :=
  { framebuffer := 1
    data := { duration := 10, paused := true, videoWidth := 3840, videoHeight := 1920,
              videoLoaded := true, filePath := "scene_180_SBS.mp4" }
    frameTexture := 2
    processingFramebuffer := 1
    processingTexture := 3
    processingPBO := (4, 5)
    trackingActive := true
    croppedFramebuffer := 6
    croppedTexture := 7
    quadVAO := 8
    vrFormat := DetectFormat 3840 1920 "scene_180_SBS.mp4"
    vrDetectionDone := true
    cropShader := true }

/-- Three ticks with default UI settings; the buffer mapping fails on the second. -/
def sampleInputs : List TickInput :=
  [{ vrState := {}, frameData := some 100 }, { vrState := {}, frameData := none },
   { vrState := {}, frameData := some 100 }]

/-- A playing 10-second clip at speed 1 whose last position update came at tick 0. -/
def playingContext : MpvPlayerContext :=
  { data := { duration := 10, paused := false }, smoothTimer := 0 }

/-- Two contexts agree on everything but the GL resources and the request queue: the
tracking flag, the ring index, the notification queue, the logical position, the cached
decoder data and the detection result. -/
def sameClock (a b : MpvPlayerContext) : Prop :=
  a.trackingActive = b.trackingActive ∧ a.processingPBOIndex = b.processingPBOIndex ∧
  a.events = b.events ∧ a.logicalPosition = b.logicalPosition ∧ a.data = b.data ∧
  a.vrFormat = b.vrFormat ∧ a.vrDetectionDone = b.vrDetectionDone

/-- What can happen to a player, in any order: a render tick, a call of
`SetTrackingActive`, one decoder event handled by `ProcessEvents`, a seek by
`SetPositionPercent`, a call of `SetPaused`, a call of `OpenVideo`. -/
inductive PlayerAction where
  | renderTick (input : TickInput)
  | setTrackingActive (active : Bool)
  | processEvent (e : MpvEventInput)
  | setPositionPercent (percentPos : ℚ) (pausesVideo : Bool)
  | setPaused (paused : Bool)
  | openVideo (k : PlayerConstants) (path : String)
  deriving DecidableEq, Repr

/-- The effect of one action: the next context and, for a render tick that took the
processing branch, its processing pass. -/
def stepAction (ctx : MpvPlayerContext) :
    PlayerAction → MpvPlayerContext × Option ProcessingPass
  | PlayerAction.renderTick input => RenderFrameToTexture ctx input.vrState input.frameData
  | PlayerAction.setTrackingActive active => (SetTrackingActive ctx active, none)
  | PlayerAction.processEvent e => (ProcessEvent ctx e, none)
  | PlayerAction.setPositionPercent percentPos pausesVideo =>
    (SetPositionPercent ctx (Flt.fin percentPos) pausesVideo, none)
  | PlayerAction.setPaused paused => (SetPaused ctx paused, none)
  | PlayerAction.openVideo k path => (OpenVideo k ctx path, none)

/-- A run of actions: the processing passes in order (one entry per action, `none` for an
action without a pass) and the final context. -/
def runActions :
    MpvPlayerContext → List PlayerAction → List (Option ProcessingPass) × MpvPlayerContext
  | ctx, [] => ([], ctx)
  | ctx, a :: rest =>
    ((stepAction ctx a).2 :: (runActions (stepAction ctx a).1 rest).1,
     (runActions (stepAction ctx a).1 rest).2)

/-- The action switches tracking on. -/
def enablesTracking : PlayerAction → Bool
  | PlayerAction.setTrackingActive true => true
  | _ => false

/-- The notification is a `ProcessingFrameReadyEvent`. -/
def isFrameReady : VideoplayerEvent → Bool
  | VideoplayerEvent.ProcessingFrameReadyEvent _ _ _ _ _ _ _ => true
  | _ => false

/-- The number of frame-ready notifications in the queue. -/
def frameReadyCount (events : List VideoplayerEvent) : Nat :=
  events.countP isFrameReady

/-- The slot that the last processing pass of a trace wrote, if there was a pass. -/
def lastWrittenSlot : List (Option ProcessingPass) → Option Int
  | [] => none
  | none :: rest => lastWrittenSlot rest
  | some pass :: rest =>
    match lastWrittenSlot rest with
    | some s => some s
    | none => some pass.writeIndex

/-- Slot `s` is mapped for reading by some pass of the trace before any pass of the trace
has written it again. -/
def staleRead (s : Int) : List (Option ProcessingPass) → Bool
  | [] => false
  | none :: rest => staleRead s rest
  | some pass :: rest =>
    if pass.readIndex = s then true
    else if pass.writeIndex = s then false
    else staleRead s rest

/-- Object names for a first resource creation. -/
def sampleNames : GLNames :=
  { framebuffer := 1, frameTexture := 2, processingFramebuffer := 3, processingTexture := 4,
    processingPBO := (5, 6), fullResFramebuffer := 7, fullResTexture := 8,
    croppedFramebuffer := 9, croppedTexture := 10, unwarpedFramebuffer := 11,
    unwarpedTexture := 12, quadVAO := 13, quadVBO := 14 }

/-- A newly constructed player after the decoder has reported a 3840x1920 clip (which
creates the readback buffers) and tracking has been switched on; no render tick has run. -/
def freshContext : MpvPlayerContext :=
  SetTrackingActive
    (ProcessEvents {}
      [{ event := MpvEvent.MPV_EVENT_PROPERTY_CHANGE (some (MpvProperty.MpvVideoWidth 3840)),
         now := 10, now2 := 10, gl := sampleNames },
       { event := MpvEvent.MPV_EVENT_PROPERTY_CHANGE (some (MpvProperty.MpvVideoHeight 1920)),
         now := 10, now2 := 10, gl := sampleNames }])
    true

/-- A pause-flag event with value true, handled at clock reading 1000. -/
def pauseEvent : MpvEventInput :=
  { event := MpvEvent.MPV_EVENT_PROPERTY_CHANGE (some (MpvProperty.MpvPauseState true)),
    now := 1000, now2 := 1000, gl := sampleNames }

/-- A playing 10-second clip at speed 1 that has reached its end (`logicalPosition` 1),
last position update at tick 0. -/
def endContext : MpvPlayerContext :=
  { data := { duration := 10, paused := false }, logicalPosition := Flt.fin 1,
    smoothTimer := 0 }

/-- A playing clip whose decoder reported a duration of 0. -/
def zeroDurationContext : MpvPlayerContext :=
  { data := { duration := 0, paused := false }, smoothTimer := 0 }

/-- A pause-flag event with value true, handled at clock reading 2000. -/
def secondPauseEvent : MpvEventInput :=
  { event := MpvEvent.MPV_EVENT_PROPERTY_CHANGE (some (MpvProperty.MpvPauseState true)),
    now := 2000, now2 := 2000, gl := sampleNames }

/-- A paused clip whose cached duration, `3 * 2^(-151)` seconds, is below the smallest
positive `float`, `2^(-149)`. -/
def tinyDurationContext : MpvPlayerContext :=
  { data := { duration := 3 / 2 ^ 151, paused := true } }

/-- A paused clip at its end (`logicalPosition` 1) whose cached duration, `2^200` seconds,
is above the largest `float`. -/
def hugeDurationContext : MpvPlayerContext :=
  { data := { duration := 2 ^ 200, paused := true }, logicalPosition := Flt.fin 1 }

/-- A paused 10-second clip whose logical position is a NaN. -/
def nanPositionContext : MpvPlayerContext :=
  { data := { duration := 10, paused := true }, logicalPosition := Flt.nan }

/-- The action is a call of `OpenVideo`. -/
def isOpenVideo : PlayerAction → Bool
  | PlayerAction.openVideo _ _ => true
  | _ => false

/-- The number of steps of a run in which the VR detection ran: `vrDetectionDone` was clear
before the step and is set after it. -/
def detectionRuns : MpvPlayerContext → List PlayerAction → Nat
  | _, [] => 0
  | ctx, a :: rest =>
    (if !ctx.vrDetectionDone && (stepAction ctx a).1.vrDetectionDone then 1 else 0) +
      detectionRuns (stepAction ctx a).1 rest

/-- A decoder event for a property change, handled at clock reading 10. -/
def propertyEvent (prop : MpvProperty) : MpvEventInput :=
  { event := MpvEvent.MPV_EVENT_PROPERTY_CHANGE (some prop), now := 10, now2 := 10,
    gl := sampleNames }

/-- The file-loaded event, handled at clock reading 10. -/
def fileLoadedEvent : MpvEventInput :=
  { event := MpvEvent.MPV_EVENT_FILE_LOADED, now := 10, now2 := 10, gl := sampleNames }

/-- Playback speed limits and seek default used in examples. -/
def sampleConstants : PlayerConstants :=
  { MinPlaybackSpeed := 1 / 20, MaxPlaybackSpeed := 5, pausesVideoDefault := false }

/-- A newly constructed player on which `OpenVideo` has been called and whose decoder has
so far reported the path and a width of 3840. -/
def openedContext : MpvPlayerContext :=
  ProcessEvents (OpenVideo sampleConstants {} "clip_vr.mp4")
    [propertyEvent (MpvProperty.MpvFilePath "clip_vr.mp4"),
     propertyEvent (MpvProperty.MpvVideoWidth 3840)]

/-- The relation `lt` is a strict weak ordering, which is what `std::lower_bound` and
`std::sort` require of `operator<`: irreflexive, transitive, and an element that is
neither below nor above another is below (above) whatever the other is. -/
structure StrictWeakOrder {T : Type} (lt : T → T → Bool) : Prop where
  irrefl : ∀ a, lt a a = false
  trans : ∀ a b c, lt a b = true → lt b c = true → lt a c = true
  incomp : ∀ a b c, lt a b = true → lt a c = true ∨ lt c b = true

/-- The contents are strictly increasing: every element is less than every later one. -/
def StrictlyIncreasing {T : Type} (lt : T → T → Bool) (v : List T) : Prop :=
  v.Pairwise (fun a b => lt a b = true)

/-- Two elements are equivalent: neither is less than the other. -/
def Equivalent {T : Type} (lt : T → T → Bool) (a b : T) : Prop :=
  lt a b = false ∧ lt b a = false

/-- The contents are ordered according to `Comparison`: no element compares before an
earlier one. -/
def OrderedBy {T : Type} (Comparison : T → T → Bool) (v : List T) : Prop :=
  v.Pairwise (fun a b => Comparison b a = false)

/-- The `operator<` of `int`. -/
def intLess (a b : Int) : Bool :=
  decide (a < b)

/-- The `operator==` of `int`. -/
def intEq (a b : Int) : Bool :=
  decide (a = b)

/-- A comparison type like `std::greater<int>`: `a > b`. -/
def intGreater (a b : Int) : Bool :=
  decide (b < a)

/-- The step of level `k` of the pyramid. -/
def lodStep (k : Nat) : Int :=
  10 ^ k


/-! ## binary32 rounding -/

theorem roundNearestEven_eq (q : ℚ) :
    roundNearestEven q =
      if q - ((⌊q⌋ : ℤ) : ℚ) < 1/2 then ⌊q⌋
      else if 1/2 < q - ((⌊q⌋ : ℤ) : ℚ) then ⌊q⌋ + 1
      else if ⌊q⌋ % 2 = 0 then ⌊q⌋ else ⌊q⌋ + 1 := rfl

theorem roundNearestEven_cases (q : ℚ) :
    (roundNearestEven q = ⌊q⌋ ∧ q - ⌊q⌋ ≤ 1/2) ∨
    (roundNearestEven q = ⌊q⌋ + 1 ∧ 1/2 ≤ q - ⌊q⌋) := by
  rw [roundNearestEven_eq]
  split_ifs with h1 h2 h3
  · exact Or.inl ⟨rfl, h1.le⟩
  · exact Or.inr ⟨rfl, h2.le⟩
  · exact Or.inl ⟨rfl, not_lt.mp h2⟩
  · exact Or.inr ⟨rfl, not_lt.mp h1⟩

theorem roundNearestEven_intCast (m : ℤ) : roundNearestEven (m : ℚ) = m := by
  rw [roundNearestEven_eq, Int.floor_intCast]
  simp

theorem roundNearestEven_mono {a b : ℚ} (h : a ≤ b) :
    roundNearestEven a ≤ roundNearestEven b := by
  have hf : ⌊a⌋ ≤ ⌊b⌋ := Int.floor_mono h
  rcases lt_or_eq_of_le hf with hlt | heq
  · have h1 : roundNearestEven a ≤ ⌊a⌋ + 1 := by
      rcases roundNearestEven_cases a with ⟨e, _⟩ | ⟨e, _⟩ <;> omega
    have h2 : ⌊b⌋ ≤ roundNearestEven b := by
      rcases roundNearestEven_cases b with ⟨e, _⟩ | ⟨e, _⟩ <;> omega
    omega
  · rw [roundNearestEven_eq a, roundNearestEven_eq b, ← heq]
    split_ifs <;> first | omega | (exfalso; linarith)

theorem two_zpow_pos (k : ℤ) : (0:ℚ) < 2 ^ k := zpow_pos (by norm_num) k

theorem floorLog2_spec (fuel : Nat) (q : ℚ) (hlo : (2:ℚ) ^ (-(fuel : ℤ)) ≤ q)
    (hhi : q < 2 ^ ((fuel : ℤ) + 1)) :
    (2:ℚ) ^ (floorLog2 fuel q) ≤ q ∧ q < 2 ^ (floorLog2 fuel q + 1) := by
  induction fuel generalizing q with
  | zero =>
    simp only [floorLog2]
    simpa using And.intro hlo hhi
  | succ n ih =>
    have h2 : (2:ℚ) ≠ 0 := by norm_num
    unfold floorLog2
    split_ifs with hge hlt
    · have hq : (2:ℚ) ^ (-(n : ℤ)) ≤ q / 2 := by
        have : (2:ℚ) ^ (-(n : ℤ)) ≤ 1 := by
          have := zpow_le_zpow_right₀ (show (1:ℚ) ≤ 2 by norm_num)
            (show -(n : ℤ) ≤ 0 by omega)
          simpa using this
        linarith
      have hq2 : q / 2 < 2 ^ ((n : ℤ) + 1) := by
        have e : (2:ℚ) ^ (((n + 1 : ℕ) : ℤ) + 1) = 2 ^ ((n : ℤ) + 1) * 2 := by
          push_cast
          rw [zpow_add_one₀ h2]
        rw [e] at hhi
        linarith
      obtain ⟨i1, i2⟩ := ih (q / 2) hq hq2
      constructor
      · rw [zpow_add_one₀ h2]
        linarith
      · rw [zpow_add_one₀ h2]
        linarith
    · have hq : (2:ℚ) ^ (-(n : ℤ)) ≤ q * 2 := by
        have e : (2:ℚ) ^ (-(n : ℤ)) = 2 ^ (-((n + 1 : ℕ) : ℤ)) * 2 := by
          rw [← zpow_add_one₀ h2]
          congr 1
          push_cast
          ring
        rw [e]
        linarith
      have hq2 : q * 2 < 2 ^ ((n : ℤ) + 1) := by
        have : (2:ℚ) ^ (0 + 1 : ℤ) ≤ 2 ^ ((n : ℤ) + 1) :=
          zpow_le_zpow_right₀ (by norm_num) (by omega)
        norm_num at this
        linarith
      obtain ⟨i1, i2⟩ := ih (q * 2) hq hq2
      constructor
      · rw [zpow_sub_one₀ h2]
        linarith
      · rw [sub_add_cancel]
        rw [zpow_add_one₀ h2] at i2
        linarith
    · constructor
      · simpa using not_lt.mp hlt
      · simpa using not_le.mp hge

theorem f32_of_pos (q : ℚ) (hq : 0 < q) :
    f32 q = roundNearestEven (q / (2:ℚ) ^ (max (floorLog2 300 q - 23) (-149))) *
      (2:ℚ) ^ (max (floorLog2 300 q - 23) (-149)) := by
  unfold f32
  rw [if_neg hq.ne', abs_of_pos hq, if_neg (not_lt.mpr hq.le)]
  simp

theorem f32_mono_pos (a b : ℚ) (ha : (2:ℚ) ^ (-(300:ℤ)) ≤ a) (hab : a ≤ b)
    (hb : b < 2 ^ ((300:ℤ) + 1)) : f32 a ≤ f32 b := by
  have h2 : (2:ℚ) ≠ 0 := by norm_num
  have h12 : (1:ℚ) < 2 := by norm_num
  have ha0 : 0 < a := lt_of_lt_of_le (two_zpow_pos _) ha
  have hb0 : 0 < b := lt_of_lt_of_le ha0 hab
  obtain ⟨a1, a2⟩ := floorLog2_spec 300 a (by exact_mod_cast ha)
    (by exact_mod_cast lt_of_le_of_lt hab hb)
  obtain ⟨b1, b2⟩ := floorLog2_spec 300 b (by exact_mod_cast le_trans ha hab)
    (by exact_mod_cast hb)
  rw [f32_of_pos a ha0, f32_of_pos b hb0]
  generalize floorLog2 300 a = ka at a1 a2 ⊢
  generalize floorLog2 300 b = kb at b1 b2 ⊢
  have hk : ka < kb + 1 :=
    (zpow_lt_zpow_iff_right₀ h12).mp (lt_of_le_of_lt a1 (lt_of_le_of_lt hab b2))
  rcases eq_or_lt_of_le (show max (ka - 23) (-149) ≤ max (kb - 23) (-149) from
      max_le_max (by omega) le_rfl) with he | he
  · rw [he]
    have hp := two_zpow_pos (max (kb - 23) (-149))
    have : a / 2 ^ (max (kb - 23) (-149)) ≤ b / 2 ^ (max (kb - 23) (-149)) :=
      div_le_div_of_nonneg_right hab hp.le
    have hm := roundNearestEven_mono this
    have hm' : ((roundNearestEven (a / 2 ^ (max (kb - 23) (-149))) : ℤ) : ℚ) ≤
        ((roundNearestEven (b / 2 ^ (max (kb - 23) (-149))) : ℤ) : ℚ) := by
      exact_mod_cast hm
    exact mul_le_mul_of_nonneg_right hm' hp.le
  · -- different binades: `2 ^ kb` separates the two results
    have hkb : max (kb - 23) (-149) = kb - 23 := by
      rcases le_total (kb - 23) (-149) with h | h
      · rw [max_eq_right h] at he
        have : max (ka - 23) (-149) ≥ -149 := le_max_right _ _
        omega
      · exact max_eq_left h
    rw [hkb] at he ⊢
    have hea : ka - 23 ≤ max (ka - 23) (-149) := le_max_left _ _
    generalize max (ka - 23) (-149) = ea at he hea ⊢
    have c24 : (((2 ^ 24 : ℤ) : ℤ) : ℚ) = (2:ℚ) ^ (24:ℤ) := by norm_num
    have c23 : (((2 ^ 23 : ℤ) : ℤ) : ℚ) = (2:ℚ) ^ (23:ℤ) := by norm_num
    have hA : a / 2 ^ ea ≤ (((2 ^ 24 : ℤ) : ℤ) : ℚ) := by
      rw [div_le_iff₀ (two_zpow_pos ea), c24, ← zpow_add₀ h2]
      exact le_trans a2.le (zpow_le_zpow_right₀ h12.le (by omega))
    have hB : (((2 ^ 23 : ℤ) : ℤ) : ℚ) ≤ b / 2 ^ (kb - 23) := by
      rw [le_div_iff₀ (two_zpow_pos _), c23, ← zpow_add₀ h2]
      exact le_trans (zpow_le_zpow_right₀ h12.le (by omega)) b1
    have rA := roundNearestEven_mono hA
    have rB := roundNearestEven_mono hB
    rw [roundNearestEven_intCast] at rA rB
    have rA' : ((roundNearestEven (a / 2 ^ ea) : ℤ) : ℚ) ≤ (2:ℚ) ^ (24:ℤ) := by
      rw [← c24]
      exact_mod_cast rA
    have rB' : (2:ℚ) ^ (23:ℤ) ≤ ((roundNearestEven (b / 2 ^ (kb - 23)) : ℤ) : ℚ) := by
      rw [← c23]
      exact_mod_cast rB
    calc ((roundNearestEven (a / 2 ^ ea) : ℤ) : ℚ) * 2 ^ ea
        ≤ (2:ℚ) ^ (24:ℤ) * 2 ^ ea := mul_le_mul_of_nonneg_right rA' (two_zpow_pos _).le
      _ = (2:ℚ) ^ (24 + ea) := (zpow_add₀ h2 _ _).symm
      _ ≤ (2:ℚ) ^ (23 + (kb - 23)) := zpow_le_zpow_right₀ h12.le (by omega)
      _ = (2:ℚ) ^ (23:ℤ) * 2 ^ (kb - 23) := zpow_add₀ h2 _ _
      _ ≤ ((roundNearestEven (b / 2 ^ (kb - 23)) : ℤ) : ℚ) * 2 ^ (kb - 23) :=
          mul_le_mul_of_nonneg_right rB' (two_zpow_pos _).le

theorem f32_intCast_exact (n : ℤ) (h0 : 0 < n) (h24 : n ≤ 2 ^ 24) : f32 (n : ℚ) = n := by
  have h2 : (2:ℚ) ≠ 0 := by norm_num
  have h12 : (1:ℚ) < 2 := by norm_num
  have hq0 : (0:ℚ) < n := by exact_mod_cast h0
  have hq1 : (1:ℚ) ≤ n := by exact_mod_cast h0
  have hq24 : (n:ℚ) ≤ (2:ℚ) ^ (24:ℤ) := by
    have h : (n:ℚ) ≤ ((2 ^ 24 : ℤ) : ℚ) := by exact_mod_cast h24
    have e : (((2 ^ 24 : ℤ) : ℤ) : ℚ) = (2:ℚ) ^ (24:ℤ) := by norm_num
    rw [e] at h
    exact h
  obtain ⟨a1, a2⟩ := floorLog2_spec 300 (n:ℚ)
    (le_trans (zpow_le_zpow_right₀ h12.le (by norm_num : -((300:ℕ):ℤ) ≤ 0))
      (by simpa using hq1))
    (lt_of_le_of_lt hq24 (zpow_lt_zpow_right₀ h12 (by norm_num)))
  rw [f32_of_pos _ hq0]
  generalize floorLog2 300 (n:ℚ) = k at a1 a2 ⊢
  have hk0 : 0 ≤ k := by
    have : (2:ℚ) ^ (0:ℤ) < 2 ^ (k + 1) := by
      rw [zpow_zero]
      exact lt_of_le_of_lt hq1 a2
    have := (zpow_lt_zpow_iff_right₀ h12).mp this
    omega
  have hk24 : k ≤ 24 := (zpow_le_zpow_iff_right₀ h12).mp (le_trans a1 hq24)
  rw [max_eq_left (by omega : (-149:ℤ) ≤ k - 23)]
  -- the scaled value is an integer
  have hint : ∃ m : ℤ, (n:ℚ) / 2 ^ (k - 23) = (m : ℚ) := by
    rcases le_or_lt k 23 with hle | hgt
    · refine ⟨n * 2 ^ (23 - k).toNat, ?_⟩
      have e : (2:ℚ) ^ (k - 23) = ((2:ℚ) ^ ((23 - k).toNat))⁻¹ := by
        rw [← zpow_natCast, ← zpow_neg, Int.toNat_of_nonneg (by omega)]
        congr 1
        ring
      rw [e]
      push_cast
      rw [div_inv_eq_mul]
    · have hk : k = 24 := by omega
      subst hk
      have hn : (n:ℚ) = (2:ℚ) ^ (24:ℤ) := le_antisymm hq24 a1
      refine ⟨2 ^ 23, ?_⟩
      rw [hn]
      norm_num
  obtain ⟨m, hm⟩ := hint
  rw [hm, roundNearestEven_intCast, ← hm]
  exact div_mul_cancel₀ _ (two_zpow_pos _).ne'

theorem GetAspectRatio_of_exact (width height : Int) (hw : 0 < width) (hw24 : width ≤ 2 ^ 24)
    (hh : 0 < height) (hh24 : height ≤ 2 ^ 24) :
    GetAspectRatio width height = f32 ((width : ℚ) / height) := by
  unfold GetAspectRatio
  rw [if_neg hh.ne', f32_intCast_exact width hw hw24, f32_intCast_exact height hh hh24]

/-- Under binary32 rounding the aspect test agrees with the exact quotient on dimensions that
convert to `float` without rounding: for `0 < width, height ≤ 2^24` and bounds
`lo ≤ width / height ≤ hi`, the computed aspect lies between the literals for `lo` and
`hi`. -/
theorem aspect_range_of_ratio (width height : Int) (lo hi : ℚ)
    (hw : 0 < width) (hw24 : width ≤ 2 ^ 24) (hh : 0 < height) (hh24 : height ≤ 2 ^ 24)
    (hlo0 : (2:ℚ) ^ (-(300:ℤ)) ≤ lo) (hlo : lo ≤ (width : ℚ) / height)
    (hhi : (width : ℚ) / height ≤ hi) (hhi0 : hi < 2 ^ ((300:ℤ) + 1)) :
    f32 lo ≤ GetAspectRatio width height ∧ GetAspectRatio width height ≤ f32 hi := by
  rw [GetAspectRatio_of_exact width height hw hw24 hh hh24]
  exact ⟨f32_mono_pos _ _ hlo0 hlo (lt_of_le_of_lt hhi hhi0),
    f32_mono_pos _ _ (le_trans hlo0 hlo) hhi hhi0⟩

/-- For dimensions up to `2^24` an exact ratio within `[1.8, 2.2]` passes `IsSBSAspect`. -/
theorem IsSBSAspect_of_ratio (width height : Int)
    (hw24 : width ≤ 2 ^ 24) (hh : 0 < height) (hh24 : height ≤ 2 ^ 24)
    (hlo : (9:ℚ) / 5 ≤ (width : ℚ) / height) (hhi : (width : ℚ) / height ≤ 11 / 5) :
    IsSBSAspect (GetAspectRatio width height) = true := by
  have hq : (0:ℚ) < (width : ℚ) / height := lt_of_lt_of_le (by norm_num) hlo
  have hhq : (0:ℚ) < height := by exact_mod_cast hh
  have hw : 0 < width := by
    have : (0:ℚ) < width := by
      by_contra hc
      have := div_nonpos_of_nonpos_of_nonneg (not_lt.mp hc) hhq.le
      linarith
    exact_mod_cast this
  have h1 : (2:ℚ) ^ (-(300:ℤ)) ≤ 9 / 5 :=
    le_trans (zpow_le_zpow_right₀ (by norm_num) (by norm_num : -(300:ℤ) ≤ 0)) (by norm_num)
  have h2 : (11:ℚ) / 5 < 2 ^ ((300:ℤ) + 1) :=
    lt_of_lt_of_le (by norm_num : (11:ℚ) / 5 < 2 ^ (2:ℤ))
      (zpow_le_zpow_right₀ (by norm_num) (by norm_num))
  obtain ⟨a, b⟩ := aspect_range_of_ratio width height (9/5) (11/5) hw hw24 hh hh24 h1 hlo hhi h2
  unfold IsSBSAspect
  simp [a, b]

/-- Beyond `2^24` the conversion to `float` rounds and the exact quotient no longer decides
the test: 60397989 / 33554438 is above 1.8, the computed aspect is below `1.8f`. -/
theorem aspect_rounding_above_2_pow_24 :
    (9:ℚ) / 5 ≤ (60397989 : ℚ) / 33554438 ∧
    IsSBSAspect (GetAspectRatio 60397989 33554438) = false := by
  decide!

/-! ## Rounding onto a binary format -/

theorem f32_eq_roundBinary (q : ℚ) : f32 q = roundBinary 23 (-149) 300 q := rfl

theorem roundBinary_of_pos (p : Nat) (emin : ℤ) (fuel : Nat) (q : ℚ) (hq : 0 < q) :
    roundBinary p emin fuel q =
      roundNearestEven (q / (2:ℚ) ^ (max (floorLog2 fuel q - p) emin)) *
        (2:ℚ) ^ (max (floorLog2 fuel q - p) emin) := by
  unfold roundBinary
  rw [if_neg hq.ne', abs_of_pos hq, if_neg (not_lt.mpr hq.le)]
  simp

theorem roundBinary_neg (p : Nat) (emin : ℤ) (fuel : Nat) (q : ℚ) :
    roundBinary p emin fuel (-q) = -roundBinary p emin fuel q := by
  unfold roundBinary
  rcases lt_trichotomy q 0 with h | h | h
  · have h1 : ¬ -q < 0 := by linarith
    rw [if_neg (by linarith : ¬ -q = 0), if_neg h.ne, abs_neg, if_neg h1, if_pos h]
    ring
  · simp [h]
  · have h1 : -q < 0 := by linarith
    rw [if_neg (by linarith : ¬ -q = 0), if_neg h.ne', abs_neg, if_pos h1,
      if_neg (not_lt.2 h.le)]
    ring

theorem roundNearestEven_nonneg {q : ℚ} (h : 0 ≤ q) : 0 ≤ roundNearestEven q := by
  have := roundNearestEven_mono h
  rwa [show (0:ℚ) = ((0:ℤ) : ℚ) by norm_num, roundNearestEven_intCast] at this

theorem roundBinary_nonneg (p : Nat) (emin : ℤ) (fuel : Nat) (q : ℚ) (h : 0 ≤ q) :
    0 ≤ roundBinary p emin fuel q := by
  rcases eq_or_lt_of_le h with h0 | hpos
  · rw [← h0]
    simp [roundBinary]
  · rw [roundBinary_of_pos p emin fuel q hpos]
    have h1 : 0 ≤ q / 2 ^ (max (floorLog2 fuel q - p) emin) :=
      div_nonneg h (two_zpow_pos _).le
    have h2 := roundNearestEven_nonneg h1
    exact mul_nonneg (by exact_mod_cast h2) (two_zpow_pos _).le

theorem floorLog2_tiny (fuel : Nat) (q : ℚ) (h : q < 2 ^ (-(fuel : ℤ))) :
    floorLog2 fuel q = -(fuel : ℤ) := by
  induction fuel generalizing q with
  | zero => simp [floorLog2]
  | succ n ih =>
    have h2 : (2:ℚ) ≠ 0 := by norm_num
    have hle : (2:ℚ) ^ (-((n + 1 : ℕ) : ℤ)) ≤ 1 / 2 := by
      have h3 : (2:ℚ) ^ (-((n + 1 : ℕ) : ℤ)) ≤ 2 ^ (-(1:ℤ)) :=
        zpow_le_zpow_right₀ (by norm_num) (by push_cast; omega)
      have h4 : (2:ℚ) ^ (-(1:ℤ)) = 1 / 2 := by norm_num
      rw [h4] at h3
      exact h3
    have hq1 : q < 1 := lt_of_lt_of_le h (le_trans hle (by norm_num))
    unfold floorLog2
    rw [if_neg (by linarith), if_pos hq1]
    have e : (2:ℚ) ^ (-(n : ℤ)) = 2 ^ (-((n + 1 : ℕ) : ℤ)) * 2 := by
      rw [← zpow_add_one₀ h2]
      congr 1
      push_cast
      ring
    rw [ih (q * 2) (by rw [e]; linarith)]
    push_cast
    ring

/-- A positive number below `2^(-fuel)` rounds to zero when the format's smallest value is
at least `2^(1 - fuel)`. -/
theorem roundBinary_tiny (p : Nat) (emin : ℤ) (fuel : Nat) (q : ℚ) (hq : 0 < q)
    (h : q < 2 ^ (-(fuel : ℤ))) (hf : 1 - (fuel : ℤ) ≤ emin) :
    roundBinary p emin fuel q = 0 := by
  have h2 : (2:ℚ) ≠ 0 := by norm_num
  rw [roundBinary_of_pos p emin fuel q hq, floorLog2_tiny fuel q h]
  have he : max (-(fuel : ℤ) - (p : ℤ)) emin = emin := max_eq_right (by omega)
  rw [he]
  have hx : q / 2 ^ emin < 1 / 2 := by
    rw [div_lt_iff₀ (two_zpow_pos _)]
    have : (2:ℚ) ^ (-(fuel : ℤ)) ≤ 1 / 2 * 2 ^ emin := by
      have e1 : (1:ℚ) / 2 * 2 ^ emin = 2 ^ (emin - 1) := by
        rw [zpow_sub_one₀ h2]
        ring
      rw [e1]
      exact zpow_le_zpow_right₀ (by norm_num) (by omega)
    linarith
  have hx0 : 0 ≤ q / 2 ^ emin := div_nonneg hq.le (two_zpow_pos _).le
  have hfl : ⌊q / 2 ^ emin⌋ = 0 := by
    rw [Int.floor_eq_iff]
    constructor
    · simpa using hx0
    · simp only [Int.cast_zero, zero_add]
      linarith
  have : roundNearestEven (q / 2 ^ emin) = 0 := by
    rw [roundNearestEven_eq, hfl]
    simp only [Int.cast_zero, sub_zero]
    rw [if_pos hx]
  rw [this]
  simp

theorem roundBinary_mono_pos (p : Nat) (emin : ℤ) (fuel : Nat) (a b : ℚ)
    (ha : (2:ℚ) ^ (-(fuel : ℤ)) ≤ a) (hab : a ≤ b) (hb : b < 2 ^ ((fuel : ℤ) + 1)) :
    roundBinary p emin fuel a ≤ roundBinary p emin fuel b := by
  have h2 : (2:ℚ) ≠ 0 := by norm_num
  have h12 : (1:ℚ) < 2 := by norm_num
  have ha0 : 0 < a := lt_of_lt_of_le (two_zpow_pos _) ha
  have hb0 : 0 < b := lt_of_lt_of_le ha0 hab
  obtain ⟨a1, a2⟩ := floorLog2_spec fuel a ha (lt_of_le_of_lt hab hb)
  obtain ⟨b1, b2⟩ := floorLog2_spec fuel b (le_trans ha hab) hb
  rw [roundBinary_of_pos p emin fuel a ha0, roundBinary_of_pos p emin fuel b hb0]
  generalize floorLog2 fuel a = ka at a1 a2 ⊢
  generalize floorLog2 fuel b = kb at b1 b2 ⊢
  have hk : ka < kb + 1 :=
    (zpow_lt_zpow_iff_right₀ h12).mp (lt_of_le_of_lt a1 (lt_of_le_of_lt hab b2))
  rcases eq_or_lt_of_le (show max (ka - p) emin ≤ max (kb - p) emin from
      max_le_max (by omega) le_rfl) with he | he
  · rw [he]
    have hp := two_zpow_pos (max (kb - p) emin)
    have : a / 2 ^ (max (kb - p) emin) ≤ b / 2 ^ (max (kb - p) emin) :=
      div_le_div_of_nonneg_right hab hp.le
    have hm := roundNearestEven_mono this
    have hm' : ((roundNearestEven (a / 2 ^ (max (kb - p) emin)) : ℤ) : ℚ) ≤
        ((roundNearestEven (b / 2 ^ (max (kb - p) emin)) : ℤ) : ℚ) := by
      exact_mod_cast hm
    exact mul_le_mul_of_nonneg_right hm' hp.le
  · have hkb : max (kb - p) emin = kb - p := by
      rcases le_total (kb - (p : ℤ)) emin with h | h
      · rw [max_eq_right h] at he
        have : max (ka - (p : ℤ)) emin ≥ emin := le_max_right _ _
        omega
      · exact max_eq_left h
    rw [hkb] at he ⊢
    have hea : ka - (p : ℤ) ≤ max (ka - p) emin := le_max_left _ _
    generalize max (ka - (p : ℤ)) emin = ea at he hea ⊢
    have c24 : (((2 ^ (p + 1) : ℤ) : ℤ) : ℚ) = (2:ℚ) ^ ((p : ℤ) + 1) := by
      push_cast
      rw [← zpow_natCast]
      push_cast
      rfl
    have c23 : (((2 ^ p : ℤ) : ℤ) : ℚ) = (2:ℚ) ^ (p : ℤ) := by
      push_cast
      rw [zpow_natCast]
    have hA : a / 2 ^ ea ≤ (((2 ^ (p + 1) : ℤ) : ℤ) : ℚ) := by
      rw [div_le_iff₀ (two_zpow_pos ea), c24, ← zpow_add₀ h2]
      exact le_trans a2.le (zpow_le_zpow_right₀ h12.le (by omega))
    have hB : (((2 ^ p : ℤ) : ℤ) : ℚ) ≤ b / 2 ^ (kb - (p : ℤ)) := by
      rw [le_div_iff₀ (two_zpow_pos _), c23, ← zpow_add₀ h2]
      exact le_trans (zpow_le_zpow_right₀ h12.le (by omega)) b1
    have rA := roundNearestEven_mono hA
    have rB := roundNearestEven_mono hB
    rw [roundNearestEven_intCast] at rA rB
    have rA' : ((roundNearestEven (a / 2 ^ ea) : ℤ) : ℚ) ≤ (2:ℚ) ^ ((p : ℤ) + 1) := by
      rw [← c24]
      exact_mod_cast rA
    have rB' : (2:ℚ) ^ (p : ℤ) ≤ ((roundNearestEven (b / 2 ^ (kb - (p : ℤ))) : ℤ) : ℚ) := by
      rw [← c23]
      exact_mod_cast rB
    calc ((roundNearestEven (a / 2 ^ ea) : ℤ) : ℚ) * 2 ^ ea
        ≤ (2:ℚ) ^ ((p : ℤ) + 1) * 2 ^ ea := mul_le_mul_of_nonneg_right rA' (two_zpow_pos _).le
      _ = (2:ℚ) ^ ((p : ℤ) + 1 + ea) := (zpow_add₀ h2 _ _).symm
      _ ≤ (2:ℚ) ^ ((p : ℤ) + (kb - p)) := zpow_le_zpow_right₀ h12.le (by omega)
      _ = (2:ℚ) ^ (p : ℤ) * 2 ^ (kb - (p : ℤ)) := zpow_add₀ h2 _ _
      _ ≤ ((roundNearestEven (b / 2 ^ (kb - (p : ℤ))) : ℤ) : ℚ) * 2 ^ (kb - (p : ℤ)) :=
          mul_le_mul_of_nonneg_right rB' (two_zpow_pos _).le

/-- Rounding is monotone on all numbers of magnitude below `2^(fuel + 1)`. -/
theorem roundBinary_mono (p : Nat) (emin : ℤ) (fuel : Nat) (hf : 1 - (fuel : ℤ) ≤ emin)
    (a b : ℚ) (hab : a ≤ b) (ha : -(2:ℚ) ^ ((fuel : ℤ) + 1) < a)
    (hb : b < 2 ^ ((fuel : ℤ) + 1)) :
    roundBinary p emin fuel a ≤ roundBinary p emin fuel b := by
  have key : ∀ x y : ℚ, 0 ≤ x → x ≤ y → y < 2 ^ ((fuel : ℤ) + 1) →
      roundBinary p emin fuel x ≤ roundBinary p emin fuel y := by
    intro x y hx hxy hy
    rcases eq_or_lt_of_le hx with h0 | hpos
    · rw [← h0]
      have : roundBinary p emin fuel 0 = 0 := by simp [roundBinary]
      rw [this]
      exact roundBinary_nonneg p emin fuel y (le_trans hx hxy)
    · rcases lt_or_le x (2 ^ (-(fuel : ℤ))) with ht | hn
      · rw [roundBinary_tiny p emin fuel x hpos ht hf]
        exact roundBinary_nonneg p emin fuel y (le_trans hx hxy)
      · exact roundBinary_mono_pos p emin fuel x y hn hxy hy
  rcases le_total 0 a with h0 | h0
  · exact key a b h0 hab hb
  · rcases le_total 0 b with hb0 | hb0
    · have h1 := roundBinary_nonneg p emin fuel b hb0
      have h2 := roundBinary_nonneg p emin fuel (-a) (by linarith)
      rw [roundBinary_neg] at h2
      linarith
    · have := key (-b) (-a) (by linarith) (by linarith) (by linarith)
      rw [roundBinary_neg, roundBinary_neg] at this
      linarith

theorem roundNearestEven_le (x : ℚ) : ((roundNearestEven x : ℤ) : ℚ) ≤ x + 1 / 2 := by
  have hfl := Int.floor_le x
  rcases roundNearestEven_cases x with ⟨e, _⟩ | ⟨e, h⟩
  · rw [e]
    linarith
  · rw [e]
    push_cast
    linarith

/-- In the normal range the rounded value is positive and exceeds the number by at most
the relative error `2^(-(p+1))`. -/
theorem roundBinary_normal (p : Nat) (emin : ℤ) (fuel : Nat) (q : ℚ)
    (hn : (2:ℚ) ^ (emin + p) ≤ q) (hlo : (2:ℚ) ^ (-(fuel : ℤ)) ≤ q)
    (hhi : q < 2 ^ ((fuel : ℤ) + 1)) :
    0 < roundBinary p emin fuel q ∧
    roundBinary p emin fuel q ≤ q * (1 + 2 ^ (-((p : ℤ) + 1))) := by
  have h2 : (2:ℚ) ≠ 0 := by norm_num
  have h12 : (1:ℚ) < 2 := by norm_num
  have hq : 0 < q := lt_of_lt_of_le (two_zpow_pos _) hlo
  obtain ⟨k1, k2⟩ := floorLog2_spec fuel q hlo hhi
  rw [roundBinary_of_pos p emin fuel q hq]
  generalize floorLog2 fuel q = k at k1 k2 ⊢
  have hk : emin + p < k + 1 :=
    (zpow_lt_zpow_iff_right₀ h12).mp (lt_of_le_of_lt hn k2)
  have he : max (k - (p : ℤ)) emin = k - p := max_eq_left (by omega)
  rw [he]
  have hpos := two_zpow_pos (k - (p : ℤ))
  constructor
  · have c23 : (((2 ^ p : ℤ) : ℤ) : ℚ) = (2:ℚ) ^ (p : ℤ) := by
      push_cast
      rw [zpow_natCast]
    have hB : (((2 ^ p : ℤ) : ℤ) : ℚ) ≤ q / 2 ^ (k - (p : ℤ)) := by
      rw [le_div_iff₀ hpos, c23, ← zpow_add₀ h2]
      exact le_trans (zpow_le_zpow_right₀ h12.le (by omega)) k1
    have rB := roundNearestEven_mono hB
    rw [roundNearestEven_intCast] at rB
    have : (0:ℤ) < roundNearestEven (q / 2 ^ (k - (p : ℤ))) :=
      lt_of_lt_of_le (by positivity) rB
    exact mul_pos (by exact_mod_cast this) hpos
  · have h1 := roundNearestEven_le (q / 2 ^ (k - (p : ℤ)))
    have h3 : ((roundNearestEven (q / 2 ^ (k - (p : ℤ))) : ℤ) : ℚ) * 2 ^ (k - (p : ℤ)) ≤
        (q / 2 ^ (k - (p : ℤ)) + 1 / 2) * 2 ^ (k - (p : ℤ)) :=
      mul_le_mul_of_nonneg_right h1 hpos.le
    have h4 : (q / 2 ^ (k - (p : ℤ)) + 1 / 2) * 2 ^ (k - (p : ℤ)) =
        q + 2 ^ k * 2 ^ (-((p : ℤ) + 1)) := by
      rw [add_mul, div_mul_cancel₀ _ hpos.ne', ← zpow_add₀ h2]
      have : (1:ℚ) / 2 * 2 ^ (k - (p : ℤ)) = 2 ^ (k - (p : ℤ) - 1) := by
        rw [zpow_sub_one₀ h2]
        ring
      rw [this]
      congr 2
      ring
    rw [h4] at h3
    have h5 : (2:ℚ) ^ k * 2 ^ (-((p : ℤ) + 1)) ≤ q * 2 ^ (-((p : ℤ) + 1)) :=
      mul_le_mul_of_nonneg_right k1 (two_zpow_pos _).le
    linarith

/-- A positive multiple `M * 2^E` of a power of two that is at least the unit in its last
place is a value of the format: rounding leaves it alone. -/
theorem roundBinary_exact (p : Nat) (emin : ℤ) (fuel : Nat) (M : ℤ) (E : ℤ) (hM : 0 < M)
    (hE : max (floorLog2 fuel ((M : ℚ) * 2 ^ E) - p) emin ≤ E) :
    roundBinary p emin fuel ((M : ℚ) * 2 ^ E) = (M : ℚ) * 2 ^ E := by
  have h2 : (2:ℚ) ≠ 0 := by norm_num
  have hx : (0:ℚ) < (M : ℚ) * 2 ^ E := mul_pos (by exact_mod_cast hM) (two_zpow_pos _)
  rw [roundBinary_of_pos p emin fuel _ hx]
  generalize max (floorLog2 fuel ((M : ℚ) * 2 ^ E) - p) emin = e at hE ⊢
  obtain ⟨n, hn⟩ : ∃ n : ℕ, E - e = n := ⟨(E - e).toNat, (Int.toNat_of_nonneg (by omega)).symm⟩
  have hdiv : (M : ℚ) * 2 ^ E / 2 ^ e = ((M * 2 ^ n : ℤ) : ℚ) := by
    rw [mul_div_assoc, ← zpow_sub₀ h2, hn]
    push_cast
    rw [zpow_natCast]
  rw [hdiv, roundNearestEven_intCast]
  push_cast
  rw [mul_assoc, ← zpow_natCast, ← hn, ← zpow_add₀ h2]
  congr 2
  ring

/-- Rounding is idempotent: a rounded value is a value of the format. -/
theorem roundBinary_idem (p : Nat) (emin : ℤ) (fuel : Nat) (q : ℚ)
    (hf : 1 - (fuel : ℤ) ≤ emin) (hpe : (p : ℤ) + emin < fuel)
    (hq0 : 0 ≤ q) (hhi : q < 2 ^ (fuel : ℤ)) :
    roundBinary p emin fuel (roundBinary p emin fuel q) = roundBinary p emin fuel q := by
  have h2 : (2:ℚ) ≠ 0 := by norm_num
  have h12 : (1:ℚ) < 2 := by norm_num
  have hz : roundBinary p emin fuel 0 = 0 := by simp [roundBinary]
  rcases eq_or_lt_of_le hq0 with h0 | hq
  · rw [← h0, hz, hz]
  rcases lt_or_le q (2 ^ (-(fuel : ℤ))) with ht | hlo
  · rw [roundBinary_tiny p emin fuel q hq ht hf, hz]
  have hhi1 : q < 2 ^ ((fuel : ℤ) + 1) :=
    lt_of_lt_of_le hhi (zpow_le_zpow_right₀ h12.le (by omega))
  obtain ⟨k1, k2⟩ := floorLog2_spec fuel q hlo hhi1
  rw [roundBinary_of_pos p emin fuel q hq]
  generalize floorLog2 fuel q = k at k1 k2 ⊢
  have hkf : k < fuel := (zpow_lt_zpow_iff_right₀ h12).mp (lt_of_le_of_lt k1 hhi)
  have hee : emin ≤ max (k - (p : ℤ)) emin := le_max_right _ _
  have hek : k - (p : ℤ) ≤ max (k - (p : ℤ)) emin := le_max_left _ _
  have hef : max (k - (p : ℤ)) emin + p < fuel := by
    rcases le_total (k - (p : ℤ)) emin with h | h
    · rw [max_eq_right h]; omega
    · rw [max_eq_left h]; omega
  generalize max (k - (p : ℤ)) emin = e at hee hek hef ⊢
  have c24 : (((2 ^ (p + 1) : ℤ) : ℤ) : ℚ) = (2:ℚ) ^ ((p : ℤ) + 1) := by
    push_cast
    rw [← zpow_natCast]
    push_cast
    rfl
  have hA : q / 2 ^ e ≤ (((2 ^ (p + 1) : ℤ) : ℤ) : ℚ) := by
    rw [div_le_iff₀ (two_zpow_pos e), c24, ← zpow_add₀ h2]
    exact le_trans k2.le (zpow_le_zpow_right₀ h12.le (by omega))
  have rA := roundNearestEven_mono hA
  rw [roundNearestEven_intCast] at rA
  have r0 := roundNearestEven_nonneg (div_nonneg hq.le (two_zpow_pos e).le)
  generalize roundNearestEven (q / 2 ^ e) = m at rA r0 ⊢
  rcases eq_or_lt_of_le r0 with hm0 | hmpos
  · rw [← hm0]
    simp [hz]
  rcases eq_or_lt_of_le rA with hmax | hlt
  · -- the significand overflowed to `2^(p+1)`: the value is `2^p * 2^(e+1)`
    have hx : (m : ℚ) * 2 ^ e = (((2 ^ p : ℤ) : ℤ) : ℚ) * 2 ^ (e + 1) := by
      rw [hmax]
      push_cast
      rw [zpow_add_one₀ h2]
      ring
    rw [hx]
    apply roundBinary_exact p emin fuel (2 ^ p) (e + 1) (by positivity)
    have hval : (((2 ^ p : ℤ) : ℤ) : ℚ) * 2 ^ (e + 1) = 2 ^ ((p : ℤ) + (e + 1)) := by
      push_cast
      rw [← zpow_natCast, ← zpow_add₀ h2]
    rw [hval]
    obtain ⟨s1, s2⟩ := floorLog2_spec fuel ((2:ℚ) ^ ((p : ℤ) + (e + 1)))
      (zpow_le_zpow_right₀ h12.le (by omega)) (zpow_lt_zpow_right₀ h12 (by omega))
    have t1 := (zpow_le_zpow_iff_right₀ h12).mp s1
    apply max_le <;> omega
  · -- the significand is below `2^(p+1)`: the unit in the last place does not grow
    apply roundBinary_exact p emin fuel m e hmpos
    have hxpos : (0:ℚ) < (m : ℚ) * 2 ^ e := mul_pos (by exact_mod_cast hmpos) (two_zpow_pos _)
    have hxlo : (2:ℚ) ^ (-(fuel : ℤ)) ≤ (m : ℚ) * 2 ^ e := by
      have h1 : (1:ℚ) ≤ (m : ℚ) := by exact_mod_cast hmpos
      calc (2:ℚ) ^ (-(fuel : ℤ)) ≤ 2 ^ e := zpow_le_zpow_right₀ h12.le (by omega)
        _ = 1 * 2 ^ e := (one_mul _).symm
        _ ≤ (m : ℚ) * 2 ^ e := mul_le_mul_of_nonneg_right h1 (two_zpow_pos _).le
    have hxhi : (m : ℚ) * 2 ^ e < 2 ^ ((p : ℤ) + 1 + e) := by
      rw [zpow_add₀ h2, ← c24]
      exact mul_lt_mul_of_pos_right (by exact_mod_cast hlt) (two_zpow_pos _)
    obtain ⟨s1, s2⟩ := floorLog2_spec fuel ((m : ℚ) * 2 ^ e) hxlo
      (lt_of_lt_of_le hxhi (zpow_le_zpow_right₀ h12.le (by omega)))
    have t1 := (zpow_lt_zpow_iff_right₀ h12).mp (lt_of_le_of_lt s1 hxhi)
    apply max_le <;> omega

theorem f32_mono (a b : ℚ) (hab : a ≤ b) (ha : -(2:ℚ) ^ (301:ℤ) < a)
    (hb : b < 2 ^ (301:ℤ)) : f32 a ≤ f32 b :=
  roundBinary_mono 23 (-149) 300 (by norm_num) a b hab ha hb

theorem f64_mono (a b : ℚ) (hab : a ≤ b) (ha : -(2:ℚ) ^ (1201:ℤ) < a)
    (hb : b < 2 ^ (1201:ℤ)) : f64 a ≤ f64 b :=
  roundBinary_mono 52 (-1074) 1200 (by norm_num) a b hab ha hb

theorem f32_nonneg (q : ℚ) (h : 0 ≤ q) : 0 ≤ f32 q :=
  roundBinary_nonneg 23 (-149) 300 q h

theorem f64_nonneg (q : ℚ) (h : 0 ≤ q) : 0 ≤ f64 q :=
  roundBinary_nonneg 52 (-1074) 1200 q h

theorem f32_idem (q : ℚ) (h0 : 0 ≤ q) (h1 : q < 2 ^ (300:ℤ)) : f32 (f32 q) = f32 q :=
  roundBinary_idem 23 (-149) 300 q (by norm_num) (by norm_num) h0 h1

/-- A duration in the normal `float` range converts to a positive `float` that exceeds it
by at most the relative error `2^(-24)`. -/
theorem f32_normal (q : ℚ) (hlo : (2:ℚ) ^ (-126:ℤ) ≤ q) (hhi : q < 2 ^ (301:ℤ)) :
    0 < f32 q ∧ f32 q ≤ q * (1 + 2 ^ (-(24:ℤ))) := by
  have h := roundBinary_normal 23 (-149) 300 q (by exact_mod_cast hlo)
    (le_trans (zpow_le_zpow_right₀ (by norm_num) (by norm_num)) hlo) hhi
  exact h

theorem f32_zero : f32 0 = 0 := by
  simp [f32]

theorem f64_zero : f64 0 = 0 := by
  simp [f64, roundBinary]

theorem rounding_of_one_plus_half_ulp :
    f64 (1 + 2 ^ (-(24:ℤ))) = 1 + 2 ^ (-(24:ℤ)) ∧ f32 (1 + 2 ^ (-(24:ℤ))) = 1 := by
  decide!

/-! ## Arithmetic on `Flt` -/

theorem round32_fin (q : ℚ) (h : |q| < 2 ^ 128 - 2 ^ 103) :
    Flt.round32 (Flt.fin q) = Flt.fin (f32 q) := by
  unfold Flt.round32
  simp only
  rw [if_neg (not_le.2 h)]

theorem round64_fin (q : ℚ) (h : |q| < 2 ^ 1024 - 2 ^ 970) :
    Flt.round64 (Flt.fin q) = Flt.fin (f64 q) := by
  unfold Flt.round64
  simp only
  rw [if_neg (not_le.2 h)]

theorem round32_ne_nan (x : Flt) (h : x ≠ Flt.nan) : Flt.round32 x ≠ Flt.nan := by
  cases x with
  | fin q =>
    unfold Flt.round32
    simp only
    split_ifs <;> simp
  | inf s => simp [Flt.round32]
  | nan => exact absurd rfl h

theorem round64_ne_nan (x : Flt) (h : x ≠ Flt.nan) : Flt.round64 x ≠ Flt.nan := by
  cases x with
  | fin q =>
    unfold Flt.round64
    simp only
    split_ifs <;> simp
  | inf s => simp [Flt.round64]
  | nan => exact absurd rfl h

theorem round32_of_not_fin (x : Flt) (h : ∀ q, x ≠ Flt.fin q) : Flt.round32 x = x := by
  cases x with
  | fin q => exact absurd rfl (h q)
  | inf s => rfl
  | nan => rfl

theorem round64_of_not_fin (x : Flt) (h : ∀ q, x ≠ Flt.fin q) : Flt.round64 x = x := by
  cases x with
  | fin q => exact absurd rfl (h q)
  | inf s => rfl
  | nan => rfl

/-- Clamping a value that is not a NaN between 0 and a finite bound gives a finite value
in that range. -/
theorem Clamp_zero_range (v : Flt) (m : ℚ) (hv : v ≠ Flt.nan) (hm : 0 ≤ m) :
    ∃ c : ℚ, Util.Clamp v (Flt.fin 0) (Flt.fin m) = Flt.fin c ∧ 0 ≤ c ∧ c ≤ m := by
  unfold Util.Clamp
  cases v with
  | fin a =>
    simp only [Flt.lt, decide_eq_true_eq]
    split_ifs with h1 h2
    · exact ⟨0, rfl, le_refl _, hm⟩
    · exact ⟨m, rfl, hm, le_refl _⟩
    · exact ⟨a, rfl, not_lt.1 h1, not_lt.1 h2⟩
  | inf s =>
    cases s with
    | true => exact ⟨0, by simp [Flt.lt], le_refl _, hm⟩
    | false => exact ⟨m, by simp [Flt.lt], hm, le_refl _⟩
  | nan => exact absurd rfl hv

theorem float_bound_lt : (2:ℚ) ^ 128 - 2 ^ 103 < 2 ^ (300:ℤ) := by
  norm_num

/-- The relative position computed by `SetPositionExact` for a duration in the normal
`float` range: the quotient of the clamped time by the duration, as `float`, is a number
between 0 and 1, and a conversion to `float` leaves it as it is. -/
theorem relPos_range (D : ℚ) (v : Flt) (hlo : (2:ℚ) ^ (-126:ℤ) ≤ D)
    (hhi : D < 2 ^ 128 - 2 ^ 103) (hv : v ≠ Flt.nan) :
    ∃ r : ℚ, 0 ≤ r ∧ r ≤ 1 ∧
      Flt.round32 (Flt.div64 (Util.Clamp (Flt.round32 v) (Flt.fin 0)
        (Flt.round32 (Flt.fin D))) (Flt.fin D)) = Flt.fin r ∧
      Flt.round32 (Flt.fin r) = Flt.fin r := by
  have hD : 0 < D := lt_of_lt_of_le (two_zpow_pos _) hlo
  have hD301 : D < 2 ^ (301:ℤ) :=
    lt_trans hhi (lt_trans float_bound_lt (zpow_lt_zpow_right₀ (by norm_num) (by norm_num)))
  obtain ⟨m1, m2⟩ := f32_normal D hlo hD301
  have hmx : Flt.round32 (Flt.fin D) = Flt.fin (f32 D) :=
    round32_fin D (by rw [abs_of_pos hD]; exact hhi)
  obtain ⟨c, hc, c0, c1⟩ := Clamp_zero_range (Flt.round32 v) (f32 D)
    (round32_ne_nan v hv) m1.le
  rw [hmx, hc]
  have hy0 : 0 ≤ c / D := div_nonneg c0 hD.le
  have hy1 : c / D ≤ 1 + 2 ^ (-(24:ℤ)) := by
    rw [div_le_iff₀ hD]
    calc c ≤ f32 D := c1
      _ ≤ D * (1 + 2 ^ (-(24:ℤ))) := m2
      _ = (1 + 2 ^ (-(24:ℤ))) * D := mul_comm _ _
  have hsmall : (1:ℚ) + 2 ^ (-(24:ℤ)) < 2 := by norm_num
  have hdiv : Flt.div64 (Flt.fin c) (Flt.fin D) = Flt.fin (f64 (c / D)) := by
    unfold Flt.div64 Flt.div
    simp only
    rw [if_neg hD.ne']
    apply round64_fin
    rw [abs_of_nonneg hy0]
    exact lt_of_le_of_lt hy1 (lt_trans hsmall (by norm_num))
  obtain ⟨e64, e32⟩ := rounding_of_one_plus_half_ulp
  have hz0 : 0 ≤ f64 (c / D) := f64_nonneg _ hy0
  have hz1 : f64 (c / D) ≤ 1 + 2 ^ (-(24:ℤ)) := by
    rw [← e64]
    exact f64_mono _ _ hy1 (lt_of_lt_of_le (by norm_num) hy0)
      (lt_trans hsmall (by norm_num))
  have hr0 : 0 ≤ f32 (f64 (c / D)) := f32_nonneg _ hz0
  have hr1 : f32 (f64 (c / D)) ≤ 1 := by
    rw [← e32]
    exact f32_mono _ _ hz1 (lt_of_lt_of_le (by norm_num) hz0)
      (lt_trans hsmall (by norm_num))
  refine ⟨f32 (f64 (c / D)), hr0, hr1, ?_, ?_⟩
  · rw [hdiv]
    apply round32_fin
    rw [abs_of_nonneg hz0]
    exact lt_of_le_of_lt hz1 (lt_trans hsmall (by norm_num))
  · rw [round32_fin _ (by
      rw [abs_of_nonneg hr0]
      exact lt_of_le_of_lt hr1 (by norm_num))]
    rw [f32_idem _ hz0 (lt_of_le_of_lt hz1 (lt_trans hsmall (by norm_num)))]

/-! ## The playback clock: infinities and NaN -/

theorem div_zero_not_fin (x : Flt) : ∀ q, Flt.div x (Flt.fin 0) ≠ Flt.fin q := by
  intro q
  cases x with
  | fin a =>
    unfold Flt.div
    simp only [if_true]
    split_ifs <;> simp
  | inf s => simp [Flt.div]
  | nan => simp [Flt.div]

theorem add_not_fin (l y : Flt) (hy : ∀ q, y ≠ Flt.fin q) : ∀ q, Flt.add l y ≠ Flt.fin q := by
  intro q
  cases y with
  | fin b => exact absurd rfl (hy b)
  | inf t =>
    cases l with
    | fin a => simp [Flt.add]
    | inf s =>
      unfold Flt.add
      simp only
      split_ifs <;> simp
    | nan => simp [Flt.add]
  | nan =>
    cases l <;> simp [Flt.add]

theorem mul_zero_of_not_fin (y : Flt) (hy : ∀ q, y ≠ Flt.fin q) :
    Flt.mul y (Flt.fin 0) = Flt.nan := by
  cases y with
  | fin b => exact absurd rfl (hy b)
  | inf t => simp [Flt.mul]
  | nan => simp [Flt.mul]

/-- With a cached duration of 0 the position offset is an infinity or a NaN. -/
theorem positionOffset_zero_duration (ctx : MpvPlayerContext) (now : Nat)
    (hd : ctx.data.duration = 0) : ∀ q, positionOffset ctx now ≠ Flt.fin q := by
  unfold positionOffset Flt.div64
  rw [hd]
  have h := div_zero_not_fin
    (Flt.mul64 (timeSinceLastUpdate now ctx.smoothTimer) (Flt.fin ctx.data.currentSpeed))
  rw [round64_of_not_fin _ h, round32_of_not_fin _ h]
  exact h

theorem add32_not_fin (l y : Flt) (hy : ∀ q, y ≠ Flt.fin q) :
    ∀ q, Flt.add32 l y ≠ Flt.fin q := by
  unfold Flt.add32
  rw [round32_of_not_fin _ (add_not_fin l y hy)]
  exact add_not_fin l y hy

theorem mul64_zero_of_not_fin (y : Flt) (hy : ∀ q, y ≠ Flt.fin q) :
    Flt.mul64 y (Flt.fin 0) = Flt.nan := by
  unfold Flt.mul64
  rw [mul_zero_of_not_fin y hy]
  rfl

theorem mul64_fin_zero (x : ℚ) : Flt.mul64 (Flt.fin x) (Flt.fin 0) = Flt.fin 0 := by
  unfold Flt.mul64 Flt.mul
  simp only [mul_zero]
  rw [round64_fin 0 (by norm_num), f64_zero]

theorem positionOffset_eq (ctx : MpvPlayerContext) (now : Nat) :
    positionOffset ctx now =
      Flt.round32 (Flt.div64
        (Flt.mul64
          (Flt.div32 (Flt.round32 (Flt.fin (ticksSince now ctx.smoothTimer))) (Flt.fin 1000))
          (Flt.fin ctx.data.currentSpeed))
        (Flt.fin ctx.data.duration)) := rfl

theorem ticksSince_lt (now timer : Nat) : ticksSince now timer < 2 ^ 64 := by
  unfold ticksSince
  have h := Int.emod_lt_of_pos ((now : Int) - (timer : Int)) (by norm_num : (0:Int) < 2 ^ 64)
  have h0 := Int.emod_nonneg ((now : Int) - (timer : Int)) (by norm_num : (2:Int) ^ 64 ≠ 0)
  omega

theorem mul_fin_ne_nan (y : Flt) (b : ℚ) (hy : y ≠ Flt.nan) (hb : b ≠ 0) :
    Flt.mul y (Flt.fin b) ≠ Flt.nan := by
  cases y with
  | fin a => simp [Flt.mul]
  | inf s => simp [Flt.mul, hb]
  | nan => exact absurd rfl hy

theorem div_fin_ne_nan (y : Flt) (b : ℚ) (hy : y ≠ Flt.nan) (hb : b ≠ 0) :
    Flt.div y (Flt.fin b) ≠ Flt.nan := by
  cases y with
  | fin a => simp [Flt.div, hb]
  | inf s => simp [Flt.div]
  | nan => exact absurd rfl hy

theorem add_fin_ne_nan (a : ℚ) (y : Flt) (hy : y ≠ Flt.nan) :
    Flt.add (Flt.fin a) y ≠ Flt.nan := by
  cases y with
  | fin b => simp [Flt.add]
  | inf s => simp [Flt.add]
  | nan => exact absurd rfl hy

theorem add_ne_nan_fin (y : Flt) (b : ℚ) (hy : y ≠ Flt.nan) :
    Flt.add y (Flt.fin b) ≠ Flt.nan := by
  cases y with
  | fin a => simp [Flt.add]
  | inf s => simp [Flt.add]
  | nan => exact absurd rfl hy

theorem stdMax_ne_nan (y : Flt) (b : ℚ) (hy : y ≠ Flt.nan) :
    Flt.stdMax y (Flt.fin b) ≠ Flt.nan := by
  unfold Flt.stdMax
  split_ifs
  · simp
  · exact hy

/-- The elapsed time `(SDL_GetTicks64() - smoothTimer) / 1000.f` is a finite number. -/
theorem timeSinceLastUpdate_fin (now timer : Nat) :
    ∃ q : ℚ, timeSinceLastUpdate now timer = Flt.fin q := by
  have hlt := ticksSince_lt now timer
  have h0 : (0:ℚ) ≤ (ticksSince now timer : ℚ) := Nat.cast_nonneg _
  have h1 : (ticksSince now timer : ℚ) ≤ 2 ^ 64 := by
    exact_mod_cast hlt.le
  have e64 : f32 ((2:ℚ) ^ 64) = 2 ^ 64 := by decide!
  have hr : Flt.round32 (Flt.fin (ticksSince now timer : ℚ)) =
      Flt.fin (f32 (ticksSince now timer : ℚ)) := by
    apply round32_fin
    rw [abs_of_nonneg h0]
    exact lt_of_le_of_lt h1 (by norm_num)
  have f0 : 0 ≤ f32 (ticksSince now timer : ℚ) := f32_nonneg _ h0
  have f1 : f32 (ticksSince now timer : ℚ) ≤ 2 ^ 64 := by
    rw [← e64]
    exact f32_mono _ _ h1 (lt_of_lt_of_le (by norm_num) h0) (by norm_num)
  unfold timeSinceLastUpdate Flt.div32
  rw [hr]
  unfold Flt.div
  simp only
  rw [if_neg (by norm_num)]
  refine ⟨_, round32_fin _ ?_⟩
  rw [abs_of_nonneg (div_nonneg f0 (by norm_num))]
  calc f32 (ticksSince now timer : ℚ) / 1000 ≤ 2 ^ 64 / 1000 :=
        div_le_div_of_nonneg_right f1 (by norm_num)
    _ < 2 ^ 128 - 2 ^ 103 := by norm_num

/-- With a nonzero duration the position offset is not a NaN. -/
theorem positionOffset_ne_nan (ctx : MpvPlayerContext) (now : Nat)
    (hD : ctx.data.duration ≠ 0) : positionOffset ctx now ≠ Flt.nan := by
  obtain ⟨q, hq⟩ := timeSinceLastUpdate_fin now ctx.smoothTimer
  unfold positionOffset
  rw [hq]
  apply round32_ne_nan
  unfold Flt.div64
  apply round64_ne_nan
  apply div_fin_ne_nan _ _ _ hD
  unfold Flt.mul64
  apply round64_ne_nan
  simp [Flt.mul]

/-- With a nonzero duration and a finite logical position `CurrentTime()` is not a NaN. -/
theorem CurrentTime_ne_nan (ctx : MpvPlayerContext) (now : Nat) (x : ℚ)
    (hD : ctx.data.duration ≠ 0) (hl : ctx.logicalPosition = Flt.fin x) :
    CurrentTime ctx now ≠ Flt.nan := by
  unfold CurrentTime
  rw [hl]
  split_ifs
  · unfold Flt.mul64
    apply round64_ne_nan
    simp [Flt.mul]
  · simp only
    unfold Flt.mul64
    apply round64_ne_nan
    apply mul_fin_ne_nan _ _ _ hD
    unfold Flt.add32
    apply round32_ne_nan
    exact add_fin_ne_nan _ _ (positionOffset_ne_nan ctx now hD)

theorem SetPositionPercent_position (ctx : MpvPlayerContext) (p : Flt) (pausesVideo : Bool) :
    (SetPositionPercent ctx p pausesVideo).logicalPosition = Flt.round32 p ∧
    (SetPositionPercent ctx p pausesVideo).data.percentPos = Flt.round32 p := by
  unfold SetPositionPercent SetPaused
  simp only
  split_ifs <;> exact ⟨rfl, rfl⟩

theorem SetPositionExact_eq (ctx : MpvPlayerContext) (t : Flt) (pausesVideo : Bool) :
    SetPositionExact ctx t pausesVideo =
      SetPositionPercent ctx
        (Flt.round32 (Flt.div64 (Util.Clamp (Flt.round32 t) (Flt.fin 0)
          (Flt.round32 (Flt.fin (Duration ctx)))) (Flt.fin (Duration ctx)))) pausesVideo :=
  rfl

theorem SeekRelative_eq (k : PlayerConstants) (ctx : MpvPlayerContext) (t : Flt)
    (now : Nat) :
    SeekRelative k ctx t now =
      SetPositionExact ctx
        (Flt.stdMax (Flt.add64 (CurrentTime ctx now) (Flt.round32 t)) (Flt.fin 0))
        k.pausesVideoDefault :=
  rfl

/-- The position set by `SetPositionExact` for a duration in the normal `float` range and
an argument that is not a NaN. -/
theorem SetPositionExact_position (ctx : MpvPlayerContext) (t : Flt) (pausesVideo : Bool)
    (hlo : (2:ℚ) ^ (-126:ℤ) ≤ Duration ctx) (hhi : Duration ctx < 2 ^ 128 - 2 ^ 103)
    (ht : t ≠ Flt.nan) :
    ∃ r : ℚ, 0 ≤ r ∧ r ≤ 1 ∧
      Flt.round32 (Flt.div64 (Util.Clamp (Flt.round32 t) (Flt.fin 0)
        (Flt.round32 (Flt.fin (Duration ctx)))) (Flt.fin (Duration ctx))) = Flt.fin r ∧
      (SetPositionExact ctx t pausesVideo).logicalPosition = Flt.fin r ∧
      (SetPositionExact ctx t pausesVideo).data.percentPos = Flt.fin r := by
  obtain ⟨r, r0, r1, hr, hid⟩ := relPos_range (Duration ctx) t hlo hhi ht
  refine ⟨r, r0, r1, hr, ?_, ?_⟩
  · rw [SetPositionExact_eq, (SetPositionPercent_position _ _ _).1, hr, hid]
  · rw [SetPositionExact_eq, (SetPositionPercent_position _ _ _).2, hr, hid]

/-- The time that `SetPositionExact(t)` turns into a position, for a finite `t`: the
`float` nearest to `t`, clamped between 0 and the `float` nearest to the duration. -/
theorem Clamp_fin (a m : ℚ) (hm : 0 ≤ m) :
    Util.Clamp (Flt.fin a) (Flt.fin 0) (Flt.fin m) = Flt.fin (max 0 (min a m)) := by
  unfold Util.Clamp
  simp only [Flt.lt, decide_eq_true_eq]
  split_ifs with h1 h2
  · rw [max_eq_left (le_trans (min_le_left _ _) h1.le)]
  · rw [min_eq_right h2.le, max_eq_right hm]
  · rw [min_eq_left (not_lt.1 h2), max_eq_right (not_lt.1 h1)]

theorem round32_fin_eq (q r : ℚ) (h : Flt.round32 (Flt.fin q) = Flt.fin r) : r = f32 q := by
  unfold Flt.round32 at h
  simp only at h
  split_ifs at h
  exact (Flt.fin.inj h).symm

theorem round64_fin_eq (q r : ℚ) (h : Flt.round64 (Flt.fin q) = Flt.fin r) : r = f64 q := by
  unfold Flt.round64 at h
  simp only at h
  split_ifs at h
  exact (Flt.fin.inj h).symm

/-- The value of the position set by `SetPositionExact` for a finite argument. -/
theorem relPos_value (D t r : ℚ) (hD : 0 < D) (hhi : D < 2 ^ 128 - 2 ^ 103)
    (ht : |t| < 2 ^ 128 - 2 ^ 103)
    (hr : Flt.round32 (Flt.div64 (Util.Clamp (Flt.round32 (Flt.fin t)) (Flt.fin 0)
      (Flt.round32 (Flt.fin D))) (Flt.fin D)) = Flt.fin r) :
    r = f32 (f64 (max 0 (min (f32 t) (f32 D)) / D)) := by
  rw [round32_fin t ht, round32_fin D (by rw [abs_of_pos hD]; exact hhi),
    Clamp_fin _ _ (f32_nonneg _ hD.le)] at hr
  unfold Flt.div64 Flt.div at hr
  simp only at hr
  rw [if_neg hD.ne'] at hr
  cases hq : Flt.round64 (Flt.fin (max 0 (min (f32 t) (f32 D)) / D)) with
  | fin y =>
    rw [hq] at hr
    rw [round32_fin_eq _ _ hr, round64_fin_eq _ _ hq]
  | inf s =>
    rw [hq] at hr
    exact Flt.noConfusion hr
  | nan =>
    rw [hq] at hr
    exact Flt.noConfusion hr

theorem ticksSince_of_le (now timer : Nat) (h1 : timer ≤ now) (h2 : now < 2 ^ 64) :
    ticksSince now timer = now - timer := by
  unfold ticksSince
  omega

/-! ## Relative error of the roundings -/

theorem roundNearestEven_ge (x : ℚ) : x - 1 / 2 ≤ ((roundNearestEven x : ℤ) : ℚ) := by
  have hfl := Int.lt_floor_add_one x
  rcases roundNearestEven_cases x with ⟨e, h⟩ | ⟨e, _⟩
  · rw [e]
    linarith
  · rw [e]
    push_cast
    linarith

/-- In the normal range the rounded value is below the number by at most the relative
error `2^(-(p+1))`. -/
theorem roundBinary_normal_lower (p : Nat) (emin : ℤ) (fuel : Nat) (q : ℚ)
    (hn : (2:ℚ) ^ (emin + p) ≤ q) (hlo : (2:ℚ) ^ (-(fuel : ℤ)) ≤ q)
    (hhi : q < 2 ^ ((fuel : ℤ) + 1)) :
    q * (1 - 2 ^ (-((p : ℤ) + 1))) ≤ roundBinary p emin fuel q := by
  have h2 : (2:ℚ) ≠ 0 := by norm_num
  have h12 : (1:ℚ) < 2 := by norm_num
  have hq : 0 < q := lt_of_lt_of_le (two_zpow_pos _) hlo
  obtain ⟨k1, k2⟩ := floorLog2_spec fuel q hlo hhi
  rw [roundBinary_of_pos p emin fuel q hq]
  generalize floorLog2 fuel q = k at k1 k2 ⊢
  have hk : emin + p < k + 1 :=
    (zpow_lt_zpow_iff_right₀ h12).mp (lt_of_le_of_lt hn k2)
  have he : max (k - (p : ℤ)) emin = k - p := max_eq_left (by omega)
  rw [he]
  have hpos := two_zpow_pos (k - (p : ℤ))
  have h1 := roundNearestEven_ge (q / 2 ^ (k - (p : ℤ)))
  have h3 : (q / 2 ^ (k - (p : ℤ)) - 1 / 2) * 2 ^ (k - (p : ℤ)) ≤
      ((roundNearestEven (q / 2 ^ (k - (p : ℤ))) : ℤ) : ℚ) * 2 ^ (k - (p : ℤ)) :=
    mul_le_mul_of_nonneg_right h1 hpos.le
  have h4 : (q / 2 ^ (k - (p : ℤ)) - 1 / 2) * 2 ^ (k - (p : ℤ)) =
      q - 2 ^ k * 2 ^ (-((p : ℤ) + 1)) := by
    rw [sub_mul, div_mul_cancel₀ _ hpos.ne', ← zpow_add₀ h2]
    have : (1:ℚ) / 2 * 2 ^ (k - (p : ℤ)) = 2 ^ (k - (p : ℤ) - 1) := by
      rw [zpow_sub_one₀ h2]
      ring
    rw [this]
    congr 2
    ring
  rw [h4] at h3
  have h5 : (2:ℚ) ^ k * 2 ^ (-((p : ℤ) + 1)) ≤ q * 2 ^ (-((p : ℤ) + 1)) :=
    mul_le_mul_of_nonneg_right k1 (two_zpow_pos _).le
  linarith

/-- The relative error of a conversion to `float` in the normal range is at most
`2^(-24)`. -/
theorem f32_rel (q : ℚ) (hlo : (2:ℚ) ^ (-126:ℤ) ≤ q) (hhi : q < 2 ^ (301:ℤ)) :
    q * (1 - 2 ^ (-(24:ℤ))) ≤ f32 q ∧ f32 q ≤ q * (1 + 2 ^ (-(24:ℤ))) := by
  have hl := roundBinary_normal_lower 23 (-149) 300 q (by exact_mod_cast hlo)
    (le_trans (zpow_le_zpow_right₀ (by norm_num) (by norm_num)) hlo) hhi
  exact ⟨hl, (f32_normal q hlo hhi).2⟩

/-- The relative error of a rounding to `double` in the normal range is at most
`2^(-53)`. -/
theorem f64_rel (q : ℚ) (hlo : (2:ℚ) ^ (-1022:ℤ) ≤ q) (hhi : q < 2 ^ (1201:ℤ)) :
    q * (1 - 2 ^ (-(53:ℤ))) ≤ f64 q ∧ f64 q ≤ q * (1 + 2 ^ (-(53:ℤ))) := by
  have hl := roundBinary_normal_lower 52 (-1074) 1200 q (by exact_mod_cast hlo)
    (le_trans (zpow_le_zpow_right₀ (by norm_num) (by norm_num)) hlo) hhi
  have hu := roundBinary_normal 52 (-1074) 1200 q (by exact_mod_cast hlo)
    (le_trans (zpow_le_zpow_right₀ (by norm_num) (by norm_num)) hlo) hhi
  exact ⟨hl, hu.2⟩

/-- A conversion to `float` of a value `x` that is within the relative error `c` of a
positive number `y` is finite and within the relative error `c2` of `y`, when `c2`
absorbs one more rounding. -/
theorem round32_encl (x y c c2 : ℚ) (hc1 : c ≤ 1 / 2)
    (hA : 1 / 2 ^ 125 ≤ y) (hB : y ≤ 2 ^ 126)
    (h : y * (1 - c) ≤ x ∧ x ≤ y * (1 + c))
    (hu : (1 + c) * (1 + 1 / 2 ^ 24) ≤ 1 + c2)
    (hl : 1 - c2 ≤ (1 - c) * (1 - 1 / 2 ^ 24)) :
    Flt.round32 (Flt.fin x) = Flt.fin (f32 x) ∧
    y * (1 - c2) ≤ f32 x ∧ f32 x ≤ y * (1 + c2) := by
  have hy : 0 < y := lt_of_lt_of_le (by norm_num) hA
  have hx0 : y * (1 / 2) ≤ x :=
    le_trans (mul_le_mul_of_nonneg_left (by linarith) hy.le) h.1
  have hx1 : x ≤ y * (3 / 2) :=
    le_trans h.2 (mul_le_mul_of_nonneg_left (by linarith) hy.le)
  have hxpos : 0 < x := lt_of_lt_of_le (by positivity) hx0
  have hlo : (2:ℚ) ^ (-126:ℤ) ≤ x := by
    have e : (2:ℚ) ^ (-126:ℤ) = 1 / 2 ^ 125 * (1 / 2) := by norm_num
    rw [e]
    exact le_trans (mul_le_mul_of_nonneg_right hA (by norm_num)) hx0
  have hx2 : x ≤ 2 ^ 126 * (3 / 2) :=
    le_trans hx1 (mul_le_mul_of_nonneg_right hB (by norm_num))
  have hthr : x < 2 ^ 128 - 2 ^ 103 := lt_of_le_of_lt hx2 (by norm_num)
  have hhi : x < 2 ^ (301:ℤ) := lt_of_le_of_lt hx2 (by norm_num)
  obtain ⟨r1, r2⟩ := f32_rel x hlo hhi
  have eu : (2:ℚ) ^ (-(24:ℤ)) = 1 / 2 ^ 24 := by norm_num
  rw [eu] at r1 r2
  refine ⟨round32_fin x (by rw [abs_of_pos hxpos]; exact hthr), ?_, ?_⟩
  · calc y * (1 - c2) ≤ y * ((1 - c) * (1 - 1 / 2 ^ 24)) :=
          mul_le_mul_of_nonneg_left hl hy.le
      _ = y * (1 - c) * (1 - 1 / 2 ^ 24) := by ring
      _ ≤ x * (1 - 1 / 2 ^ 24) := mul_le_mul_of_nonneg_right h.1 (by norm_num)
      _ ≤ f32 x := r1
  · calc f32 x ≤ x * (1 + 1 / 2 ^ 24) := r2
      _ ≤ y * (1 + c) * (1 + 1 / 2 ^ 24) := mul_le_mul_of_nonneg_right h.2 (by norm_num)
      _ = y * ((1 + c) * (1 + 1 / 2 ^ 24)) := by ring
      _ ≤ y * (1 + c2) := mul_le_mul_of_nonneg_left hu hy.le

/-- A rounding to `double` of a value `x` that is within the relative error `c` of a
positive number `y` is finite and within the relative error `c2` of `y`, when `c2`
absorbs one more rounding. -/
theorem round64_encl (x y c c2 : ℚ) (hc1 : c ≤ 1 / 2)
    (hA : 1 / 2 ^ 1021 ≤ y) (hB : y ≤ 2 ^ 1022)
    (h : y * (1 - c) ≤ x ∧ x ≤ y * (1 + c))
    (hu : (1 + c) * (1 + 1 / 2 ^ 53) ≤ 1 + c2)
    (hl : 1 - c2 ≤ (1 - c) * (1 - 1 / 2 ^ 53)) :
    Flt.round64 (Flt.fin x) = Flt.fin (f64 x) ∧
    y * (1 - c2) ≤ f64 x ∧ f64 x ≤ y * (1 + c2) := by
  have hy : 0 < y := lt_of_lt_of_le (by norm_num) hA
  have hx0 : y * (1 / 2) ≤ x :=
    le_trans (mul_le_mul_of_nonneg_left (by linarith) hy.le) h.1
  have hx1 : x ≤ y * (3 / 2) :=
    le_trans h.2 (mul_le_mul_of_nonneg_left (by linarith) hy.le)
  have hxpos : 0 < x := lt_of_lt_of_le (by positivity) hx0
  have hlo : (2:ℚ) ^ (-1022:ℤ) ≤ x := by
    have e : (2:ℚ) ^ (-1022:ℤ) = 1 / 2 ^ 1021 * (1 / 2) := by norm_num
    rw [e]
    exact le_trans (mul_le_mul_of_nonneg_right hA (by norm_num)) hx0
  have hx2 : x ≤ 2 ^ 1022 * (3 / 2) :=
    le_trans hx1 (mul_le_mul_of_nonneg_right hB (by norm_num))
  have hthr : x < 2 ^ 1024 - 2 ^ 970 := lt_of_le_of_lt hx2 (by norm_num)
  have hhi : x < 2 ^ (1201:ℤ) := lt_of_le_of_lt hx2 (by norm_num)
  obtain ⟨r1, r2⟩ := f64_rel x hlo hhi
  have eu : (2:ℚ) ^ (-(53:ℤ)) = 1 / 2 ^ 53 := by norm_num
  rw [eu] at r1 r2
  refine ⟨round64_fin x (by rw [abs_of_pos hxpos]; exact hthr), ?_, ?_⟩
  · calc y * (1 - c2) ≤ y * ((1 - c) * (1 - 1 / 2 ^ 53)) :=
          mul_le_mul_of_nonneg_left hl hy.le
      _ = y * (1 - c) * (1 - 1 / 2 ^ 53) := by ring
      _ ≤ x * (1 - 1 / 2 ^ 53) := mul_le_mul_of_nonneg_right h.1 (by norm_num)
      _ ≤ f64 x := r1
  · calc f64 x ≤ x * (1 + 1 / 2 ^ 53) := r2
      _ ≤ y * (1 + c) * (1 + 1 / 2 ^ 53) := mul_le_mul_of_nonneg_right h.2 (by norm_num)
      _ = y * ((1 + c) * (1 + 1 / 2 ^ 53)) := by ring
      _ ≤ y * (1 + c2) := mul_le_mul_of_nonneg_left hu hy.le

theorem encl_mul (x y c k : ℚ) (hk : 0 ≤ k) (h : y * (1 - c) ≤ x ∧ x ≤ y * (1 + c)) :
    y * k * (1 - c) ≤ x * k ∧ x * k ≤ y * k * (1 + c) := by
  constructor
  · calc y * k * (1 - c) = y * (1 - c) * k := by ring
      _ ≤ x * k := mul_le_mul_of_nonneg_right h.1 hk
  · calc x * k ≤ y * (1 + c) * k := mul_le_mul_of_nonneg_right h.2 hk
      _ = y * k * (1 + c) := by ring

theorem encl_div (x y c k : ℚ) (hk : 0 < k) (h : y * (1 - c) ≤ x ∧ x ≤ y * (1 + c)) :
    y / k * (1 - c) ≤ x / k ∧ x / k ≤ y / k * (1 + c) := by
  have h1 := encl_mul x y c k⁻¹ (inv_nonneg.2 hk.le) h
  simpa [div_eq_mul_inv] using h1

/-- The position offset for a positive tick difference `T`, a speed and a duration in the
stated ranges is a finite number within the relative error `2^(-22)` of
`T / 1000 * speed / duration`. -/
theorem offset_error (T : Nat) (s D : ℚ) (hT0 : 0 < T) (hT1 : T < 2 ^ 64)
    (hs0 : 1 / 2 ^ 20 ≤ s) (hs1 : s ≤ 2 ^ 20) (hD0 : 1 / 2 ^ 20 ≤ D) (hD1 : D ≤ 2 ^ 40) :
    ∃ o : ℚ,
      Flt.round32 (Flt.div64
        (Flt.mul64 (Flt.div32 (Flt.round32 (Flt.fin T)) (Flt.fin 1000)) (Flt.fin s))
        (Flt.fin D)) = Flt.fin o ∧
      (T : ℚ) / 1000 * s / D * (1 - 1 / 2 ^ 22) ≤ o ∧
      o ≤ (T : ℚ) / 1000 * s / D * (1 + 1 / 2 ^ 22) ∧
      1 / 2 ^ 75 ≤ (T : ℚ) / 1000 * s / D ∧ (T : ℚ) / 1000 * s / D ≤ 2 ^ 100 := by
  have hs : 0 < s := lt_of_lt_of_le (by norm_num) hs0
  have hD : 0 < D := lt_of_lt_of_le (by norm_num) hD0
  have t0 : (1:ℚ) ≤ (T : ℚ) := by exact_mod_cast hT0
  have t1 : (T : ℚ) ≤ 2 ^ 64 := by exact_mod_cast hT1.le
  -- ranges of the exact values
  have y2lo : (1:ℚ) / 1000 ≤ (T : ℚ) / 1000 := div_le_div_of_nonneg_right t0 (by norm_num)
  have y2hi : (T : ℚ) / 1000 ≤ 2 ^ 64 / 1000 := div_le_div_of_nonneg_right t1 (by norm_num)
  have y2pos : (0:ℚ) < (T : ℚ) / 1000 := lt_of_lt_of_le (by norm_num) y2lo
  have y3lo : (1:ℚ) / 1000 * (1 / 2 ^ 20) ≤ (T : ℚ) / 1000 * s :=
    mul_le_mul y2lo hs0 (by norm_num) y2pos.le
  have y3hi : (T : ℚ) / 1000 * s ≤ 2 ^ 64 / 1000 * 2 ^ 20 :=
    mul_le_mul y2hi hs1 hs.le (by norm_num)
  have y3pos : (0:ℚ) < (T : ℚ) / 1000 * s := mul_pos y2pos hs
  have y4lo : (1:ℚ) / 1000 * (1 / 2 ^ 20) / 2 ^ 40 ≤ (T : ℚ) / 1000 * s / D :=
    div_le_div₀ y3pos.le y3lo hD hD1
  have y4hi : (T : ℚ) / 1000 * s / D ≤ 2 ^ 64 / 1000 * 2 ^ 20 / (1 / 2 ^ 20) :=
    div_le_div₀ (by norm_num) y3hi (by norm_num) hD0
  -- the five roundings
  obtain ⟨e1, a1⟩ := round32_encl (T : ℚ) (T : ℚ) 0 (1 / 2 ^ 24) (by norm_num)
    (le_trans (by norm_num) t0) (le_trans t1 (by norm_num))
    ⟨by simp, by simp⟩ (by norm_num) (by norm_num)
  obtain ⟨e2, a2⟩ := round32_encl (f32 (T : ℚ) / 1000) ((T : ℚ) / 1000) (1 / 2 ^ 24)
    (1 / 2 ^ 23 + 1 / 2 ^ 40) (by norm_num)
    (le_trans (by norm_num) y2lo) (le_trans y2hi (by norm_num))
    (encl_div _ _ _ 1000 (by norm_num) a1) (by norm_num) (by norm_num)
  obtain ⟨e3, a3⟩ := round64_encl (f32 (f32 (T : ℚ) / 1000) * s) ((T : ℚ) / 1000 * s)
    (1 / 2 ^ 23 + 1 / 2 ^ 40) (1 / 2 ^ 23 + 1 / 2 ^ 39) (by norm_num)
    (le_trans (by norm_num) y3lo) (le_trans y3hi (by norm_num))
    (encl_mul _ _ _ s hs.le a2) (by norm_num) (by norm_num)
  obtain ⟨e4, a4⟩ := round64_encl (f64 (f32 (f32 (T : ℚ) / 1000) * s) / D)
    ((T : ℚ) / 1000 * s / D)
    (1 / 2 ^ 23 + 1 / 2 ^ 39) (1 / 2 ^ 23 + 1 / 2 ^ 38) (by norm_num)
    (le_trans (by norm_num) y4lo) (le_trans y4hi (by norm_num))
    (encl_div _ _ _ D hD a3) (by norm_num) (by norm_num)
  obtain ⟨e5, a5⟩ := round32_encl (f64 (f64 (f32 (f32 (T : ℚ) / 1000) * s) / D))
    ((T : ℚ) / 1000 * s / D)
    (1 / 2 ^ 23 + 1 / 2 ^ 38) (1 / 2 ^ 22) (by norm_num)
    (le_trans (by norm_num) y4lo) (le_trans y4hi (by norm_num))
    a4 (by norm_num) (by norm_num)
  refine ⟨f32 (f64 (f64 (f32 (f32 (T : ℚ) / 1000) * s) / D)), ?_, a5.1, a5.2,
    le_trans (by norm_num) y4lo, le_trans y4hi (by norm_num)⟩
  have d1 : Flt.div32 (Flt.round32 (Flt.fin (T : ℚ))) (Flt.fin 1000) =
      Flt.fin (f32 (f32 (T : ℚ) / 1000)) := by
    rw [e1]
    unfold Flt.div32 Flt.div
    simp only
    rw [if_neg (by norm_num), e2]
  have d2 : Flt.mul64 (Flt.fin (f32 (f32 (T : ℚ) / 1000))) (Flt.fin s) =
      Flt.fin (f64 (f32 (f32 (T : ℚ) / 1000) * s)) := by
    unfold Flt.mul64 Flt.mul
    simp only
    rw [e3]
  have d3 : Flt.div64 (Flt.fin (f64 (f32 (f32 (T : ℚ) / 1000) * s))) (Flt.fin D) =
      Flt.fin (f64 (f64 (f32 (f32 (T : ℚ) / 1000) * s) / D)) := by
    unfold Flt.div64 Flt.div
    simp only
    rw [if_neg hD.ne', e4]
  rw [d1, d2, d3, e5]

/-- The sum of a finite position `l ≥ 0` and the position offset, in the ranges of
`offset_error`, is a finite number within the relative error `2^(-22) + 2^(-23)` of
`l + T / 1000 * speed / duration`. -/
theorem position_sum_error (l : ℚ) (T : Nat) (s D : ℚ) (hl0 : 0 ≤ l) (hl1 : l ≤ 2 ^ 100)
    (hT0 : 0 < T) (hT1 : T < 2 ^ 64)
    (hs0 : 1 / 2 ^ 20 ≤ s) (hs1 : s ≤ 2 ^ 20) (hD0 : 1 / 2 ^ 20 ≤ D) (hD1 : D ≤ 2 ^ 40) :
    ∃ p : ℚ,
      Flt.add32 (Flt.fin l)
        (Flt.round32 (Flt.div64
          (Flt.mul64 (Flt.div32 (Flt.round32 (Flt.fin T)) (Flt.fin 1000)) (Flt.fin s))
          (Flt.fin D))) = Flt.fin p ∧
      (l + (T : ℚ) / 1000 * s / D) * (1 - (1 / 2 ^ 22 + 1 / 2 ^ 23)) ≤ p ∧
      p ≤ (l + (T : ℚ) / 1000 * s / D) * (1 + (1 / 2 ^ 22 + 1 / 2 ^ 23)) ∧
      1 / 2 ^ 75 ≤ l + (T : ℚ) / 1000 * s / D ∧
      l + (T : ℚ) / 1000 * s / D ≤ 2 ^ 100 + 2 ^ 100 := by
  obtain ⟨o, ho, o1, o2, x0, x1⟩ := offset_error T s D hT0 hT1 hs0 hs1 hD0 hD1
  generalize (T : ℚ) / 1000 * s / D = X at o1 o2 x0 x1
  have s0 : (l + X) * (1 - 1 / 2 ^ 22) ≤ l + o ∧ l + o ≤ (l + X) * (1 + 1 / 2 ^ 22) := by
    constructor
    · have : l * (1 - 1 / 2 ^ 22) ≤ l := by
        have := mul_le_mul_of_nonneg_left (by norm_num : (1:ℚ) - 1 / 2 ^ 22 ≤ 1) hl0
        linarith
      linarith
    · have : l ≤ l * (1 + 1 / 2 ^ 22) := by
        have := mul_le_mul_of_nonneg_left (by norm_num : (1:ℚ) ≤ 1 + 1 / 2 ^ 22) hl0
        linarith
      linarith
  have ylo : (1:ℚ) / 2 ^ 75 ≤ l + X := by linarith
  have yhi : l + X ≤ 2 ^ 100 + 2 ^ 100 := add_le_add hl1 x1
  obtain ⟨e6, a6⟩ := round32_encl (l + o) (l + X) (1 / 2 ^ 22) (1 / 2 ^ 22 + 1 / 2 ^ 23)
    (by norm_num) (le_trans (by norm_num) ylo) (le_trans yhi (by norm_num)) s0
    (by norm_num) (by norm_num)
  refine ⟨f32 (l + o), ?_, a6.1, a6.2, ylo, yhi⟩
  rw [ho]
  unfold Flt.add32 Flt.add
  simp only
  rw [e6]

/-- The time returned by the playing branch of `CurrentTime()` for a finite position
`l ≥ 0`, a positive tick difference `T`, a speed and a duration in the stated ranges, is a
finite number within the relative error `2^(-21)` of `l * D + T / 1000 * speed`. -/
theorem playing_time_error (l : ℚ) (T : Nat) (s D : ℚ) (hl0 : 0 ≤ l) (hl1 : l ≤ 2 ^ 100)
    (hT0 : 0 < T) (hT1 : T < 2 ^ 64)
    (hs0 : 1 / 2 ^ 20 ≤ s) (hs1 : s ≤ 2 ^ 20) (hD0 : 1 / 2 ^ 20 ≤ D) (hD1 : D ≤ 2 ^ 40) :
    ∃ t : ℚ,
      Flt.mul64
        (Flt.add32 (Flt.fin l)
          (Flt.round32 (Flt.div64
            (Flt.mul64 (Flt.div32 (Flt.round32 (Flt.fin T)) (Flt.fin 1000)) (Flt.fin s))
            (Flt.fin D))))
        (Flt.fin D) = Flt.fin t ∧
      |t - (l * D + (T : ℚ) / 1000 * s)| ≤ 1 / 2 ^ 21 * (l * D + (T : ℚ) / 1000 * s) := by
  have hD : 0 < D := lt_of_lt_of_le (by norm_num) hD0
  obtain ⟨p, hp, a61, a62, ylo, yhi⟩ :=
    position_sum_error l T s D hl0 hl1 hT0 hT1 hs0 hs1 hD0 hD1
  have a6 := And.intro a61 a62
  have hz : (l + (T : ℚ) / 1000 * s / D) * D = l * D + (T : ℚ) / 1000 * s := by
    field_simp
    ring
  generalize l + (T : ℚ) / 1000 * s / D = Y at a6 ylo yhi hz
  have ypos : 0 < Y := lt_of_lt_of_le (by norm_num) ylo
  have zlo : (1:ℚ) / 2 ^ 75 * (1 / 2 ^ 20) ≤ Y * D :=
    mul_le_mul ylo hD0 (by norm_num) ypos.le
  have zhi : Y * D ≤ (2 ^ 100 + 2 ^ 100) * 2 ^ 40 :=
    mul_le_mul yhi hD1 hD.le (by norm_num)
  obtain ⟨e7, a7⟩ := round64_encl (p * D) (Y * D) (1 / 2 ^ 22 + 1 / 2 ^ 23)
    (1 / 2 ^ 21) (by norm_num) (le_trans (by norm_num) zlo) (le_trans zhi (by norm_num))
    (encl_mul _ _ _ D hD.le ⟨a6.1, a6.2⟩) (by norm_num) (by norm_num)
  rw [hz] at a7
  refine ⟨f64 (p * D), ?_, ?_⟩
  · rw [hp]
    unfold Flt.mul64 Flt.mul
    simp only
    rw [e7]
  · rw [abs_le]
    constructor <;> linarith [a7.1, a7.2]

/-! ## Substring search -/

theorem findFrom_isSome (needle hay : List Char) (pos : Nat) :
    (findFrom needle hay pos).isSome = true ↔ needle <:+: hay := by
  induction hay generalizing pos with
  | nil =>
    unfold findFrom
    cases needle <;> simp
  | cons c cs ih =>
    unfold findFrom
    by_cases hp : needle.isPrefixOf (c :: cs) = true
    · rw [if_pos hp]
      have hpre : needle <+: c :: cs := List.isPrefixOf_iff_prefix.mp hp
      simp [hpre.isInfix]
    · rw [if_neg hp, ih, List.infix_cons_iff]
      have hpre : ¬ needle <+: c :: cs := fun h => hp (List.isPrefixOf_iff_prefix.mpr h)
      simp [hpre]

theorem contains_iff (filename kw : String) :
    contains (toUpperChars filename) kw = true ↔ containsKeyword filename kw := by
  unfold contains containsKeyword
  exact findFrom_isSome _ _ _

theorem contains_eq_false_iff (filename kw : String) :
    contains (toUpperChars filename) kw = false ↔ ¬ containsKeyword filename kw := by
  rw [← contains_iff, Bool.not_eq_true]

theorem containsKeyword_of_infix (filename kw kw2 : String) (hk : kw.data <:+: kw2.data)
    (h : containsKeyword filename kw2) : containsKeyword filename kw :=
  List.IsInfix.trans hk h

theorem HasVRKeyword_iff (filename : String) :
    HasVRKeyword filename = true ↔ ∃ kw ∈ keywords, containsKeyword filename kw := by
  unfold HasVRKeyword
  simp only [List.any_eq_true, contains_iff]

/-! ## Case analysis of `DetectFormat` -/

theorem DetectFormat_likelyVR (width height : Int) (filename : String)
    (h : IsLikelyVR width height = true) :
    DetectFormat width height filename =
      { isVR := true
        projection :=
          if DetectProjectionFromFilename filename ≠ VRProjection.None then
            DetectProjectionFromFilename filename
          else VRProjection.Equirectangular180
        layout :=
          if DetectLayoutFromFilename filename ≠ VRLayout.None then
            DetectLayoutFromFilename filename
          else aspectLayout width height
        confidence := f32 (9/10)
        userForced := false } := by
  unfold IsLikelyVR at h
  simp only at h
  unfold DetectFormat aspectLayout
  simp only [h, if_true]
  split_ifs <;> rfl

theorem DetectFormat_keyword (width height : Int) (filename : String)
    (h : IsLikelyVR width height = false) (hk : HasVRKeyword filename = true) :
    DetectFormat width height filename =
      { isVR := true
        projection :=
          if DetectProjectionFromFilename filename ≠ VRProjection.None then
            DetectProjectionFromFilename filename
          else VRProjection.Equirectangular180
        layout :=
          if DetectLayoutFromFilename filename ≠ VRLayout.None then
            DetectLayoutFromFilename filename
          else aspectLayout width height
        confidence := f32 (7/10)
        userForced := false } := by
  unfold IsLikelyVR at h
  simp only at h
  unfold DetectFormat aspectLayout
  simp only [h, hk, Bool.false_eq_true, if_false, if_true]
  split_ifs <;> rfl

theorem DetectFormat_not_vr (width height : Int) (filename : String)
    (h : IsLikelyVR width height = false) (hk : HasVRKeyword filename = false) :
    DetectFormat width height filename = {} := by
  unfold IsLikelyVR at h
  simp only at h
  unfold DetectFormat
  simp only [h, hk, Bool.false_eq_true, if_false]

theorem IsLikelyVR_iff (width height : Int) :
    IsLikelyVR width height = true ↔
      ((f32 (9/5) ≤ GetAspectRatio width height ∧ GetAspectRatio width height ≤ f32 (11/5)) ∨
        (f32 (9/20) ≤ GetAspectRatio width height ∧
          GetAspectRatio width height ≤ f32 (11/20))) ∧
      2048 ≤ max width height := by
  unfold IsLikelyVR IsSBSAspect IsTBAspect
  simp only [Bool.and_eq_true, Bool.or_eq_true, decide_eq_true_eq, ge_iff_le, le_max_iff]

theorem confidence_literals :
    f32 (9/10) ≠ f32 (7/10) ∧ f32 (9/10) ≠ 0 ∧ f32 (7/10) ≠ 0 := by
  decide!

theorem DetectFormat_vr_fields (width height : Int) (filename : String)
    (hv : (DetectFormat width height filename).isVR = true) :
    (DetectFormat width height filename).projection =
      (if DetectProjectionFromFilename filename ≠ VRProjection.None then
        DetectProjectionFromFilename filename
      else VRProjection.Equirectangular180) ∧
    (DetectFormat width height filename).layout =
      (if DetectLayoutFromFilename filename ≠ VRLayout.None then
        DetectLayoutFromFilename filename
      else aspectLayout width height) := by
  cases hl : IsLikelyVR width height
  · cases hk : HasVRKeyword filename
    · rw [DetectFormat_not_vr width height filename hl hk] at hv
      exact absurd hv Bool.false_ne_true
    · rw [DetectFormat_keyword width height filename hl hk]
      exact ⟨rfl, rfl⟩
  · rw [DetectFormat_likelyVR width height filename hl]
    exact ⟨rfl, rfl⟩

theorem DetectFormat_isVR_of_keyword (width height : Int) (filename : String)
    (hk : HasVRKeyword filename = true) :
    (DetectFormat width height filename).isVR = true := by
  cases hl : IsLikelyVR width height
  · rw [DetectFormat_keyword width height filename hl hk]
  · rw [DetectFormat_likelyVR width height filename hl]

theorem DetectProjectionFromFilename_cases (filename : String) :
    (containsKeyword filename "FISHEYE" ∧ containsKeyword filename "200" →
      DetectProjectionFromFilename filename = VRProjection.Fisheye200) ∧
    (containsKeyword filename "FISHEYE" ∧ ¬ containsKeyword filename "200" →
      DetectProjectionFromFilename filename = VRProjection.Fisheye190) ∧
    (¬ containsKeyword filename "FISHEYE" ∧
        (containsKeyword filename "EQUIRECT" ∨ containsKeyword filename "360") →
      DetectProjectionFromFilename filename = VRProjection.Equirectangular360) ∧
    (¬ containsKeyword filename "FISHEYE" ∧ ¬ containsKeyword filename "EQUIRECT" ∧
        ¬ containsKeyword filename "360" ∧ containsKeyword filename "180" →
      DetectProjectionFromFilename filename = VRProjection.Equirectangular180) ∧
    (¬ containsKeyword filename "FISHEYE" ∧ ¬ containsKeyword filename "EQUIRECT" ∧
        ¬ containsKeyword filename "360" ∧ ¬ containsKeyword filename "180" →
      DetectProjectionFromFilename filename = VRProjection.None) := by
  unfold DetectProjectionFromFilename
  simp only [← contains_iff, Bool.or_eq_true]
  refine ⟨?_, ?_, ?_, ?_, ?_⟩
  · rintro ⟨h1, h2⟩
    simp [h1, h2]
  · rintro ⟨h1, h2⟩
    simp [h1, h2]
  · rintro ⟨h1, h2⟩
    simp [h1, h2]
  · rintro ⟨h1, h2, h3, h4⟩
    simp [h1, h2, h3, h4]
  · rintro ⟨h1, h2, h3, h4⟩
    simp [h1, h2, h3, h4]

theorem DetectLayoutFromFilename_cases (filename : String) :
    (containsKeyword filename "SBS" ∨ containsKeyword filename "LR_" ∨
        containsKeyword filename "_LR" →
      DetectLayoutFromFilename filename = VRLayout.SideBySide) ∧
    (¬ containsKeyword filename "SBS" ∧ ¬ containsKeyword filename "LR_" ∧
        ¬ containsKeyword filename "_LR" ∧
        (containsKeyword filename "_TB" ∨ containsKeyword filename "TB_") →
      DetectLayoutFromFilename filename = VRLayout.TopBottom) ∧
    (¬ containsKeyword filename "SBS" ∧ ¬ containsKeyword filename "LR_" ∧
        ¬ containsKeyword filename "_LR" ∧ ¬ containsKeyword filename "_TB" ∧
        ¬ containsKeyword filename "TB_" →
      DetectLayoutFromFilename filename = VRLayout.None) := by
  unfold DetectLayoutFromFilename
  simp only [← contains_iff, Bool.or_eq_true]
  refine ⟨?_, ?_, ?_⟩
  · intro h
    rw [← or_assoc] at h
    simp [h]
  · rintro ⟨h1, h2, h3, h4⟩
    simp [h1, h2, h3, h4]
  · rintro ⟨h1, h2, h3, h4, h5⟩
    simp [h1, h2, h3, h4, h5]

/-! ## The detector: claims -/

/-- C1 as stated fails: above `2^24` the conversion of the dimensions to `float` rounds.
For 60397989x33554438 and `movie.mp4` the quotient width/height is above 1.8, the `float`
quotient the code computes is below `1.8f`, and `DetectFormat` returns `isVR = false`. -/
theorem DetectFormat_sideBySide_highRes_counterexample :
    ¬ (∀ (width height : Int) (filename : String), 0 < height →
        2048 ≤ max width height → (9:ℚ) / 5 ≤ (width : ℚ) / height →
        (width : ℚ) / height ≤ 11 / 5 →
        DetectLayoutFromFilename filename = VRLayout.None →
        (DetectFormat width height filename).isVR = true ∧
        (DetectFormat width height filename).confidence = f32 (9/10) ∧
        (DetectFormat width height filename).layout = VRLayout.SideBySide) := by
  intro h
  have h1 := (h 60397989 33554438 "movie.mp4" (by decide) (by decide) (by norm_num)
    (by norm_num) (by decide!)).1
  revert h1
  decide!

/-- C1, amended: for integers `width`, `height` with `height > 0`, both at most `2^24`
(the range in which the conversion to `float` is exact), `max width height ≥ 2048` and the
quotient `width/height` within `[1.8, 2.2]`, and a file name without a layout token
(`DetectLayoutFromFilename` gives `None`), `DetectFormat` returns `isVR = true`,
`confidence = 0.9f` and `layout = SideBySide`. -/
theorem DetectFormat_sideBySide_highRes (width height : Int) (filename : String)
    (hh : 0 < height) (hw24 : width ≤ 2 ^ 24) (hh24 : height ≤ 2 ^ 24)
    (hres : 2048 ≤ max width height)
    (hlo : (9:ℚ) / 5 ≤ (width : ℚ) / height) (hhi : (width : ℚ) / height ≤ 11 / 5)
    (hfn : DetectLayoutFromFilename filename = VRLayout.None) :
    (DetectFormat width height filename).isVR = true ∧
    (DetectFormat width height filename).confidence = f32 (9/10) ∧
    (DetectFormat width height filename).layout = VRLayout.SideBySide := by
  have hs : IsSBSAspect (GetAspectRatio width height) = true :=
    IsSBSAspect_of_ratio width height hw24 hh hh24 hlo hhi
  have hl : IsLikelyVR width height = true := by
    unfold IsLikelyVR
    simp only [hs, Bool.true_or, Bool.true_and, Bool.or_eq_true, decide_eq_true_eq, ge_iff_le]
    exact le_max_iff.mp hres
  rw [DetectFormat_likelyVR width height filename hl]
  refine ⟨rfl, rfl, ?_⟩
  simp [hfn, aspectLayout, hs]

/-- Witness for C1 (amended): a 3840x1920 clip named `movie.mp4`. -/
theorem DetectFormat_sideBySide_highRes_witness :
    (DetectFormat 3840 1920 "movie.mp4").isVR = true ∧
    (DetectFormat 3840 1920 "movie.mp4").confidence = f32 (9/10) ∧
    (DetectFormat 3840 1920 "movie.mp4").layout = VRLayout.SideBySide :=
  DetectFormat_sideBySide_highRes 3840 1920 "movie.mp4" (by decide) (by decide) (by decide)
    (by decide) (by norm_num) (by norm_num) (by decide!)

/-- C4: the decision of `DetectFormat`.  `IsLikelyVR` is the test "aspect in `[1.8f, 2.2f]`
or in `[0.45f, 0.55f]`, and `max width height ≥ 2048`"; the result has `isVR = true` with
`confidence = 0.9f` exactly when `IsLikelyVR` holds; otherwise it has `isVR = true` with
`confidence = 0.7f` exactly when the upper-cased file name contains one of the eleven
keywords; otherwise it is `isVR = false`, `confidence = 0`, `layout = None`,
`projection = None`, as for 1920x1080 `clip.mp4`. -/
theorem DetectFormat_decision (width height : Int) (filename : String) :
    (IsLikelyVR width height = true ↔
      ((f32 (9/5) ≤ GetAspectRatio width height ∧ GetAspectRatio width height ≤ f32 (11/5)) ∨
        (f32 (9/20) ≤ GetAspectRatio width height ∧
          GetAspectRatio width height ≤ f32 (11/20))) ∧
      2048 ≤ max width height) ∧
    (((DetectFormat width height filename).isVR = true ∧
        (DetectFormat width height filename).confidence = f32 (9/10)) ↔
      IsLikelyVR width height = true) ∧
    (IsLikelyVR width height = false →
      (((DetectFormat width height filename).isVR = true ∧
          (DetectFormat width height filename).confidence = f32 (7/10)) ↔
        ∃ kw ∈ ["VR", "_180", "_360", "SBS", "_TB", "FISHEYE", "EQUIRECTANGULAR", "LR_",
                "OCULUS", "_3DH", "MKX200"], containsKeyword filename kw)) ∧
    (IsLikelyVR width height = false →
      (¬ ∃ kw ∈ ["VR", "_180", "_360", "SBS", "_TB", "FISHEYE", "EQUIRECTANGULAR", "LR_",
                "OCULUS", "_3DH", "MKX200"], containsKeyword filename kw) →
      (DetectFormat width height filename).isVR = false ∧
      (DetectFormat width height filename).confidence = 0 ∧
      (DetectFormat width height filename).layout = VRLayout.None ∧
      (DetectFormat width height filename).projection = VRProjection.None) ∧
    DetectFormat 1920 1080 "clip.mp4" =
      { isVR := false, projection := VRProjection.None, layout := VRLayout.None,
        confidence := 0, userForced := false } := by
  have hkw := HasVRKeyword_iff filename
  unfold keywords at hkw
  obtain ⟨h97, h90, h70⟩ := confidence_literals
  refine ⟨IsLikelyVR_iff width height, ?_, ?_, ?_, by decide!⟩
  · constructor
    · rintro ⟨hv, hc⟩
      by_contra hl
      rw [Bool.not_eq_true] at hl
      cases hk : HasVRKeyword filename
      · rw [DetectFormat_not_vr width height filename hl hk] at hv
        exact Bool.false_ne_true hv
      · rw [DetectFormat_keyword width height filename hl hk] at hc
        exact h97 hc.symm
    · intro hl
      rw [DetectFormat_likelyVR width height filename hl]
      exact ⟨rfl, rfl⟩
  · intro hl
    rw [← hkw]
    constructor
    · rintro ⟨hv, _⟩
      by_contra hk
      rw [Bool.not_eq_true] at hk
      rw [DetectFormat_not_vr width height filename hl hk] at hv
      exact Bool.false_ne_true hv
    · intro hk
      rw [DetectFormat_keyword width height filename hl hk]
      exact ⟨rfl, rfl⟩
  · intro hl hk
    rw [← hkw, Bool.not_eq_true] at hk
    rw [DetectFormat_not_vr width height filename hl hk]
    exact ⟨rfl, rfl, rfl, rfl⟩

/-- Witness for C4: 1920x1080 `clip.mp4` (neither branch applies) . -/
theorem DetectFormat_decision_witness :
    (DetectFormat 1920 1080 "clip.mp4").isVR = false ∧
    (DetectFormat 1920 1080 "clip.mp4").confidence = 0 ∧
    (DetectFormat 1920 1080 "clip.mp4").layout = VRLayout.None ∧
    (DetectFormat 1920 1080 "clip.mp4").projection = VRProjection.None :=
  (DetectFormat_decision 1920 1080 "clip.mp4").2.2.2.1 (by decide!)
    (by unfold containsKeyword; decide!)

/-- C5: for every input classified as VR the projection comes from the upper-cased file
name with the priority Fisheye200 (`FISHEYE` and `200`), Fisheye190 (`FISHEYE`),
Equirectangular360 (`EQUIRECT` or `360`), and Equirectangular180 in every other case, so it
is never `None`; and 3840x1920 `scene_180_SBS.mp4` gives `isVR = true`,
`layout = SideBySide`, `projection = Equirectangular180`, `confidence = 0.9f`. -/
theorem DetectFormat_projection (width height : Int) (filename : String) :
    ((DetectFormat width height filename).isVR = true →
      (containsKeyword filename "FISHEYE" ∧ containsKeyword filename "200" →
        (DetectFormat width height filename).projection = VRProjection.Fisheye200) ∧
      (containsKeyword filename "FISHEYE" ∧ ¬ containsKeyword filename "200" →
        (DetectFormat width height filename).projection = VRProjection.Fisheye190) ∧
      (¬ containsKeyword filename "FISHEYE" ∧
          (containsKeyword filename "EQUIRECT" ∨ containsKeyword filename "360") →
        (DetectFormat width height filename).projection =
          VRProjection.Equirectangular360) ∧
      (¬ containsKeyword filename "FISHEYE" ∧ ¬ containsKeyword filename "EQUIRECT" ∧
          ¬ containsKeyword filename "360" →
        (DetectFormat width height filename).projection =
          VRProjection.Equirectangular180) ∧
      (DetectFormat width height filename).projection ≠ VRProjection.None) ∧
    DetectFormat 3840 1920 "scene_180_SBS.mp4" =
      { isVR := true, projection := VRProjection.Equirectangular180,
        layout := VRLayout.SideBySide, confidence := f32 (9/10), userForced := false } := by
  refine ⟨?_, by decide!⟩
  intro hv
  obtain ⟨hp, _⟩ := DetectFormat_vr_fields width height filename hv
  obtain ⟨c1, c2, c3, c4, c5⟩ := DetectProjectionFromFilename_cases filename
  rw [hp]
  refine ⟨?_, ?_, ?_, ?_, ?_⟩
  · intro h
    simp [c1 h]
  · intro h
    simp [c2 h]
  · intro h
    simp [c3 h]
  · rintro ⟨h1, h2, h3⟩
    by_cases h4 : containsKeyword filename "180"
    · simp [c4 ⟨h1, h2, h3, h4⟩]
    · simp [c5 ⟨h1, h2, h3, h4⟩]
  · split_ifs with h
    · exact h
    · simp

/-- Witness for C5: 2048x1024 `fisheye_200.mp4` is classified as VR and gets Fisheye200. -/
theorem DetectFormat_projection_witness :
    (DetectFormat 2048 1024 "fisheye_200.mp4").projection = VRProjection.Fisheye200 :=
  ((DetectFormat_projection 2048 1024 "fisheye_200.mp4").1 (by decide!)).1
    (by unfold containsKeyword; decide!)

/-- C6: for every width and height and every file name that contains `FISHEYE200`
case-insensitively, `DetectFormat` returns `isVR = true` and `projection = Fisheye200`. -/
theorem DetectFormat_fisheye200 (width height : Int) (filename : String)
    (h : containsKeyword filename "FISHEYE200") :
    (DetectFormat width height filename).isVR = true ∧
    (DetectFormat width height filename).projection = VRProjection.Fisheye200 := by
  have hF : containsKeyword filename "FISHEYE" :=
    containsKeyword_of_infix filename "FISHEYE" "FISHEYE200" (by decide) h
  have h200 : containsKeyword filename "200" :=
    containsKeyword_of_infix filename "200" "FISHEYE200" (by decide) h
  have hk : HasVRKeyword filename = true :=
    (HasVRKeyword_iff filename).mpr ⟨"FISHEYE", by decide, hF⟩
  have hv := DetectFormat_isVR_of_keyword width height filename hk
  have hc := (DetectProjectionFromFilename_cases filename).1 ⟨hF, h200⟩
  refine ⟨hv, ?_⟩
  rw [(DetectFormat_vr_fields width height filename hv).1, hc]
  simp

/-- Witness for C6: a 640x480 clip (not VR by its dimensions) named `cam_fisheye200.mkv`. -/
theorem DetectFormat_fisheye200_witness :
    (DetectFormat 640 480 "cam_fisheye200.mkv").isVR = true ∧
    (DetectFormat 640 480 "cam_fisheye200.mkv").projection = VRProjection.Fisheye200 :=
  DetectFormat_fisheye200 640 480 "cam_fisheye200.mkv" (by unfold containsKeyword; decide!)

/-- C7 as stated fails: `VR_SBS_TB.mp4` contains `VR` and `_TB`, yet for 1920x960 the layout
is `SideBySide`, because `DetectLayoutFromFilename` tests the side-by-side tokens first. -/
theorem DetectFormat_vr_tb_counterexample :
    ¬ (∀ filename : String, containsKeyword filename "VR" → containsKeyword filename "_TB" →
        (DetectFormat 1920 960 filename).isVR = true ∧
        (DetectFormat 1920 960 filename).confidence = f32 (7/10) ∧
        (DetectFormat 1920 960 filename).layout = VRLayout.TopBottom) := by
  intro h
  have h3 := (h "VR_SBS_TB.mp4" (by unfold containsKeyword; decide!)
    (by unfold containsKeyword; decide!)).2.2
  revert h3
  decide!

/-- C7, amended: for a 1920x960 source (aspect 2.0, no dimension reaches 2048) and every
file name that contains `VR` and `_TB` and none of the side-by-side tokens `SBS`, `LR_`,
`_LR`, `DetectFormat` returns `isVR = true`, `confidence = 0.7f` and `layout = TopBottom`,
although the aspect ratio alone gives `SideBySide`. -/
theorem DetectFormat_vr_tb (filename : String)
    (hvr : containsKeyword filename "VR") (htb : containsKeyword filename "_TB")
    (h1 : ¬ containsKeyword filename "SBS") (h2 : ¬ containsKeyword filename "LR_")
    (h3 : ¬ containsKeyword filename "_LR") :
    (DetectFormat 1920 960 filename).isVR = true ∧
    (DetectFormat 1920 960 filename).confidence = f32 (7/10) ∧
    (DetectFormat 1920 960 filename).layout = VRLayout.TopBottom ∧
    aspectLayout 1920 960 = VRLayout.SideBySide ∧
    IsLikelyVR 1920 960 = false := by
  have hl : IsLikelyVR 1920 960 = false := by decide!
  have hk : HasVRKeyword filename = true :=
    (HasVRKeyword_iff filename).mpr ⟨"VR", by decide, hvr⟩
  have hlay := (DetectLayoutFromFilename_cases filename).2.1 ⟨h1, h2, h3, Or.inl htb⟩
  rw [DetectFormat_keyword 1920 960 filename hl hk]
  refine ⟨rfl, rfl, ?_, by decide!, hl⟩
  simp [hlay]

/-- Witness for C7 (amended): `clip_VR_TB.mp4`. -/
theorem DetectFormat_vr_tb_witness :
    (DetectFormat 1920 960 "clip_VR_TB.mp4").isVR = true ∧
    (DetectFormat 1920 960 "clip_VR_TB.mp4").confidence = f32 (7/10) ∧
    (DetectFormat 1920 960 "clip_VR_TB.mp4").layout = VRLayout.TopBottom ∧
    aspectLayout 1920 960 = VRLayout.SideBySide ∧
    IsLikelyVR 1920 960 = false :=
  DetectFormat_vr_tb "clip_VR_TB.mp4" (by unfold containsKeyword; decide!)
    (by unfold containsKeyword; decide!) (by unfold containsKeyword; decide!)
    (by unfold containsKeyword; decide!) (by unfold containsKeyword; decide!)

/-- C8 as stated fails: 4096x8192 `a_LR.mp4` is classified as VR and contains none of `SBS`,
`LR_`, `_TB`, `TB_`, yet its layout is `SideBySide` (token `_LR`) while the aspect ratio
0.5 gives `TopBottom`. -/
theorem DetectFormat_layout_counterexample :
    ¬ (∀ (width height : Int) (filename : String),
        (DetectFormat width height filename).isVR = true →
        ¬ containsKeyword filename "SBS" → ¬ containsKeyword filename "LR_" →
        ¬ containsKeyword filename "_TB" → ¬ containsKeyword filename "TB_" →
        (DetectFormat width height filename).layout = aspectLayout width height) := by
  intro h
  have h3 := h 4096 8192 "a_LR.mp4" (by decide!) (by unfold containsKeyword; decide!)
    (by unfold containsKeyword; decide!) (by unfold containsKeyword; decide!)
    (by unfold containsKeyword; decide!)
  revert h3
  decide!

/-- C8, amended: for every input classified as VR whose file name contains none of the
layout tokens `SBS`, `LR_`, `_LR`, `_TB`, `TB_`, the layout is the one the aspect ratio
gives: `SideBySide` for an aspect in `[1.8f, 2.2f]`, `TopBottom` for one in
`[0.45f, 0.55f]`, `None` otherwise. -/
theorem DetectFormat_layout_from_aspect (width height : Int) (filename : String)
    (hv : (DetectFormat width height filename).isVR = true)
    (h1 : ¬ containsKeyword filename "SBS") (h2 : ¬ containsKeyword filename "LR_")
    (h3 : ¬ containsKeyword filename "_LR") (h4 : ¬ containsKeyword filename "_TB")
    (h5 : ¬ containsKeyword filename "TB_") :
    (DetectFormat width height filename).layout =
      (if f32 (9/5) ≤ GetAspectRatio width height ∧ GetAspectRatio width height ≤ f32 (11/5)
        then VRLayout.SideBySide
      else if f32 (9/20) ≤ GetAspectRatio width height ∧
          GetAspectRatio width height ≤ f32 (11/20)
        then VRLayout.TopBottom
      else VRLayout.None) := by
  have hlay := (DetectLayoutFromFilename_cases filename).2.2 ⟨h1, h2, h3, h4, h5⟩
  rw [(DetectFormat_vr_fields width height filename hv).2, hlay]
  unfold aspectLayout IsSBSAspect IsTBAspect
  simp only [ne_eq, not_true_eq_false, if_false, Bool.and_eq_true, decide_eq_true_eq]

/-- Witness for C8 (amended): 4096x8192 `movie.mp4` gets `TopBottom` from its aspect. -/
theorem DetectFormat_layout_from_aspect_witness :
    (DetectFormat 4096 8192 "movie.mp4").layout = VRLayout.TopBottom := by
  have h := DetectFormat_layout_from_aspect 4096 8192 "movie.mp4" (by decide!)
    (by unfold containsKeyword; decide!) (by unfold containsKeyword; decide!)
    (by unfold containsKeyword; decide!) (by unfold containsKeyword; decide!)
    (by unfold containsKeyword; decide!)
  rw [h]
  decide!

/-! ## The processing tick: helper lemmas -/

theorem lazyDetect_frame (ctx : MpvPlayerContext) :
    (lazyDetect ctx).processingPBOIndex = ctx.processingPBOIndex ∧
    (lazyDetect ctx).trackingActive = ctx.trackingActive ∧
    (lazyDetect ctx).processingFramebuffer = ctx.processingFramebuffer ∧
    (lazyDetect ctx).frameTexture = ctx.frameTexture ∧
    (lazyDetect ctx).cropShader = ctx.cropShader ∧
    (lazyDetect ctx).quadVAO = ctx.quadVAO ∧
    (lazyDetect ctx).croppedTexture = ctx.croppedTexture ∧
    (lazyDetect ctx).processingTexture = ctx.processingTexture := by
  unfold lazyDetect
  split <;> exact ⟨rfl, rfl, rfl, rfl, rfl, rfl, rfl, rfl⟩

theorem lazyDetect_done (ctx : MpvPlayerContext) (h : ctx.vrDetectionDone = true) :
    lazyDetect ctx = ctx := by
  unfold lazyDetect
  simp [h]

theorem RenderFrameToTexture_processing (ctx : MpvPlayerContext)
    (vrState : ProcessingVideoWindowState) (frameData : Option Nat)
    (hg : processingEnabled ctx) :
    ∃ pass, (RenderFrameToTexture ctx vrState frameData).2 = some pass ∧
      pass.activeFormat = applyOverrides (lazyDetect ctx).vrFormat vrState ∧
      pass.cropInvoked =
        (pass.activeFormat.isVR && decide (pass.activeFormat.layout ≠ VRLayout.None)
          && ctx.cropShader && decide (ctx.quadVAO ≠ 0)) ∧
      pass.finalTexture =
        (if pass.cropInvoked then ctx.croppedTexture else ctx.processingTexture) ∧
      pass.readIndex = ctx.processingPBOIndex ∧
      pass.writeIndex = Int.tmod (ctx.processingPBOIndex + 1) 2 ∧
      pass.frameEmitted = frameData.isSome ∧
      (RenderFrameToTexture ctx vrState frameData).1.processingPBOIndex = pass.writeIndex ∧
      (RenderFrameToTexture ctx vrState frameData).1.vrFormat = (lazyDetect ctx).vrFormat ∧
      processingEnabled (RenderFrameToTexture ctx vrState frameData).1 := by
  obtain ⟨h1, h2, h3⟩ := hg
  obtain ⟨l1, l2, l3, l4, l5, l6, l7, l8⟩ := lazyDetect_frame ctx
  unfold RenderFrameToTexture processingEnabled
  simp only [h1, h2, h3, ne_eq, not_false_eq_true, decide_True, Bool.and_self, if_true,
    l1, l2, l3, l4, l5, l6, l7, l8]
  exact ⟨_, rfl, rfl, rfl, rfl, rfl, rfl, rfl, rfl, trivial, trivial, trivial, trivial⟩

theorem ring_step (i : Int) (h : i = 0 ∨ i = 1) :
    (Int.tmod (i + 1) 2 = 0 ∨ Int.tmod (i + 1) 2 = 1) ∧ Int.tmod (i + 1) 2 ≠ i := by
  rcases h with h | h <;> subst h <;> decide

theorem runTicks_length (ctx : MpvPlayerContext) (inputs : List TickInput) :
    (runTicks ctx inputs).length = inputs.length := by
  induction inputs generalizing ctx with
  | nil => rfl
  | cons i rest ih => simp [runTicks, ih]

theorem runTicks_link (ctx : MpvPlayerContext) (inputs : List TickInput) (k : Nat)
    (e1 e2 : Int × Option ProcessingPass × Int)
    (h1 : (runTicks ctx inputs)[k]? = some e1)
    (h2 : (runTicks ctx inputs)[k + 1]? = some e2) : e2.1 = e1.2.2 := by
  induction inputs generalizing ctx k with
  | nil => simp [runTicks] at h1
  | cons i rest ih =>
    cases k with
    | zero =>
      cases rest with
      | nil => simp [runTicks] at h2
      | cons j rest2 =>
        simp only [runTicks, List.getElem?_cons_zero, List.getElem?_cons_succ,
          Option.some.injEq, zero_add] at h1 h2
        rw [← h1, ← h2]
    | succ n =>
      simp only [runTicks, List.getElem?_cons_succ] at h1 h2
      exact ih _ n h1 h2

theorem runTicks_entry (ctx : MpvPlayerContext) (inputs : List TickInput)
    (hidx : ctx.processingPBOIndex = 0 ∨ ctx.processingPBOIndex = 1)
    (hg : processingEnabled ctx) (k : Nat) (e : Int × Option ProcessingPass × Int)
    (h : (runTicks ctx inputs)[k]? = some e) :
    ∃ pass, e.2.1 = some pass ∧ pass.readIndex = e.1 ∧ pass.writeIndex = e.2.2 ∧
      (e.1 = 0 ∨ e.1 = 1) ∧ (e.2.2 = 0 ∨ e.2.2 = 1) ∧ e.2.2 ≠ e.1 := by
  induction inputs generalizing ctx k with
  | nil => simp [runTicks] at h
  | cons i rest ih =>
    obtain ⟨pass, hp, _, _, _, hr, hw, _, hi, _, hg2⟩ :=
      RenderFrameToTexture_processing ctx i.vrState i.frameData hg
    obtain ⟨s1, s2⟩ := ring_step ctx.processingPBOIndex hidx
    cases k with
    | zero =>
      simp only [runTicks, List.getElem?_cons_zero, Option.some.injEq] at h
      subst h
      refine ⟨pass, hp, hr, ?_, hidx, ?_, ?_⟩
      · exact hi.symm
      · show (RenderFrameToTexture ctx i.vrState i.frameData).1.processingPBOIndex = 0 ∨
          (RenderFrameToTexture ctx i.vrState i.frameData).1.processingPBOIndex = 1
        rw [hi, hw]
        exact s1
      · show (RenderFrameToTexture ctx i.vrState i.frameData).1.processingPBOIndex ≠
          ctx.processingPBOIndex
        rw [hi, hw]
        exact s2
    | succ n =>
      simp only [runTicks, List.getElem?_cons_succ] at h
      refine ih _ ?_ hg2 n h
      rw [hi, hw]
      exact s1

/-! ## The processing tick and the playback clock: claims -/

/-- C2: in a run of consecutive processing ticks (started with `processingPBOIndex` in
`{0, 1}`, its initial value being 0) every tick is a processing pass whose read slot differs
from its write slot, `processingPBOIndex` is in `{0, 1}` before and after the tick, flips on
the tick and ends as the tick's write index; and on every tick after the first the slot
mapped for reading is the write target of the tick before. -/
theorem readback_ring_alternates (ctx : MpvPlayerContext) (inputs : List TickInput)
    (hidx : ctx.processingPBOIndex = 0 ∨ ctx.processingPBOIndex = 1)
    (hg : processingEnabled ctx) :
    (runTicks ctx inputs).length = inputs.length ∧
    (∀ (k : Nat) (before : Int) (tick : Option ProcessingPass) (after : Int),
      (runTicks ctx inputs)[k]? = some (before, tick, after) →
      ∃ pass, tick = some pass ∧ pass.readIndex ≠ pass.writeIndex ∧
        (pass.readIndex = 0 ∨ pass.readIndex = 1) ∧
        (pass.writeIndex = 0 ∨ pass.writeIndex = 1) ∧
        (before = 0 ∨ before = 1) ∧ (after = 0 ∨ after = 1) ∧
        after ≠ before ∧ after = pass.writeIndex) ∧
    (∀ (k : Nat) (b1 : Int) (p1 : ProcessingPass) (a1 b2 : Int) (p2 : ProcessingPass)
        (a2 : Int), (runTicks ctx inputs)[k]? = some (b1, some p1, a1) →
      (runTicks ctx inputs)[k + 1]? = some (b2, some p2, a2) →
      p2.readIndex = p1.writeIndex) := by
  refine ⟨runTicks_length ctx inputs, ?_, ?_⟩
  · intro k before tick after h
    obtain ⟨pass, hp, hr, hw, hb, ha, hne⟩ := runTicks_entry ctx inputs hidx hg k _ h
    simp only at hp hr hw hb ha hne
    refine ⟨pass, hp, ?_, ?_, ?_, hb, ha, hne, hw.symm⟩
    · rw [hr, hw]
      exact fun e => hne e.symm
    · rw [hr]
      exact hb
    · rw [hw]
      exact ha
  · intro k b1 p1 a1 b2 p2 a2 h1 h2
    have hl := runTicks_link ctx inputs k _ _ h1 h2
    obtain ⟨q1, hq1, _, hw1, _⟩ := runTicks_entry ctx inputs hidx hg k _ h1
    obtain ⟨q2, hq2, hr2, _⟩ := runTicks_entry ctx inputs hidx hg (k + 1) _ h2
    simp only [Option.some.injEq] at hl hq1 hw1 hq2 hr2
    subst hq1 hq2
    rw [hr2, hw1, hl]

/-- Witness for C2: three ticks from `sampleContext`; the second tick reads slot 1, which
the first tick wrote, and the third reads slot 0, which the second wrote. -/
theorem readback_ring_alternates_witness :
    (runTicks sampleContext sampleInputs).length = 3 ∧
    (runTicks sampleContext sampleInputs).map (fun e => (e.1, e.2.2)) =
      [(0, 1), (1, 0), (0, 1)] ∧
    (runTicks sampleContext sampleInputs).map
      (fun e => e.2.1.map (fun pass => (pass.readIndex, pass.writeIndex))) =
      [some (0, 1), some (1, 0), some (0, 1)] :=
  ⟨(readback_ring_alternates sampleContext sampleInputs (Or.inl rfl)
      ⟨rfl, by decide, by decide⟩).1, by decide!, by decide!⟩

/-- C3 as stated fails: called while the clip is playing, `SetPositionPercent(p, true)` only
sends a pause request, the cached pause flag is still false and `CurrentTime()` adds the
extrapolation: for the 10 s clip of `playingContext`, `p = 1/2` and a clock reading of
1000 ms it returns 25165825 / 4194304 = 6.0000002384..., not 5. -/
theorem CurrentTime_after_seek_counterexample :
    ¬ (∀ (ctx : MpvPlayerContext) (p : Flt) (now : Nat),
        CurrentTime (SetPositionPercent ctx p true) now =
          Flt.mul64 (Flt.round32 p) (Flt.fin ctx.data.duration)) := by
  intro h
  have h1 := h playingContext (Flt.fin (1/2)) 1000
  revert h1
  decide!

/-- C3, amended: for a clip of duration `D` and every prior state whose cached pause flag is
already set, after `SetPositionPercent(p, pausesVideo = true)` the value of `CurrentTime()`
is the product of `p` (as the `float` the function receives) and `D`, a `double` product,
at every clock reading, no extrapolation added; when `p` is a `float` and `p * D` a
`double`, that is `p * D` itself.  No pause request is sent, the cached flag stays set, and
the seek command carries `p * 100` as `float`. -/
theorem CurrentTime_after_seek_paused (ctx : MpvPlayerContext) (p : Flt) (now : Nat)
    (hp : ctx.data.paused = true) :
    CurrentTime (SetPositionPercent ctx p true) now =
      Flt.mul64 (Flt.round32 p) (Flt.fin ctx.data.duration) ∧
    (∀ q : ℚ, p = Flt.fin q → |q| < 2 ^ 128 - 2 ^ 103 → f32 q = q →
      |q * ctx.data.duration| < 2 ^ 1024 - 2 ^ 970 →
      f64 (q * ctx.data.duration) = q * ctx.data.duration →
      CurrentTime (SetPositionPercent ctx p true) now = Flt.fin (q * ctx.data.duration)) ∧
    (SetPositionPercent ctx p true).data.paused = true ∧
    (SetPositionPercent ctx p true).requests =
      ctx.requests ++
        [MpvRequest.seekAbsolutePercent (Flt.mul32 (Flt.round32 p) (Flt.fin 100))] := by
  have h1 : CurrentTime (SetPositionPercent ctx p true) now =
      Flt.mul64 (Flt.round32 p) (Flt.fin ctx.data.duration) := by
    unfold CurrentTime SetPositionPercent SetPaused
    simp [hp]
  refine ⟨h1, ?_, ?_, ?_⟩
  · intro q hq hb he hb2 he2
    rw [h1, hq, round32_fin q hb, he]
    unfold Flt.mul64 Flt.mul
    simp only
    rw [round64_fin _ hb2, he2]
  · unfold SetPositionPercent SetPaused
    simp [hp]
  · unfold SetPositionPercent SetPaused
    simp [hp]

/-- Witness for C3 (amended): the paused 10 s clip of `sampleContext`, `p = 1/2`. -/
theorem CurrentTime_after_seek_paused_witness :
    CurrentTime (SetPositionPercent sampleContext (Flt.fin (1/2)) true) 1000 = Flt.fin 5 := by
  have h := (CurrentTime_after_seek_paused sampleContext (Flt.fin (1/2)) 1000 rfl).1
  rw [h]
  decide!

/-- C9: on a processing tick, with `f` the cached detected format (the value of `vrFormat`
after the lazy detection step, which is the prior `vrFormat` once detection is done), the
effective format has `isVR` false under Force2D, true under ForceVR and `f.isVR` under
Auto; layout SideBySide under ForceSBS, TopBottom under ForceTB and `f.layout` under Auto;
`confidence`, `projection` and `userForced` equal to those of `f`; and the cached format
after the tick is still `f`. -/
theorem override_merge (ctx : MpvPlayerContext) (vrState : ProcessingVideoWindowState)
    (frameData : Option Nat) (hg : processingEnabled ctx) :
    ∃ pass, (RenderFrameToTexture ctx vrState frameData).2 = some pass ∧
      pass.activeFormat.isVR =
        (match vrState.videoType with
          | ProcessingVideoType.Force2D => false
          | ProcessingVideoType.ForceVR => true
          | ProcessingVideoType.Auto => (lazyDetect ctx).vrFormat.isVR) ∧
      pass.activeFormat.layout =
        (match vrState.vrLayout with
          | ProcessingVRLayout.ForceSBS => VRLayout.SideBySide
          | ProcessingVRLayout.ForceTB => VRLayout.TopBottom
          | ProcessingVRLayout.Auto => (lazyDetect ctx).vrFormat.layout) ∧
      pass.activeFormat.confidence = (lazyDetect ctx).vrFormat.confidence ∧
      pass.activeFormat.projection = (lazyDetect ctx).vrFormat.projection ∧
      pass.activeFormat.userForced = (lazyDetect ctx).vrFormat.userForced ∧
      (RenderFrameToTexture ctx vrState frameData).1.vrFormat = (lazyDetect ctx).vrFormat ∧
      (ctx.vrDetectionDone = true → (lazyDetect ctx).vrFormat = ctx.vrFormat) := by
  obtain ⟨pass, hp, ha, _, _, _, _, _, _, hv, _⟩ :=
    RenderFrameToTexture_processing ctx vrState frameData hg
  refine ⟨pass, hp, ?_, ?_, ?_, ?_, ?_, hv, ?_⟩
  · rw [ha]
    unfold applyOverrides
    cases vrState.videoType <;> cases vrState.vrLayout <;> rfl
  · rw [ha]
    unfold applyOverrides
    cases vrState.videoType <;> cases vrState.vrLayout <;> rfl
  · rw [ha]
    unfold applyOverrides
    cases vrState.videoType <;> cases vrState.vrLayout <;> rfl
  · rw [ha]
    unfold applyOverrides
    cases vrState.videoType <;> cases vrState.vrLayout <;> rfl
  · rw [ha]
    unfold applyOverrides
    cases vrState.videoType <;> cases vrState.vrLayout <;> rfl
  · intro hd
    rw [lazyDetect_done ctx hd]

/-- Witness for C9: `sampleContext` (detected side-by-side VR, confidence 0.9f) with the
overrides Force2D and ForceTB. -/
theorem override_merge_witness :
    ∃ pass, (RenderFrameToTexture sampleContext
        { videoType := ProcessingVideoType.Force2D, vrLayout := ProcessingVRLayout.ForceTB }
        (some 100)).2 = some pass ∧
      pass.activeFormat.isVR = false ∧ pass.activeFormat.layout = VRLayout.TopBottom ∧
      pass.activeFormat.confidence = f32 (9/10) := by
  obtain ⟨pass, hp, h1, h2, h3, _⟩ := override_merge sampleContext
    { videoType := ProcessingVideoType.Force2D, vrLayout := ProcessingVRLayout.ForceTB }
    (some 100) ⟨rfl, by decide, by decide⟩
  refine ⟨pass, hp, h1, h2, ?_⟩
  rw [h3]
  decide!

/-- C10: on a processing tick with the crop shader and the quad available, the crop draw is
issued exactly when the effective format has `isVR = true` and `layout ≠ None`, and then the
cropped texture is the readback source; otherwise the intermediate processing texture is
read back.  Under Force2D no crop is issued whatever the layout override, and an effective
format with `layout = None` is read back uncropped. -/
theorem crop_stage_iff (ctx : MpvPlayerContext) (vrState : ProcessingVideoWindowState)
    (frameData : Option Nat) (hg : processingEnabled ctx)
    (hs : ctx.cropShader = true) (hq : ctx.quadVAO ≠ 0) :
    ∃ pass, (RenderFrameToTexture ctx vrState frameData).2 = some pass ∧
      pass.activeFormat = applyOverrides (lazyDetect ctx).vrFormat vrState ∧
      (pass.cropInvoked = true ↔
        (pass.activeFormat.isVR = true ∧ pass.activeFormat.layout ≠ VRLayout.None)) ∧
      (pass.cropInvoked = true → pass.finalTexture = ctx.croppedTexture) ∧
      (pass.cropInvoked = false → pass.finalTexture = ctx.processingTexture) ∧
      (vrState.videoType = ProcessingVideoType.Force2D →
        pass.cropInvoked = false ∧ pass.finalTexture = ctx.processingTexture) ∧
      (pass.activeFormat.layout = VRLayout.None →
        pass.cropInvoked = false ∧ pass.finalTexture = ctx.processingTexture) := by
  obtain ⟨pass, hp, ha, hc, hf, _⟩ :=
    RenderFrameToTexture_processing ctx vrState frameData hg
  have hiff : pass.cropInvoked = true ↔
      (pass.activeFormat.isVR = true ∧ pass.activeFormat.layout ≠ VRLayout.None) := by
    rw [hc]
    simp [hs, hq]
  have hno : pass.cropInvoked = false → pass.finalTexture = ctx.processingTexture := by
    intro h
    rw [hf, h]
    simp
  refine ⟨pass, hp, ha, hiff, ?_, hno, ?_, ?_⟩
  · intro h
    rw [hf, h]
    simp
  · intro h2d
    have hvr : pass.activeFormat.isVR = false := by
      rw [ha]
      unfold applyOverrides
      simp only [h2d, if_true]
      cases vrState.vrLayout <;> rfl
    have hci : pass.cropInvoked = false := by
      rw [← Bool.not_eq_true, hiff, hvr]
      simp
    exact ⟨hci, hno hci⟩
  · intro hl
    have hci : pass.cropInvoked = false := by
      rw [← Bool.not_eq_true, hiff]
      exact fun h => h.2 hl
    exact ⟨hci, hno hci⟩

/-- Witness for C10: `sampleContext` with default UI settings crops and reads texture 7. -/
theorem crop_stage_iff_witness :
    ∃ pass, (RenderFrameToTexture sampleContext {} (some 100)).2 = some pass ∧
      pass.cropInvoked = true ∧ pass.finalTexture = 7 := by
  obtain ⟨pass, hp, ha, hiff, hc, _⟩ := crop_stage_iff sampleContext {} (some 100)
    ⟨rfl, by decide, by decide⟩ rfl (by decide)
  have hci : pass.cropInvoked = true := by
    rw [hiff, ha]
    decide!
  exact ⟨pass, hp, hci, hc hci⟩

/-! ## Frame lemmas for the event handlers and the API calls -/

theorem frameReadyCount_append_single (events : List VideoplayerEvent) (e : VideoplayerEvent)
    (h : isFrameReady e = false) :
    frameReadyCount (events ++ [e]) = frameReadyCount events := by
  unfold frameReadyCount
  simp [List.countP_append, h]

theorem sameClock_trans {a b c : MpvPlayerContext} (h1 : sameClock a b)
    (h2 : sameClock b c) : sameClock a c := by
  obtain ⟨a1, a2, a3, a4, a5, a6, a7⟩ := h1
  obtain ⟨b1, b2, b3, b4, b5, b6, b7⟩ := h2
  exact ⟨a1.trans b1, a2.trans b2, a3.trans b3, a4.trans b4, a5.trans b5, a6.trans b6,
    a7.trans b7⟩

theorem updateProcessingFBO_sameClock (ctx : MpvPlayerContext) (gl : GLNames) :
    sameClock (updateProcessingFBO ctx gl) ctx := by
  have h1 : sameClock (createProcessingTarget ctx gl) ctx := by
    unfold createProcessingTarget
    split_ifs <;> exact ⟨rfl, rfl, rfl, rfl, rfl, rfl, rfl⟩
  have h2 : ∀ c, sameClock (createFullResTarget c gl) c := by
    intro c
    unfold createFullResTarget
    split_ifs <;> exact ⟨rfl, rfl, rfl, rfl, rfl, rfl, rfl⟩
  have h3 : ∀ c, sameClock (createCropTargets c gl) c := by
    intro c
    unfold createCropTargets
    split_ifs <;> exact ⟨rfl, rfl, rfl, rfl, rfl, rfl, rfl⟩
  have h4 : ∀ c, sameClock (createQuad c gl) c := by
    intro c
    unfold createQuad
    split_ifs <;> exact ⟨rfl, rfl, rfl, rfl, rfl, rfl, rfl⟩
  have h5 : ∀ c, sameClock (createShaders c) c := by
    intro c
    unfold createShaders
    simp only
    split_ifs <;> exact ⟨rfl, rfl, rfl, rfl, rfl, rfl, rfl⟩
  unfold updateProcessingFBO
  exact sameClock_trans (h5 _) (sameClock_trans (h4 _) (sameClock_trans (h3 _)
    (sameClock_trans (h2 _) h1)))

theorem updateRenderTexture_frame (ctx : MpvPlayerContext) (gl : GLNames) :
    (updateRenderTexture ctx gl).trackingActive = ctx.trackingActive ∧
    (updateRenderTexture ctx gl).processingPBOIndex = ctx.processingPBOIndex ∧
    (updateRenderTexture ctx gl).events = ctx.events ∧
    (updateRenderTexture ctx gl).logicalPosition = ctx.logicalPosition ∧
    (updateRenderTexture ctx gl).data = ctx.data ∧
    (updateRenderTexture ctx gl).vrFormat = ctx.vrFormat ∧
    (updateRenderTexture ctx gl).vrDetectionDone = ctx.vrDetectionDone := by
  unfold updateRenderTexture
  simp only
  split_ifs
  · exact sameClock_trans (updateProcessingFBO_sameClock _ gl) ⟨rfl, rfl, rfl, rfl, rfl, rfl, rfl⟩
  · exact updateProcessingFBO_sameClock ctx gl

theorem updateRenderTexture_trackingActive (ctx : MpvPlayerContext) (gl : GLNames) :
    (updateRenderTexture ctx gl).trackingActive = ctx.trackingActive :=
  (updateRenderTexture_frame ctx gl).1

theorem updateRenderTexture_processingPBOIndex (ctx : MpvPlayerContext) (gl : GLNames) :
    (updateRenderTexture ctx gl).processingPBOIndex = ctx.processingPBOIndex :=
  (updateRenderTexture_frame ctx gl).2.1

theorem updateRenderTexture_events (ctx : MpvPlayerContext) (gl : GLNames) :
    (updateRenderTexture ctx gl).events = ctx.events :=
  (updateRenderTexture_frame ctx gl).2.2.1

theorem updateRenderTexture_logicalPosition (ctx : MpvPlayerContext) (gl : GLNames) :
    (updateRenderTexture ctx gl).logicalPosition = ctx.logicalPosition :=
  (updateRenderTexture_frame ctx gl).2.2.2.1

theorem handleProperty_frame (ctx : MpvPlayerContext) (e : MpvEventInput)
    (prop : MpvProperty) :
    (handleProperty ctx e prop).trackingActive = ctx.trackingActive ∧
    (handleProperty ctx e prop).processingPBOIndex = ctx.processingPBOIndex ∧
    frameReadyCount (handleProperty ctx e prop).events = frameReadyCount ctx.events := by
  cases prop with
  | MpvHwDecoder v => exact ⟨rfl, rfl, rfl⟩
  | MpvVideoWidth v =>
    simp only [handleProperty]
    split_ifs <;>
      simp only [updateRenderTexture_trackingActive, updateRenderTexture_processingPBOIndex,
        updateRenderTexture_events, and_self]
  | MpvVideoHeight v =>
    simp only [handleProperty, detectNow]
    split_ifs <;>
      simp only [updateRenderTexture_trackingActive, updateRenderTexture_processingPBOIndex,
        updateRenderTexture_events, and_self]
  | MpvFramesPerSecond v => exact ⟨rfl, rfl, rfl⟩
  | MpvDuration v =>
    exact ⟨rfl, rfl, frameReadyCount_append_single _ _ rfl⟩
  | MpvTotalFrames v => exact ⟨rfl, rfl, rfl⟩
  | MpvPosition v =>
    simp only [handleProperty, notifyTime]
    split_ifs <;> exact ⟨rfl, rfl, frameReadyCount_append_single _ _ rfl⟩
  | MpvSpeed v =>
    exact ⟨rfl, rfl, frameReadyCount_append_single _ _ rfl⟩
  | MpvPauseState v =>
    simp only [handleProperty, notifyPaused]
    split_ifs <;> exact ⟨rfl, rfl, frameReadyCount_append_single _ _ rfl⟩
  | MpvFilePath v =>
    exact ⟨rfl, rfl, frameReadyCount_append_single _ _ rfl⟩

theorem ProcessEvent_frame (ctx : MpvPlayerContext) (e : MpvEventInput) :
    (ProcessEvent ctx e).trackingActive = ctx.trackingActive ∧
    (ProcessEvent ctx e).processingPBOIndex = ctx.processingPBOIndex ∧
    frameReadyCount (ProcessEvent ctx e).events = frameReadyCount ctx.events := by
  unfold ProcessEvent
  split
  · exact ⟨rfl, rfl, rfl⟩
  · exact ⟨rfl, rfl, rfl⟩
  · simp only
    split_ifs <;> exact ⟨rfl, rfl, rfl⟩
  · exact ⟨rfl, rfl, rfl⟩
  · exact handleProperty_frame ctx e _
  · exact ⟨rfl, rfl, rfl⟩

theorem SetPaused_frame (ctx : MpvPlayerContext) (paused : Bool) :
    (SetPaused ctx paused).trackingActive = ctx.trackingActive ∧
    (SetPaused ctx paused).processingPBOIndex = ctx.processingPBOIndex ∧
    (SetPaused ctx paused).events = ctx.events := by
  unfold SetPaused
  split_ifs <;> exact ⟨rfl, rfl, rfl⟩

theorem SetPositionPercent_frame (ctx : MpvPlayerContext) (p : Flt) (pausesVideo : Bool) :
    (SetPositionPercent ctx p pausesVideo).trackingActive = ctx.trackingActive ∧
    (SetPositionPercent ctx p pausesVideo).processingPBOIndex = ctx.processingPBOIndex ∧
    (SetPositionPercent ctx p pausesVideo).events = ctx.events := by
  unfold SetPositionPercent SetPaused
  simp only
  split_ifs <;> exact ⟨rfl, rfl, rfl⟩

theorem SetVolume_frame (ctx : MpvPlayerContext) (volume : Flt) :
    (SetVolume ctx volume).trackingActive = ctx.trackingActive ∧
    (SetVolume ctx volume).processingPBOIndex = ctx.processingPBOIndex ∧
    (SetVolume ctx volume).events = ctx.events :=
  ⟨rfl, rfl, rfl⟩

theorem SetSpeed_frame (k : PlayerConstants) (ctx : MpvPlayerContext) (speed : Flt) :
    (SetSpeed k ctx speed).trackingActive = ctx.trackingActive ∧
    (SetSpeed k ctx speed).processingPBOIndex = ctx.processingPBOIndex ∧
    (SetSpeed k ctx speed).events = ctx.events := by
  unfold SetSpeed
  simp only
  split_ifs <;> exact ⟨rfl, rfl, rfl⟩

theorem CloseVideo_frame (ctx : MpvPlayerContext) :
    (CloseVideo ctx).trackingActive = ctx.trackingActive ∧
    (CloseVideo ctx).processingPBOIndex = ctx.processingPBOIndex ∧
    (CloseVideo ctx).events = ctx.events := by
  unfold CloseVideo
  simp only
  exact SetPaused_frame _ true

theorem OpenVideo_frame (k : PlayerConstants) (ctx : MpvPlayerContext) (path : String) :
    (OpenVideo k ctx path).trackingActive = ctx.trackingActive ∧
    (OpenVideo k ctx path).processingPBOIndex = ctx.processingPBOIndex ∧
    (OpenVideo k ctx path).events = ctx.events := by
  obtain ⟨c1, c2, c3⟩ := CloseVideo_frame ctx
  unfold OpenVideo
  simp only
  generalize CloseVideo ctx = c at c1 c2 c3 ⊢
  obtain ⟨s1, s2, s3⟩ := SetSpeed_frame k
    (SetVolume (SetPaused { c with
        requests := c.requests ++ [MpvRequest.loadfile path]
        data := { currentSpeed := c.data.currentSpeed, paused := c.data.paused }
        vrDetectionDone := false } true)
      (SetPaused { c with
        requests := c.requests ++ [MpvRequest.loadfile path]
        data := { currentSpeed := c.data.currentSpeed, paused := c.data.paused }
        vrDetectionDone := false } true).data.currentVolume)
    (Flt.fin (SetVolume (SetPaused { c with
        requests := c.requests ++ [MpvRequest.loadfile path]
        data := { currentSpeed := c.data.currentSpeed, paused := c.data.paused }
        vrDetectionDone := false } true)
      (SetPaused { c with
        requests := c.requests ++ [MpvRequest.loadfile path]
        data := { currentSpeed := c.data.currentSpeed, paused := c.data.paused }
        vrDetectionDone := false } true).data.currentVolume).data.currentSpeed)
  obtain ⟨p1, p2, p3⟩ := SetPaused_frame { c with
        requests := c.requests ++ [MpvRequest.loadfile path]
        data := { currentSpeed := c.data.currentSpeed, paused := c.data.paused }
        vrDetectionDone := false } true
  refine ⟨?_, ?_, ?_⟩
  · exact s1.trans (p1.trans c1)
  · exact s2.trans (p2.trans c2)
  · exact s3.trans (p3.trans c3)

theorem RenderFrameToTexture_inactive (ctx : MpvPlayerContext)
    (vrState : ProcessingVideoWindowState) (frameData : Option Nat)
    (h : ctx.trackingActive = false) :
    RenderFrameToTexture ctx vrState frameData = (ctx, none) := by
  unfold RenderFrameToTexture
  simp [h]

/-- While tracking is off and no action switches it on, a run has no processing pass, adds
no frame-ready notification and leaves `processingPBOIndex` and the flag as they are. -/
theorem runActions_inactive (ctx : MpvPlayerContext) (actions : List PlayerAction)
    (h : ctx.trackingActive = false) (hq : ∀ a ∈ actions, enablesTracking a = false) :
    (∀ p ∈ (runActions ctx actions).1, p = none) ∧
    frameReadyCount (runActions ctx actions).2.events = frameReadyCount ctx.events ∧
    (runActions ctx actions).2.processingPBOIndex = ctx.processingPBOIndex ∧
    (runActions ctx actions).2.trackingActive = false := by
  induction actions generalizing ctx with
  | nil => exact ⟨by simp [runActions], rfl, rfl, h⟩
  | cons a rest ih =>
    have hrest : ∀ b ∈ rest, enablesTracking b = false :=
      fun b hb => hq b (List.mem_cons_of_mem _ hb)
    have ha := hq a (List.mem_cons_self _ _)
    have hstep : (stepAction ctx a).2 = none ∧
        (stepAction ctx a).1.trackingActive = false ∧
        frameReadyCount (stepAction ctx a).1.events = frameReadyCount ctx.events ∧
        (stepAction ctx a).1.processingPBOIndex = ctx.processingPBOIndex := by
      cases a with
      | renderTick input =>
        have e := RenderFrameToTexture_inactive ctx input.vrState input.frameData h
        simp only [stepAction, e]
        exact ⟨trivial, h, trivial, trivial⟩
      | setTrackingActive active =>
        cases active with
        | true => simp [enablesTracking] at ha
        | false => exact ⟨rfl, rfl, rfl, rfl⟩
      | processEvent e =>
        obtain ⟨h1, h2, h3⟩ := ProcessEvent_frame ctx e
        exact ⟨rfl, by simp only [stepAction]; rw [h1, h], h3, h2⟩
      | setPositionPercent p pv =>
        obtain ⟨h1, h2, h3⟩ := SetPositionPercent_frame ctx (Flt.fin p) pv
        exact ⟨rfl, by simp only [stepAction]; rw [h1, h],
          by simp only [stepAction]; rw [h3], h2⟩
      | setPaused b =>
        obtain ⟨h1, h2, h3⟩ := SetPaused_frame ctx b
        exact ⟨rfl, by simp only [stepAction]; rw [h1, h],
          by simp only [stepAction]; rw [h3], h2⟩
      | openVideo k path =>
        obtain ⟨h1, h2, h3⟩ := OpenVideo_frame k ctx path
        exact ⟨rfl, by simp only [stepAction]; rw [h1, h],
          by simp only [stepAction]; rw [h3], h2⟩
    obtain ⟨s1, s2, s3, s4⟩ := hstep
    obtain ⟨i1, i2, i3, i4⟩ := ih (stepAction ctx a).1 s2 hrest
    refine ⟨?_, ?_, ?_, ?_⟩
    · intro p hp
      simp only [runActions, List.mem_cons] at hp
      rcases hp with hp | hp
      · rw [hp, s1]
      · exact i1 p hp
    · simp only [runActions]
      rw [i2, s3]
    · simp only [runActions]
      rw [i3, s4]
    · simp only [runActions]
      exact i4

/-- C12: a render tick with `trackingActive = false` returns the context as it was (so no
notification is enqueued and `processingPBOIndex`, `vrFormat`, `vrDetectionDone` are the
same) and has no processing pass; hence after `SetTrackingActive(false)`, for every sequence
of ticks, decoder events, seeks and pause calls that does not switch tracking on again, no
tick has a processing pass, the number of frame-ready notifications stays what it was, and
the ring index and the flag are unchanged.  Every step is a total function: there is no
error path. -/
theorem tracking_inactive_no_frames (ctx : MpvPlayerContext) :
    (∀ (vrState : ProcessingVideoWindowState) (frameData : Option Nat),
      ctx.trackingActive = false →
      RenderFrameToTexture ctx vrState frameData = (ctx, none)) ∧
    (∀ actions : List PlayerAction, (∀ a ∈ actions, enablesTracking a = false) →
      (∀ p ∈ (runActions (SetTrackingActive ctx false) actions).1, p = none) ∧
      frameReadyCount (runActions (SetTrackingActive ctx false) actions).2.events =
        frameReadyCount ctx.events ∧
      (runActions (SetTrackingActive ctx false) actions).2.processingPBOIndex =
        ctx.processingPBOIndex ∧
      (runActions (SetTrackingActive ctx false) actions).2.trackingActive = false) := by
  refine ⟨fun vrState frameData h => RenderFrameToTexture_inactive ctx vrState frameData h, ?_⟩
  intro actions hq
  exact runActions_inactive (SetTrackingActive ctx false) actions rfl hq

/-- Witness for C12: tracking is switched off in `sampleContext`, then two ticks with a
successful buffer mapping and a pause event in between. -/
theorem tracking_inactive_no_frames_witness :
    frameReadyCount (runActions (SetTrackingActive sampleContext false)
      [PlayerAction.renderTick { vrState := {}, frameData := some 100 },
       PlayerAction.processEvent pauseEvent,
       PlayerAction.renderTick { vrState := {}, frameData := some 100 }]).2.events =
      frameReadyCount sampleContext.events :=
  ((tracking_inactive_no_frames sampleContext).2 _ (by decide)).2.1

/-- C13 as stated fails: `CurrentTime()` does not clamp.  A playing 10 s clip at
`logicalPosition = 1`, speed 1, read 1000 ms after the last update gives
46137345 / 4194304 = 11.0000002384..., which is above the duration. -/
theorem CurrentTime_playing_counterexample :
    ¬ (∀ (ctx : MpvPlayerContext) (now : Nat) (t : ℚ), ctx.data.paused = false →
        0 < ctx.data.duration → CurrentTime ctx now = Flt.fin t →
        0 ≤ t ∧ t ≤ ctx.data.duration) := by
  intro h
  have h1 := (h endContext 1000 (46137345 / 4194304) rfl (by decide!) (by decide!)).2
  revert h1
  decide!

/-- C13, amended: while playing, `CurrentTime()` is `(logicalPosition + offset) * D` with
`offset = ((now - smoothTimer) / 1000 * speed) / D`, every operation rounded as the code
computes it: the tick difference is converted to `float` and divided by 1000 in `float`,
the product with the speed and the quotient by `D` are taken in `double` and stored as
`float`, the sum is a `float` sum and the product with `D` a `double` product.  The value is
not clamped.  For a finite `logicalPosition` in `[0, 2^100]`, a positive tick difference,
a speed in `[2^(-20), 2^20]` and a duration in `[2^(-20), 2^40]` it is a finite number
within the relative error `2^(-21)` of
`logicalPosition * D + (now - smoothTimer) / 1000 * speed`. -/
theorem CurrentTime_playing (ctx : MpvPlayerContext) (now : Nat)
    (hp : ctx.data.paused = false) :
    CurrentTime ctx now =
      Flt.mul64
        (Flt.add32 ctx.logicalPosition
          (Flt.round32 (Flt.div64
            (Flt.mul64
              (Flt.div32 (Flt.round32 (Flt.fin (ticksSince now ctx.smoothTimer)))
                (Flt.fin 1000))
              (Flt.fin ctx.data.currentSpeed))
            (Flt.fin ctx.data.duration))))
        (Flt.fin ctx.data.duration) ∧
    (∀ l : ℚ, ctx.logicalPosition = Flt.fin l → 0 ≤ l → l ≤ 2 ^ 100 →
      0 < ticksSince now ctx.smoothTimer →
      1 / 2 ^ 20 ≤ ctx.data.currentSpeed → ctx.data.currentSpeed ≤ 2 ^ 20 →
      1 / 2 ^ 20 ≤ ctx.data.duration → ctx.data.duration ≤ 2 ^ 40 →
      ∃ t : ℚ, CurrentTime ctx now = Flt.fin t ∧
        |t - (l * ctx.data.duration +
            (ticksSince now ctx.smoothTimer : ℚ) / 1000 * ctx.data.currentSpeed)| ≤
          1 / 2 ^ 21 * (l * ctx.data.duration +
            (ticksSince now ctx.smoothTimer : ℚ) / 1000 * ctx.data.currentSpeed)) := by
  have h1 : CurrentTime ctx now =
      Flt.mul64
        (Flt.add32 ctx.logicalPosition
          (Flt.round32 (Flt.div64
            (Flt.mul64
              (Flt.div32 (Flt.round32 (Flt.fin (ticksSince now ctx.smoothTimer)))
                (Flt.fin 1000))
              (Flt.fin ctx.data.currentSpeed))
            (Flt.fin ctx.data.duration))))
        (Flt.fin ctx.data.duration) := by
    unfold CurrentTime
    rw [hp, positionOffset_eq]
    rfl
  refine ⟨h1, ?_⟩
  intro l hl hl0 hl1 hT hs0 hs1 hD0 hD1
  rw [h1, hl]
  exact playing_time_error l _ _ _ hl0 hl1 hT (ticksSince_lt _ _) hs0 hs1 hD0 hD1

/-- Witness for C13 (amended): `endContext` read at 1000 ms gives 11.0000002384... s for a
10 s clip: the offset is the `float` nearest to 0.1 and the sum the `float` nearest to
1.1; the value is within the relative error `2^(-21)` of 11. -/
theorem CurrentTime_playing_witness :
    CurrentTime endContext 1000 = Flt.fin (46137345 / 4194304) ∧
    ∃ t : ℚ, CurrentTime endContext 1000 = Flt.fin t ∧
      |t - (1 * endContext.data.duration +
          (ticksSince 1000 endContext.smoothTimer : ℚ) / 1000 *
            endContext.data.currentSpeed)| ≤
        1 / 2 ^ 21 * (1 * endContext.data.duration +
          (ticksSince 1000 endContext.smoothTimer : ℚ) / 1000 *
            endContext.data.currentSpeed) := by
  have h := CurrentTime_playing endContext 1000 rfl
  refine ⟨?_, h.2 1 rfl (by norm_num) (by norm_num) (by decide) (by decide!) (by decide!)
    (by decide!) (by decide!)⟩
  rw [h.1]
  decide!

/-- C14 as stated fails: with a cached duration of 0 the playing branch divides by the
duration and the result is a NaN, not 0. -/
theorem CurrentTime_zero_duration_counterexample :
    ¬ (∀ (ctx : MpvPlayerContext) (now : Nat), ctx.data.duration = 0 →
        CurrentTime ctx now = Flt.fin 0) := by
  intro h
  have h1 := h zeroDurationContext 1000 rfl
  revert h1
  decide!

/-- C14, amended: with a cached duration of 0, `CurrentTime()` returns 0 in the paused
state when `logicalPosition` is a finite number (no division is performed there) and a NaN
when it is not; in the playing state it divides by the zero duration and the result is a
NaN whatever the position.  A pause-flag event with value true that is processed while the
duration is 0 leaves a `logicalPosition` that is not finite. -/
theorem CurrentTime_zero_duration (ctx : MpvPlayerContext) (now : Nat)
    (hd : ctx.data.duration = 0) :
    (ctx.data.paused = true → ∀ x, ctx.logicalPosition = Flt.fin x →
      CurrentTime ctx now = Flt.fin 0) ∧
    (ctx.data.paused = true → (∀ x, ctx.logicalPosition ≠ Flt.fin x) →
      CurrentTime ctx now = Flt.nan) ∧
    (ctx.data.paused = false → CurrentTime ctx now = Flt.nan) ∧
    (∀ (e : MpvEventInput) (x : ℚ),
      e.event = MpvEvent.MPV_EVENT_PROPERTY_CHANGE (some (MpvProperty.MpvPauseState true)) →
      (ProcessEvent ctx e).data.duration = 0 ∧ (ProcessEvent ctx e).data.paused = true ∧
      (ProcessEvent ctx e).logicalPosition ≠ Flt.fin x) := by
  refine ⟨?_, ?_, ?_, ?_⟩
  · intro hp x hl
    unfold CurrentTime
    rw [hp, hl, hd]
    exact mul64_fin_zero x
  · intro hp hl
    unfold CurrentTime
    rw [hp, hd]
    exact mul64_zero_of_not_fin _ hl
  · intro hp
    unfold CurrentTime
    rw [hp, hd]
    exact mul64_zero_of_not_fin _
      (add32_not_fin _ _ (positionOffset_zero_duration ctx now hd))
  · intro e x he
    simp only [ProcessEvent, he, handleProperty, notifyPaused, if_true]
    exact ⟨hd, trivial, add32_not_fin _ _ (positionOffset_zero_duration ctx e.now hd) x⟩

/-- Witness for C14 (amended): `zeroDurationContext` is playing and its time is a NaN; after
a pause-flag event it is paused and its time is still a NaN. -/
theorem CurrentTime_zero_duration_witness :
    CurrentTime zeroDurationContext 1000 = Flt.nan ∧
    CurrentTime (ProcessEvent zeroDurationContext pauseEvent) 2000 = Flt.nan :=
  ⟨(CurrentTime_zero_duration zeroDurationContext 1000 rfl).2.2.1 rfl, by decide!⟩

/-! ## Paused position, zero height: claims -/

/-- C15 as stated fails: in the paused `sampleContext` (10 s clip, speed 1, last update at
tick 0) a pause-flag event with value true handled at tick 1000 moves `logicalPosition`
from 0 to 13421773 / 134217728, the `float` nearest to 0.1. -/
theorem paused_position_counterexample :
    ¬ (∀ (ctx : MpvPlayerContext) (e : MpvEventInput) (prop : MpvProperty),
        ctx.data.paused = true → e.event = MpvEvent.MPV_EVENT_PROPERTY_CHANGE (some prop) →
        (ProcessEvent ctx e).logicalPosition = ctx.logicalPosition) := by
  intro h
  have h1 := h sampleContext pauseEvent (MpvProperty.MpvPauseState true) rfl rfl
  revert h1
  decide!

/-- C15, amended: in every state with `paused = true`, processing any decoder event other
than a pause-flag event with value true leaves `logicalPosition` unchanged; a pause-flag
event with value true adds `(now - smoothTimer) / 1000 * speed / duration` to it also when
the cached flag is already set (the offset and the sum in the `float` and `double`
operations of the code); and a seek by `SetPositionPercent(p, _)` sets it to `p`, as the
`float` the function receives. -/
theorem paused_position_frozen (ctx : MpvPlayerContext) (e : MpvEventInput)
    (hp : ctx.data.paused = true) :
    (e.event ≠ MpvEvent.MPV_EVENT_PROPERTY_CHANGE (some (MpvProperty.MpvPauseState true)) →
      (ProcessEvent ctx e).logicalPosition = ctx.logicalPosition) ∧
    (e.event = MpvEvent.MPV_EVENT_PROPERTY_CHANGE (some (MpvProperty.MpvPauseState true)) →
      (ProcessEvent ctx e).logicalPosition =
        Flt.add32 ctx.logicalPosition
          (Flt.round32 (Flt.div64
            (Flt.mul64
              (Flt.div32 (Flt.round32 (Flt.fin (ticksSince e.now ctx.smoothTimer)))
                (Flt.fin 1000))
              (Flt.fin ctx.data.currentSpeed))
            (Flt.fin ctx.data.duration)))) ∧
    (∀ (p : Flt) (pausesVideo : Bool),
      (SetPositionPercent ctx p pausesVideo).logicalPosition = Flt.round32 p) := by
  refine ⟨?_, ?_, ?_⟩
  · intro hne
    cases hev : e.event with
    | MPV_EVENT_LOG_MESSAGE => simp only [ProcessEvent, hev]
    | MPV_EVENT_COMMAND_REPLY => simp only [ProcessEvent, hev]
    | MPV_EVENT_FILE_LOADED =>
      simp only [ProcessEvent, hev, detectNow]
      split_ifs <;> rfl
    | otherEvent => simp only [ProcessEvent, hev]
    | MPV_EVENT_PROPERTY_CHANGE prop =>
      cases prop with
      | none => simp only [ProcessEvent, hev]
      | some pr =>
        simp only [ProcessEvent, hev]
        cases pr with
        | MpvHwDecoder v => rfl
        | MpvVideoWidth v =>
          simp only [handleProperty]
          split_ifs <;> simp only [updateRenderTexture_logicalPosition]
        | MpvVideoHeight v =>
          simp only [handleProperty, detectNow]
          split_ifs <;> simp only [updateRenderTexture_logicalPosition]
        | MpvFramesPerSecond v => rfl
        | MpvDuration v => rfl
        | MpvTotalFrames v => rfl
        | MpvPosition v =>
          simp only [handleProperty, notifyTime, hp]
          rfl
        | MpvSpeed v => rfl
        | MpvPauseState v =>
          cases v with
          | true => exact absurd hev hne
          | false => rfl
        | MpvFilePath v => rfl
  · intro hev
    simp only [ProcessEvent, hev, handleProperty, notifyPaused, if_true, positionOffset_eq]
  · intro p pausesVideo
    unfold SetPositionPercent SetPaused
    simp only
    split_ifs <;> rfl

/-- Witness for C15 (amended): a position report of 50 percent leaves the logical position
of the paused `sampleContext` at 0. -/
theorem paused_position_frozen_witness :
    (ProcessEvent sampleContext
      { event := MpvEvent.MPV_EVENT_PROPERTY_CHANGE (some (MpvProperty.MpvPosition 50)),
        now := 1000, now2 := 1000, gl := sampleNames }).logicalPosition = Flt.fin 0 :=
  (paused_position_frozen sampleContext _ rfl).1 (by decide)

/-- C16 as stated fails: with height 0 the aspect ratio is 0, but a keyword in the file name
still classifies the clip as VR: `DetectFormat(1920, 0, "vr.mp4")` has `isVR = true`. -/
theorem zero_height_counterexample :
    ¬ (∀ (width : Int) (filename : String),
        GetAspectRatio width 0 = 0 ∧ (DetectFormat width 0 filename).isVR = false) := by
  intro h
  have h1 := (h 1920 "vr.mp4").2
  revert h1
  decide!

/-- C16, amended: when height is 0 the aspect ratio is taken to be 0 (no division is
performed) and the dimension test fails (`IsLikelyVR` is false); for every width the clip
is classified by the file name alone: `isVR = true` (with confidence `0.7f`) exactly when
the name contains one of the keywords, `isVR = false` otherwise. -/
theorem zero_height_not_likely_vr (width : Int) (filename : String) :
    GetAspectRatio width 0 = 0 ∧ IsLikelyVR width 0 = false ∧
    ((DetectFormat width 0 filename).isVR = true ↔
      ∃ kw ∈ ["VR", "_180", "_360", "SBS", "_TB", "FISHEYE", "EQUIRECTANGULAR", "LR_",
              "OCULUS", "_3DH", "MKX200"], containsKeyword filename kw) ∧
    ((DetectFormat width 0 filename).isVR = true →
      (DetectFormat width 0 filename).confidence = f32 (7/10)) := by
  have ha : GetAspectRatio width 0 = 0 := by simp [GetAspectRatio]
  have hl : IsLikelyVR width 0 = false := by
    unfold IsLikelyVR
    simp only [ha]
    have h1 : IsSBSAspect 0 = false := by decide!
    have h2 : IsTBAspect 0 = false := by decide!
    simp [h1, h2]
  have hkw := HasVRKeyword_iff filename
  unfold keywords at hkw
  refine ⟨ha, hl, ?_, ?_⟩
  · rw [← hkw]
    constructor
    · intro hv
      by_contra hk
      rw [Bool.not_eq_true] at hk
      rw [DetectFormat_not_vr width 0 filename hl hk] at hv
      exact Bool.false_ne_true hv
    · intro hk
      exact DetectFormat_isVR_of_keyword width 0 filename hk
  · intro hv
    cases hk : HasVRKeyword filename
    · rw [DetectFormat_not_vr width 0 filename hl hk] at hv
      exact absurd hv Bool.false_ne_true
    · rw [DetectFormat_keyword width 0 filename hl hk]

/-- Witness for C16 (amended): `DetectFormat(1920, 0, "clip.mp4")` is not VR. -/
theorem zero_height_not_likely_vr_witness :
    ¬ (DetectFormat 1920 0 "clip.mp4").isVR = true := by
  rw [(zero_height_not_likely_vr 1920 "clip.mp4").2.2.1]
  unfold containsKeyword
  decide!

/-! ## The readback ring under failure, at the first tick and across a pause of tracking -/

theorem lazyDetect_events (ctx : MpvPlayerContext) :
    (lazyDetect ctx).events = ctx.events ∧
    (ctx.vrDetectionDone = true → (lazyDetect ctx).vrDetectionDone = true) := by
  unfold lazyDetect
  split
  · exact ⟨rfl, fun _ => rfl⟩
  · exact ⟨rfl, fun h => h⟩

theorem RenderFrameToTexture_context (ctx : MpvPlayerContext)
    (vrState : ProcessingVideoWindowState) (frameData : Option Nat)
    (hg : processingEnabled ctx) :
    (RenderFrameToTexture ctx vrState frameData).1 =
      { lazyDetect ctx with
        events :=
          match frameData with
          | some ptr =>
            (lazyDetect ctx).events ++ [VideoplayerEvent.ProcessingFrameReadyEvent ptr
              PROCESSING_SIZE PROCESSING_SIZE
              (Flt.mul64 (Flt.fin (lazyDetect ctx).data.duration)
                (lazyDetect ctx).data.percentPos)
              (lazyDetect ctx).playerType (toInt32 (lazyDetect ctx).data.videoWidth)
              (toInt32 (lazyDetect ctx).data.videoHeight)]
          | none => (lazyDetect ctx).events
        processingPBOIndex := Int.tmod (ctx.processingPBOIndex + 1) 2 } := by
  obtain ⟨h1, h2, h3⟩ := hg
  obtain ⟨l1, _⟩ := lazyDetect_frame ctx
  unfold RenderFrameToTexture
  simp only [h1, h2, h3, ne_eq, not_false_eq_true, decide_True, Bool.and_self, if_true, l1]

/-- C18: when mapping the read slot fails on a processing tick (`glMapBuffer` returns null),
the tick still has its pass but enqueues nothing (the notification queue is unchanged),
`processingPBOIndex` becomes the tick's write index exactly as on a successful mapping, and
the context is otherwise the one left by the lazy detection step: `trackingActive` stays
set, and a detection result already cached stays cached with its flag. -/
theorem map_failure_skips_frame (ctx : MpvPlayerContext)
    (vrState : ProcessingVideoWindowState) (ptr : Nat) (hg : processingEnabled ctx) :
    ∃ pass, (RenderFrameToTexture ctx vrState none).2 = some pass ∧
      pass.frameEmitted = false ∧
      (RenderFrameToTexture ctx vrState none).1.events = ctx.events ∧
      (RenderFrameToTexture ctx vrState none).1.processingPBOIndex = pass.writeIndex ∧
      (RenderFrameToTexture ctx vrState none).1.processingPBOIndex =
        (RenderFrameToTexture ctx vrState (some ptr)).1.processingPBOIndex ∧
      (RenderFrameToTexture ctx vrState none).1 =
        { lazyDetect ctx with processingPBOIndex := pass.writeIndex } ∧
      (RenderFrameToTexture ctx vrState none).1 =
        { (RenderFrameToTexture ctx vrState (some ptr)).1 with events := ctx.events } ∧
      (RenderFrameToTexture ctx vrState none).1.trackingActive = true ∧
      (ctx.vrDetectionDone = true →
        (RenderFrameToTexture ctx vrState none).1.vrFormat = ctx.vrFormat ∧
        (RenderFrameToTexture ctx vrState none).1.vrDetectionDone = true) := by
  obtain ⟨pass, hp, _, _, _, _, hw, he, hi, hv, hg2⟩ :=
    RenderFrameToTexture_processing ctx vrState none hg
  have hn := RenderFrameToTexture_context ctx vrState none hg
  have hs := RenderFrameToTexture_context ctx vrState (some ptr) hg
  obtain ⟨le, ld⟩ := lazyDetect_events ctx
  simp only at hn hs
  refine ⟨pass, hp, he, ?_, hi, ?_, ?_, ?_, hg2.1, ?_⟩
  · rw [hn]
    exact le
  · rw [hn, hs]
  · rw [hn, hw]
  · rw [hn, hs, le]
  · intro hd
    rw [hn]
    exact ⟨by rw [lazyDetect_done ctx hd], ld hd⟩

/-- Witness for C18: a failed mapping on the first tick of `sampleContext` leaves the queue
empty and moves the ring index from 0 to 1. -/
theorem map_failure_skips_frame_witness :
    (RenderFrameToTexture sampleContext {} none).1.events = [] ∧
    (RenderFrameToTexture sampleContext {} none).1.processingPBOIndex = 1 := by
  obtain ⟨pass, _, _, h1, _, _, _⟩ :=
    map_failure_skips_frame sampleContext {} 100 ⟨rfl, by decide, by decide⟩
  exact ⟨h1, by decide!⟩

/-- C19, the code at the failing input: in `freshContext` (buffers just created, no tick has
run, no frame-ready notification queued, `processingPBOIndex` 0) the first processing tick
with a successful mapping copies into slot 1, maps slot 0, which no tick has written, and
enqueues a frame-ready notification with its contents. -/
theorem first_tick_maps_unwritten_slot :
    freshContext.processingPBOIndex = 0 ∧
    freshContext.processingPBO = (5, 6) ∧
    frameReadyCount freshContext.events = 0 ∧
    (RenderFrameToTexture freshContext {} (some 100)).2.map
      (fun pass => (pass.writeIndex, pass.readIndex, pass.frameEmitted)) =
      some (1, 0, true) ∧
    frameReadyCount (RenderFrameToTexture freshContext {} (some 100)).1.events = 1 := by
  decide!

/-- C20 as stated fails: in the run tick, `SetTrackingActive(false)`, tick,
`SetTrackingActive(true)`, tick from `sampleContext`, the first tick writes slot 1, and the
last tick maps slot 1 although no tick has written it in between. -/
theorem stale_copy_counterexample :
    ¬ (∀ (ctx : MpvPlayerContext) (before after : List PlayerAction) (s : Int),
        lastWrittenSlot (runActions ctx before).1 = some s →
        staleRead s
          (runActions (SetTrackingActive (runActions ctx before).2 false) after).1 =
          false) := by
  intro h
  have h1 := h sampleContext
    [PlayerAction.renderTick { vrState := {}, frameData := some 100 }]
    [PlayerAction.renderTick { vrState := {}, frameData := some 100 },
     PlayerAction.setTrackingActive true,
     PlayerAction.renderTick { vrState := {}, frameData := some 100 }]
    1 (by decide!)
  revert h1
  decide!

theorem staleRead_of_all_none (s : Int) (trace : List (Option ProcessingPass))
    (h : ∀ p ∈ trace, p = none) : staleRead s trace = false := by
  induction trace with
  | nil => rfl
  | cons p rest ih =>
    have hp := h p (List.mem_cons_self _ _)
    subst hp
    simp only [staleRead]
    exact ih (fun q hq => h q (List.mem_cons_of_mem _ hq))

/-- C20, amended: after the last active tick (a processing pass that wrote slot `s`) and
`SetTrackingActive(false)`, for every sequence of ticks, decoder events, seeks and pause
calls that does not switch tracking on again, no tick has a processing pass, so slot `s` is
neither mapped nor emitted and no frame-ready notification is added, and
`processingPBOIndex` stays `s`; once tracking is switched on again, the next processing tick
maps exactly slot `s` and emits its contents if the mapping succeeds. -/
theorem stale_copy_while_inactive (ctx : MpvPlayerContext) (input : TickInput)
    (quiet : List PlayerAction) (hg : processingEnabled ctx)
    (hq : ∀ a ∈ quiet, enablesTracking a = false) :
    ∃ pass, (RenderFrameToTexture ctx input.vrState input.frameData).2 = some pass ∧
      (∀ p ∈ (runActions (SetTrackingActive
          (RenderFrameToTexture ctx input.vrState input.frameData).1 false) quiet).1,
        p = none) ∧
      staleRead pass.writeIndex (runActions (SetTrackingActive
          (RenderFrameToTexture ctx input.vrState input.frameData).1 false) quiet).1 =
        false ∧
      frameReadyCount (runActions (SetTrackingActive
          (RenderFrameToTexture ctx input.vrState input.frameData).1 false) quiet).2.events =
        frameReadyCount (RenderFrameToTexture ctx input.vrState input.frameData).1.events ∧
      (runActions (SetTrackingActive
          (RenderFrameToTexture ctx input.vrState input.frameData).1 false)
        quiet).2.processingPBOIndex = pass.writeIndex ∧
      (∀ (next : TickInput),
        processingEnabled (SetTrackingActive (runActions (SetTrackingActive
          (RenderFrameToTexture ctx input.vrState input.frameData).1 false) quiet).2 true) →
        ∃ pass2, (RenderFrameToTexture (SetTrackingActive (runActions (SetTrackingActive
              (RenderFrameToTexture ctx input.vrState input.frameData).1 false) quiet).2 true)
            next.vrState next.frameData).2 = some pass2 ∧
          pass2.readIndex = pass.writeIndex ∧
          pass2.frameEmitted = next.frameData.isSome) := by
  obtain ⟨pass, hp, _, _, _, _, _, _, hi, _⟩ :=
    RenderFrameToTexture_processing ctx input.vrState input.frameData hg
  generalize (RenderFrameToTexture ctx input.vrState input.frameData).1 = c1 at hi ⊢
  obtain ⟨q1, q2, q3, _⟩ := runActions_inactive (SetTrackingActive c1 false) quiet rfl hq
  refine ⟨pass, hp, q1, staleRead_of_all_none _ _ q1, q2, ?_, ?_⟩
  · rw [q3]
    exact hi
  · intro next hg3
    obtain ⟨pass2, hp2, _, _, _, hr2, _, he2, _⟩ :=
      RenderFrameToTexture_processing _ next.vrState next.frameData hg3
    refine ⟨pass2, hp2, ?_, he2⟩
    rw [hr2]
    show (runActions (SetTrackingActive c1 false) quiet).2.processingPBOIndex = _
    rw [q3]
    exact hi

/-- Witness for C20 (amended): a tick of `sampleContext` writes slot 1; with tracking off, a
tick and a pause event later the ring index is still 1. -/
theorem stale_copy_while_inactive_witness :
    (runActions (SetTrackingActive
        (RenderFrameToTexture sampleContext {} (some 100)).1 false)
      [PlayerAction.renderTick { vrState := {}, frameData := some 100 },
       PlayerAction.processEvent pauseEvent]).2.processingPBOIndex = 1 := by
  obtain ⟨pass, _, _, _, _, h, _⟩ := stale_copy_while_inactive sampleContext
    { vrState := {}, frameData := some 100 }
    [PlayerAction.renderTick { vrState := {}, frameData := some 100 },
     PlayerAction.processEvent pauseEvent] ⟨rfl, by decide, by decide⟩ (by decide)
  decide!

/-! ## Opening a video, cached detection, pause events, exact seeks -/

theorem round32_half : Flt.round32 (Flt.fin (1 / 2)) = Flt.fin (1 / 2) := by
  decide!

theorem SetSpeed_data (k : PlayerConstants) (ctx : MpvPlayerContext) (speed : Flt) :
    (SetSpeed k ctx speed).data = ctx.data ∧
    (SetSpeed k ctx speed).vrDetectionDone = ctx.vrDetectionDone ∧
    (SetSpeed k ctx speed).vrFormat = ctx.vrFormat ∧
    (SetSpeed k ctx speed).logicalPosition = ctx.logicalPosition ∧
    (SetSpeed k ctx speed).smoothTimer = ctx.smoothTimer := by
  unfold SetSpeed
  simp only
  split_ifs <;> exact ⟨rfl, rfl, rfl, rfl, rfl⟩

theorem SetPaused_data (ctx : MpvPlayerContext) (paused : Bool) :
    (SetPaused ctx paused).data = ctx.data ∧
    (SetPaused ctx paused).vrDetectionDone = ctx.vrDetectionDone ∧
    (SetPaused ctx paused).vrFormat = ctx.vrFormat ∧
    (SetPaused ctx paused).logicalPosition = ctx.logicalPosition ∧
    (SetPaused ctx paused).smoothTimer = ctx.smoothTimer := by
  unfold SetPaused
  split_ifs <;> exact ⟨rfl, rfl, rfl, rfl, rfl⟩

theorem OpenVideo_effect (k : PlayerConstants) (ctx : MpvPlayerContext) (path : String) :
    (OpenVideo k ctx path).data =
      { currentSpeed := ctx.data.currentSpeed, paused := ctx.data.paused } ∧
    (OpenVideo k ctx path).vrDetectionDone = false ∧
    (OpenVideo k ctx path).vrFormat = ctx.vrFormat ∧
    (OpenVideo k ctx path).logicalPosition = ctx.logicalPosition ∧
    (OpenVideo k ctx path).smoothTimer = ctx.smoothTimer := by
  unfold OpenVideo
  simp only
  obtain ⟨s1, s2, s3, s4, s5⟩ := SetSpeed_data k
    (SetVolume (SetPaused { CloseVideo ctx with
        requests := (CloseVideo ctx).requests ++ [MpvRequest.loadfile path]
        data := { currentSpeed := (CloseVideo ctx).data.currentSpeed,
                  paused := (CloseVideo ctx).data.paused }
        vrDetectionDone := false } true)
      (SetPaused { CloseVideo ctx with
        requests := (CloseVideo ctx).requests ++ [MpvRequest.loadfile path]
        data := { currentSpeed := (CloseVideo ctx).data.currentSpeed,
                  paused := (CloseVideo ctx).data.paused }
        vrDetectionDone := false } true).data.currentVolume)
    (Flt.fin (SetVolume (SetPaused { CloseVideo ctx with
        requests := (CloseVideo ctx).requests ++ [MpvRequest.loadfile path]
        data := { currentSpeed := (CloseVideo ctx).data.currentSpeed,
                  paused := (CloseVideo ctx).data.paused }
        vrDetectionDone := false } true)
      (SetPaused { CloseVideo ctx with
        requests := (CloseVideo ctx).requests ++ [MpvRequest.loadfile path]
        data := { currentSpeed := (CloseVideo ctx).data.currentSpeed,
                  paused := (CloseVideo ctx).data.paused }
        vrDetectionDone := false } true).data.currentVolume).data.currentSpeed)
  obtain ⟨p1, p2, p3, p4, p5⟩ := SetPaused_data { CloseVideo ctx with
        requests := (CloseVideo ctx).requests ++ [MpvRequest.loadfile path]
        data := { currentSpeed := (CloseVideo ctx).data.currentSpeed,
                  paused := (CloseVideo ctx).data.paused }
        vrDetectionDone := false } true
  have c : (CloseVideo ctx).data = { ctx.data with videoLoaded := false } ∧
      (CloseVideo ctx).vrFormat = ctx.vrFormat ∧
      (CloseVideo ctx).logicalPosition = ctx.logicalPosition ∧
      (CloseVideo ctx).smoothTimer = ctx.smoothTimer := by
    unfold CloseVideo SetPaused
    simp only
    split_ifs <;> exact ⟨rfl, rfl, rfl, rfl⟩
  obtain ⟨c1, c2, c3, c4⟩ := c
  refine ⟨?_, ?_, ?_, ?_, ?_⟩
  · rw [s1]
    unfold SetVolume
    simp only
    rw [p1]
    simp only [round32_half, c1]
  · rw [s2]
    unfold SetVolume
    simp only
    rw [p2]
  · rw [s3]
    unfold SetVolume
    simp only
    rw [p3]
    exact c2
  · rw [s4]
    unfold SetVolume
    simp only
    rw [p4]
    exact c3
  · rw [s5]
    unfold SetVolume
    simp only
    rw [p5]
    exact c4

theorem updateRenderTexture_data (ctx : MpvPlayerContext) (gl : GLNames) :
    (updateRenderTexture ctx gl).data = ctx.data :=
  (updateRenderTexture_frame ctx gl).2.2.2.2.1

theorem updateRenderTexture_vrFormat (ctx : MpvPlayerContext) (gl : GLNames) :
    (updateRenderTexture ctx gl).vrFormat = ctx.vrFormat :=
  (updateRenderTexture_frame ctx gl).2.2.2.2.2.1

theorem updateRenderTexture_vrDetectionDone (ctx : MpvPlayerContext) (gl : GLNames) :
    (updateRenderTexture ctx gl).vrDetectionDone = ctx.vrDetectionDone :=
  (updateRenderTexture_frame ctx gl).2.2.2.2.2.2

theorem handleProperty_detection (ctx : MpvPlayerContext) (e : MpvEventInput)
    (prop : MpvProperty) :
    ((handleProperty ctx e prop).vrFormat = ctx.vrFormat ∧
      (handleProperty ctx e prop).vrDetectionDone = ctx.vrDetectionDone) ∨
    (ctx.vrDetectionDone = false ∧ (handleProperty ctx e prop).vrDetectionDone = true ∧
      (handleProperty ctx e prop).vrFormat =
        DetectFormat (toInt32 (handleProperty ctx e prop).data.videoWidth)
          (toInt32 (handleProperty ctx e prop).data.videoHeight)
          (handleProperty ctx e prop).data.filePath) := by
  cases prop with
  | MpvHwDecoder v => exact Or.inl ⟨rfl, rfl⟩
  | MpvVideoWidth v =>
    simp only [handleProperty]
    split_ifs <;>
      simp only [updateRenderTexture_vrFormat, updateRenderTexture_vrDetectionDone, and_self,
        true_or]
  | MpvVideoHeight v =>
    simp only [handleProperty, detectNow, updateRenderTexture_vrDetectionDone,
      updateRenderTexture_data]
    split_ifs with h1 h2
    · right
      simp only [Bool.not_eq_true', Bool.not_eq_eq_eq_not, Bool.not_true] at h2
      simp only [h2, and_self]
    · left
      simp only [updateRenderTexture_vrFormat, updateRenderTexture_vrDetectionDone, and_self]
    · left
      exact ⟨rfl, rfl⟩
  | MpvFramesPerSecond v => exact Or.inl ⟨rfl, rfl⟩
  | MpvDuration v => exact Or.inl ⟨rfl, rfl⟩
  | MpvTotalFrames v => exact Or.inl ⟨rfl, rfl⟩
  | MpvPosition v =>
    simp only [handleProperty, notifyTime]
    split_ifs <;> exact Or.inl ⟨rfl, rfl⟩
  | MpvSpeed v => exact Or.inl ⟨rfl, rfl⟩
  | MpvPauseState v =>
    simp only [handleProperty, notifyPaused]
    split_ifs <;> exact Or.inl ⟨rfl, rfl⟩
  | MpvFilePath v => exact Or.inl ⟨rfl, rfl⟩

theorem ProcessEvent_detection (ctx : MpvPlayerContext) (e : MpvEventInput) :
    ((ProcessEvent ctx e).vrFormat = ctx.vrFormat ∧
      (ProcessEvent ctx e).vrDetectionDone = ctx.vrDetectionDone) ∨
    (ctx.vrDetectionDone = false ∧ (ProcessEvent ctx e).vrDetectionDone = true ∧
      (ProcessEvent ctx e).vrFormat =
        DetectFormat (toInt32 (ProcessEvent ctx e).data.videoWidth)
          (toInt32 (ProcessEvent ctx e).data.videoHeight)
          (ProcessEvent ctx e).data.filePath) := by
  unfold ProcessEvent
  split
  · exact Or.inl ⟨rfl, rfl⟩
  · exact Or.inl ⟨rfl, rfl⟩
  · simp only [detectNow]
    split_ifs with h
    · right
      simp only [Bool.and_eq_true, Bool.not_eq_true', decide_eq_true_eq] at h
      exact ⟨h.1.1, rfl, rfl⟩
    · exact Or.inl ⟨rfl, rfl⟩
  · exact Or.inl ⟨rfl, rfl⟩
  · exact handleProperty_detection ctx e _
  · exact Or.inl ⟨rfl, rfl⟩

theorem RenderFrameToTexture_detection (ctx : MpvPlayerContext)
    (vrState : ProcessingVideoWindowState) (frameData : Option Nat) :
    ((RenderFrameToTexture ctx vrState frameData).1.vrFormat = ctx.vrFormat ∧
      (RenderFrameToTexture ctx vrState frameData).1.vrDetectionDone =
        ctx.vrDetectionDone) ∨
    (ctx.vrDetectionDone = false ∧
      (RenderFrameToTexture ctx vrState frameData).1.vrDetectionDone = true ∧
      0 < ctx.data.videoWidth ∧ 0 < ctx.data.videoHeight ∧
      (RenderFrameToTexture ctx vrState frameData).1.vrFormat =
        DetectFormat (toInt32 (RenderFrameToTexture ctx vrState frameData).1.data.videoWidth)
          (toInt32 (RenderFrameToTexture ctx vrState frameData).1.data.videoHeight)
          (RenderFrameToTexture ctx vrState frameData).1.data.filePath) := by
  unfold RenderFrameToTexture
  split_ifs with hg
  · simp only
    unfold lazyDetect
    split_ifs with h
    · right
      simp only [Bool.and_eq_true, Bool.not_eq_true', decide_eq_true_eq] at h
      exact ⟨h.1.1, rfl, h.1.2, h.2, rfl⟩
    · exact Or.inl ⟨rfl, rfl⟩
  · exact Or.inl ⟨rfl, rfl⟩

theorem SetPaused_detection (ctx : MpvPlayerContext) (paused : Bool) :
    (SetPaused ctx paused).vrFormat = ctx.vrFormat ∧
    (SetPaused ctx paused).vrDetectionDone = ctx.vrDetectionDone ∧
    (SetPaused ctx paused).data = ctx.data ∧
    (SetPaused ctx paused).logicalPosition = ctx.logicalPosition := by
  unfold SetPaused
  split_ifs <;> exact ⟨rfl, rfl, rfl, rfl⟩

theorem SetPositionPercent_detection (ctx : MpvPlayerContext) (p : Flt) (pausesVideo : Bool) :
    (SetPositionPercent ctx p pausesVideo).vrFormat = ctx.vrFormat ∧
    (SetPositionPercent ctx p pausesVideo).vrDetectionDone = ctx.vrDetectionDone := by
  unfold SetPositionPercent SetPaused
  simp only
  split_ifs <;> exact ⟨rfl, rfl⟩

/-- One step of a player either leaves the cached format alone (and the flag too, unless
the step is `OpenVideo`, which clears it), or runs the detection: then the flag was clear,
is set afterwards, and the cached format is `DetectFormat` of the cached width, height and
path. -/
theorem stepAction_detection (ctx : MpvPlayerContext) (a : PlayerAction) :
    ((stepAction ctx a).1.vrFormat = ctx.vrFormat ∧
      (stepAction ctx a).1.vrDetectionDone = (ctx.vrDetectionDone && !isOpenVideo a)) ∨
    (ctx.vrDetectionDone = false ∧ (stepAction ctx a).1.vrDetectionDone = true ∧
      (stepAction ctx a).1.vrFormat =
        DetectFormat (toInt32 (stepAction ctx a).1.data.videoWidth)
          (toInt32 (stepAction ctx a).1.data.videoHeight)
          (stepAction ctx a).1.data.filePath) := by
  cases a with
  | renderTick i =>
    simp only [stepAction, isOpenVideo, Bool.not_false, Bool.and_true]
    rcases RenderFrameToTexture_detection ctx i.vrState i.frameData with h | h
    · exact Or.inl h
    · exact Or.inr ⟨h.1, h.2.1, h.2.2.2.2⟩
  | setTrackingActive b =>
    simp only [stepAction, isOpenVideo, Bool.not_false, Bool.and_true]
    exact Or.inl ⟨rfl, rfl⟩
  | processEvent e =>
    simp only [stepAction, isOpenVideo, Bool.not_false, Bool.and_true]
    exact ProcessEvent_detection ctx e
  | setPositionPercent p b =>
    simp only [stepAction, isOpenVideo, Bool.not_false, Bool.and_true]
    exact Or.inl (SetPositionPercent_detection ctx (Flt.fin p) b)
  | setPaused b =>
    simp only [stepAction, isOpenVideo, Bool.not_false, Bool.and_true]
    exact Or.inl ⟨(SetPaused_detection ctx b).1, (SetPaused_detection ctx b).2.1⟩
  | openVideo k path =>
    simp only [stepAction, isOpenVideo, Bool.not_true, Bool.and_false]
    obtain ⟨_, h2, h3, _⟩ := OpenVideo_effect k ctx path
    exact Or.inl ⟨h3, h2⟩

theorem stepAction_detected (ctx : MpvPlayerContext) (a : PlayerAction)
    (ha : isOpenVideo a = false) (h : ctx.vrDetectionDone = true) :
    (stepAction ctx a).1.vrFormat = ctx.vrFormat ∧
    (stepAction ctx a).1.vrDetectionDone = true := by
  rcases stepAction_detection ctx a with h1 | h1
  · refine ⟨h1.1, ?_⟩
    rw [h1.2, h, ha]
    rfl
  · rw [h] at h1
    exact absurd h1.1 (by decide)

theorem runActions_detected (actions : List PlayerAction) :
    ∀ ctx : MpvPlayerContext, (∀ a ∈ actions, isOpenVideo a = false) →
      ctx.vrDetectionDone = true →
      (runActions ctx actions).2.vrFormat = ctx.vrFormat ∧
      (runActions ctx actions).2.vrDetectionDone = true ∧
      detectionRuns ctx actions = 0 := by
  induction actions with
  | nil => intro ctx _ h; exact ⟨rfl, h, rfl⟩
  | cons a rest ih =>
    intro ctx hno h
    obtain ⟨s1, s2⟩ := stepAction_detected ctx a (hno a (List.mem_cons_self _ _)) h
    obtain ⟨r1, r2, r3⟩ := ih (stepAction ctx a).1
      (fun b hb => hno b (List.mem_cons_of_mem _ hb)) s2
    refine ⟨?_, ?_, ?_⟩
    · simp only [runActions]
      rw [r1, s1]
    · simp only [runActions]
      exact r2
    · simp only [detectionRuns, r3, h, Bool.not_true, Bool.false_and, Bool.false_eq_true,
        if_false]

theorem detectionRuns_le_one (actions : List PlayerAction) :
    ∀ ctx : MpvPlayerContext, (∀ a ∈ actions, isOpenVideo a = false) →
      detectionRuns ctx actions ≤ 1 := by
  induction actions with
  | nil => intro ctx _; exact Nat.zero_le _
  | cons a rest ih =>
    intro ctx hno
    have hrest : ∀ b ∈ rest, isOpenVideo b = false :=
      fun b hb => hno b (List.mem_cons_of_mem _ hb)
    simp only [detectionRuns]
    split_ifs with h
    · simp only [Bool.and_eq_true, Bool.not_eq_true'] at h
      rw [(runActions_detected rest (stepAction ctx a).1 hrest h.2).2.2]
    · have := ih (stepAction ctx a).1 hrest
      omega

theorem toInt32_of_int_range (x : Int) (h1 : -2 ^ 31 ≤ x) (h2 : x < 2 ^ 31) :
    toInt32 x = x := by
  unfold toInt32
  omega

/-- C21: the VR detection runs at most once per opened clip and its result is cached.
`OpenVideo` clears `vrDetectionDone`.  In a run of player steps (decoder events, render
ticks, seeks, pause and tracking calls) without a call of `OpenVideo`, the detection runs in
at most one step, and from a context with the flag set the run keeps the flag set and the
cached `vrFormat` unchanged.  In a step in which the detection runs, the value cached is
`DetectFormat` of the width, height and path cached at that moment (the `int64_t`
dimensions narrowed to the `int` parameters, which keeps every value in the `int` range). -/
theorem detection_cached_per_clip (k : PlayerConstants) (ctx : MpvPlayerContext)
    (path : String) (actions : List PlayerAction)
    (hno : ∀ a ∈ actions, isOpenVideo a = false) :
    (OpenVideo k ctx path).vrDetectionDone = false ∧
    (∀ c : MpvPlayerContext, detectionRuns c actions ≤ 1) ∧
    (∀ c : MpvPlayerContext, c.vrDetectionDone = true →
      (runActions c actions).2.vrFormat = c.vrFormat ∧
      (runActions c actions).2.vrDetectionDone = true) ∧
    (∀ (c : MpvPlayerContext) (a : PlayerAction), c.vrDetectionDone = false →
      (stepAction c a).1.vrDetectionDone = true →
      (stepAction c a).1.vrFormat =
        DetectFormat (toInt32 (stepAction c a).1.data.videoWidth)
          (toInt32 (stepAction c a).1.data.videoHeight)
          (stepAction c a).1.data.filePath) ∧
    (∀ x : Int, -2 ^ 31 ≤ x → x < 2 ^ 31 → toInt32 x = x) := by
  refine ⟨(OpenVideo_effect k ctx path).2.1, fun c => detectionRuns_le_one actions c hno,
    fun c hc => ?_, fun c a hc hs => ?_, toInt32_of_int_range⟩
  · obtain ⟨h1, h2, _⟩ := runActions_detected actions c hno hc
    exact ⟨h1, h2⟩
  · rcases stepAction_detection c a with h | h
    · rw [h.2, hc, Bool.false_and] at hs
      exact absurd hs (by decide)
    · exact h.2.2

/-- Witness for C21: after `OpenVideo` and the path and width reports (`openedContext`) the
flag is clear; the height report 1920 runs the detection, a later file-loaded event, a
second height report and a render tick do not run it again, and the cached format is the
one of a 3840x1920 clip. -/
theorem detection_cached_per_clip_witness :
    openedContext.vrDetectionDone = false ∧
    detectionRuns openedContext
      [PlayerAction.processEvent (propertyEvent (MpvProperty.MpvVideoHeight 1920)),
       PlayerAction.processEvent fileLoadedEvent,
       PlayerAction.processEvent (propertyEvent (MpvProperty.MpvVideoHeight 1080)),
       PlayerAction.renderTick { vrState := {}, frameData := some 100 }] ≤ 1 ∧
    (runActions openedContext
      [PlayerAction.processEvent (propertyEvent (MpvProperty.MpvVideoHeight 1920)),
       PlayerAction.processEvent fileLoadedEvent,
       PlayerAction.processEvent (propertyEvent (MpvProperty.MpvVideoHeight 1080)),
       PlayerAction.renderTick { vrState := {}, frameData := some 100 }]).2.vrFormat =
      DetectFormat 3840 1920 "clip_vr.mp4" :=
  ⟨by decide!,
   (detection_cached_per_clip sampleConstants {} "clip_vr.mp4"
      [PlayerAction.processEvent (propertyEvent (MpvProperty.MpvVideoHeight 1920)),
       PlayerAction.processEvent fileLoadedEvent,
       PlayerAction.processEvent (propertyEvent (MpvProperty.MpvVideoHeight 1080)),
       PlayerAction.renderTick { vrState := {}, frameData := some 100 }]
      (by simp [isOpenVideo])).2.1 openedContext,
   by decide!⟩

/-- C22, the code at the failing input: after `OpenVideo`, the path report and a width
report of 3840 (`openedContext`, flag clear), a height report of 0 runs the detection in the
`MpvVideoHeight` handler, which tests the width only: the flag is set with a cached height
of 0 and the cached format is `DetectFormat(3840, 0, path)`.  When the height 1920 arrives
afterwards the detection is not repeated, so the cached layout stays `None` although
`DetectFormat(3840, 1920, path)` is side by side.  In the same state the file-loaded handler
and the render tick, which test both dimensions, do not run the detection. -/
theorem height_report_zero_runs_detection :
    openedContext.vrDetectionDone = false ∧
    openedContext.data.videoWidth = 3840 ∧
    (ProcessEvent openedContext
      (propertyEvent (MpvProperty.MpvVideoHeight 0))).vrDetectionDone = true ∧
    (ProcessEvent openedContext
      (propertyEvent (MpvProperty.MpvVideoHeight 0))).data.videoHeight = 0 ∧
    (ProcessEvent openedContext
      (propertyEvent (MpvProperty.MpvVideoHeight 0))).vrFormat =
        DetectFormat 3840 0 "clip_vr.mp4" ∧
    (ProcessEvents openedContext
      [propertyEvent (MpvProperty.MpvVideoHeight 0),
       propertyEvent (MpvProperty.MpvVideoHeight 1920)]).vrFormat.layout = VRLayout.None ∧
    (DetectFormat 3840 1920 "clip_vr.mp4").layout = VRLayout.SideBySide ∧
    (ProcessEvent { openedContext with data := { openedContext.data with videoHeight := 0 } }
      fileLoadedEvent).vrDetectionDone = false ∧
    (RenderFrameToTexture
      { sampleContext with
        data := { sampleContext.data with videoHeight := 0 }, vrDetectionDone := false }
      {} (some 100)).1.vrDetectionDone = false := by
  decide!

/-- C23 as stated fails: the addition is not made once, at the transition into the paused
state.  The handler tests only the value of the event, so a pause-flag event with value
true that arrives while the cached flag is already set adds again: `playingContext` after
the pause event at tick 1000 is paused at 13421773 / 134217728 (the `float` nearest to
0.1), and a second pause event at tick 2000 moves it to 13421773 / 67108864. -/
theorem pause_event_effect_counterexample :
    ¬ (∀ (ctx : MpvPlayerContext) (e : MpvEventInput), ctx.data.paused = true →
        e.event =
          MpvEvent.MPV_EVENT_PROPERTY_CHANGE (some (MpvProperty.MpvPauseState true)) →
        (ProcessEvent ctx e).logicalPosition = ctx.logicalPosition) := by
  intro h
  have h1 := h (ProcessEvent playingContext pauseEvent) secondPauseEvent (by decide!) rfl
  revert h1
  decide!

/-- C23, amended: processing a pause-flag event with value true adds
`(now - smoothTimer) / 1000 * currentSpeed / duration` to `logicalPosition` on every such
event, also when the cached flag is already set.  The offset is computed as in the code:
the tick difference is converted to `float` and divided by 1000 in `float`, the product
with the speed and the quotient by the duration are taken in `double` and stored as
`float`, and the sum is a `float` sum (`now` is the clock reading taken for the difference,
which is the plain difference when the clock has not wrapped); for a finite position in
`[0, 2^100]`, a positive tick difference, a speed in `[2^(-20), 2^20]` and a duration in
`[2^(-20), 2^40]` the new position is a finite number within the relative error `2^(-21)`
of the exact sum.  With value false `logicalPosition` is unchanged.  In both cases
`smoothTimer` becomes the clock reading taken right after, the cached `paused` takes the
value of the event, nothing else in the cached data changes and one `PlayPauseChangeEvent`
with that value is appended to the notification queue. -/
theorem pause_event_effect (ctx : MpvPlayerContext) (e : MpvEventInput) (paused : Bool)
    (he : e.event =
      MpvEvent.MPV_EVENT_PROPERTY_CHANGE (some (MpvProperty.MpvPauseState paused))) :
    (paused = true → (ProcessEvent ctx e).logicalPosition =
      Flt.add32 ctx.logicalPosition
        (Flt.round32 (Flt.div64
          (Flt.mul64
            (Flt.div32 (Flt.round32 (Flt.fin (ticksSince e.now ctx.smoothTimer)))
              (Flt.fin 1000))
            (Flt.fin ctx.data.currentSpeed))
          (Flt.fin ctx.data.duration)))) ∧
    (paused = true → ∀ l : ℚ, ctx.logicalPosition = Flt.fin l → 0 ≤ l → l ≤ 2 ^ 100 →
      0 < ticksSince e.now ctx.smoothTimer →
      1 / 2 ^ 20 ≤ ctx.data.currentSpeed → ctx.data.currentSpeed ≤ 2 ^ 20 →
      1 / 2 ^ 20 ≤ ctx.data.duration → ctx.data.duration ≤ 2 ^ 40 →
      ∃ p : ℚ, (ProcessEvent ctx e).logicalPosition = Flt.fin p ∧
        |p - (l + (ticksSince e.now ctx.smoothTimer : ℚ) / 1000 * ctx.data.currentSpeed /
            ctx.data.duration)| ≤
          1 / 2 ^ 21 * (l + (ticksSince e.now ctx.smoothTimer : ℚ) / 1000 *
            ctx.data.currentSpeed / ctx.data.duration)) ∧
    (ctx.smoothTimer ≤ e.now → e.now < 2 ^ 64 →
      ticksSince e.now ctx.smoothTimer = e.now - ctx.smoothTimer) ∧
    (paused = false → (ProcessEvent ctx e).logicalPosition = ctx.logicalPosition) ∧
    (ProcessEvent ctx e).smoothTimer = e.now2 ∧
    (ProcessEvent ctx e).data = { ctx.data with paused := paused } ∧
    (ProcessEvent ctx e).events =
      ctx.events ++ [VideoplayerEvent.PlayPauseChangeEvent paused ctx.playerType] := by
  have h1 : paused = true → (ProcessEvent ctx e).logicalPosition =
      Flt.add32 ctx.logicalPosition
        (Flt.round32 (Flt.div64
          (Flt.mul64
            (Flt.div32 (Flt.round32 (Flt.fin (ticksSince e.now ctx.smoothTimer)))
              (Flt.fin 1000))
            (Flt.fin ctx.data.currentSpeed))
          (Flt.fin ctx.data.duration))) := by
    intro hp
    simp only [ProcessEvent, he, handleProperty, notifyPaused, hp, if_true, positionOffset_eq]
  refine ⟨h1, ?_, ticksSince_of_le _ _, ?_, ?_, ?_, ?_⟩
  · intro hp l hl hl0 hl1 hT hs0 hs1 hD0 hD1
    obtain ⟨p, e1, b1, b2, y0, _⟩ :=
      position_sum_error l _ _ _ hl0 hl1 hT (ticksSince_lt _ _) hs0 hs1 hD0 hD1
    refine ⟨p, by rw [h1 hp, hl]; exact e1, ?_⟩
    have ypos : 0 < l + (ticksSince e.now ctx.smoothTimer : ℚ) / 1000 *
        ctx.data.currentSpeed / ctx.data.duration := lt_of_lt_of_le (by norm_num) y0
    generalize l + (ticksSince e.now ctx.smoothTimer : ℚ) / 1000 *
        ctx.data.currentSpeed / ctx.data.duration = Y at b1 b2 ypos
    rw [abs_le]
    constructor <;> nlinarith [b1, b2, ypos]
  · intro hp
    simp only [ProcessEvent, he, handleProperty, notifyPaused, hp, Bool.false_eq_true,
      if_false]
  · simp only [ProcessEvent, he, handleProperty, notifyPaused]
  · simp only [ProcessEvent, he, handleProperty, notifyPaused]
    split_ifs <;> rfl
  · simp only [ProcessEvent, he, handleProperty, notifyPaused]
    split_ifs <;> rfl

/-- Witness for C23 (amended): a pause-flag event with value true handled at tick 1000 moves
the logical position of `playingContext` (10 s, speed 1, last update at tick 0) from 0 to
13421773 / 134217728, the `float` nearest to 0.1. -/
theorem pause_event_effect_witness :
    (ProcessEvent playingContext pauseEvent).logicalPosition =
      Flt.fin (13421773 / 134217728) := by
  rw [(pause_event_effect playingContext pauseEvent true rfl).1 rfl]
  decide!

/-- C27: `OpenVideo(path)` replaces the cached decoder data by a default-initialised cache
in which exactly `currentSpeed` and `paused` carry over (so duration 1, `percentPos` 0,
width and height 0, `videoLoaded` false, empty path, 30 frames per second), clears
`vrDetectionDone`, and leaves `logicalPosition`, `trackingActive` and `processingPBOIndex`
as they were. -/
theorem OpenVideo_resets_cache (k : PlayerConstants) (ctx : MpvPlayerContext)
    (path : String) :
    (OpenVideo k ctx path).data =
      { ({} : MpvDataCache) with
        currentSpeed := ctx.data.currentSpeed, paused := ctx.data.paused } ∧
    (OpenVideo k ctx path).data.duration = 1 ∧
    (OpenVideo k ctx path).data.percentPos = Flt.fin 0 ∧
    (OpenVideo k ctx path).data.videoWidth = 0 ∧
    (OpenVideo k ctx path).data.videoHeight = 0 ∧
    (OpenVideo k ctx path).data.videoLoaded = false ∧
    (OpenVideo k ctx path).data.filePath = "" ∧
    (OpenVideo k ctx path).data.fps = 30 ∧
    (OpenVideo k ctx path).data.currentSpeed = ctx.data.currentSpeed ∧
    (OpenVideo k ctx path).data.paused = ctx.data.paused ∧
    (OpenVideo k ctx path).vrDetectionDone = false ∧
    (OpenVideo k ctx path).logicalPosition = ctx.logicalPosition ∧
    (OpenVideo k ctx path).trackingActive = ctx.trackingActive ∧
    (OpenVideo k ctx path).processingPBOIndex = ctx.processingPBOIndex := by
  obtain ⟨h1, h2, _, h4, _⟩ := OpenVideo_effect k ctx path
  obtain ⟨f1, f2, _⟩ := OpenVideo_frame k ctx path
  refine ⟨h1, ?_, ?_, ?_, ?_, ?_, ?_, ?_, ?_, ?_, h2, h4, f1, f2⟩ <;> rw [h1]

/-- C28 as stated fails: `SetPositionExact` clamps to `(float)Duration()` and divides by the
`double` duration.  For the duration `3 * 2^(-151)` of `tinyDurationContext` the `float`
bound is `2^(-149)`, above the duration, and `SetPositionExact(1)` sets the position to
11184811 / 8388608 = 1.3333333730..., which is outside `[0, 1]`. -/
theorem exact_seek_position_counterexample :
    ¬ (∀ (ctx : MpvPlayerContext) (t : Flt) (pausesVideo : Bool), 0 < Duration ctx →
        ∃ r : ℚ, 0 ≤ r ∧ r ≤ 1 ∧
          (SetPositionExact ctx t pausesVideo).logicalPosition = Flt.fin r) := by
  intro h
  obtain ⟨r, _, h1, hr⟩ := h tinyDurationContext (Flt.fin 1) false (by decide!)
  have hv : (SetPositionExact tinyDurationContext (Flt.fin 1) false).logicalPosition =
      Flt.fin (11184811 / 8388608) := by decide!
  rw [hv] at hr
  rw [← Flt.fin.inj hr] at h1
  revert h1
  norm_num

/-- A NaN argument, a duration above the `float` range and a NaN position each leave a
position that is not a number between 0 and 1: `SetPositionExact(NaN)` on the 10 s
`sampleContext` sets a NaN, `SeekRelative(0)` on `hugeDurationContext` sets an infinity,
and `SeekRelative(1)` on `nanPositionContext` sets a NaN. -/
theorem exact_seek_position_limits :
    (SetPositionExact sampleContext Flt.nan false).logicalPosition = Flt.nan ∧
    (SeekRelative sampleConstants hugeDurationContext (Flt.fin 0) 1000).logicalPosition =
      Flt.inf false ∧
    (SeekRelative sampleConstants nanPositionContext (Flt.fin 1) 1000).logicalPosition =
      Flt.nan := by
  refine ⟨?_, ?_, ?_⟩ <;> decide!

/-- C28, amended: for a duration `D` in the normal `float` range
(`2^(-126) ≤ D < 2^128 - 2^103`), `SetPositionExact(t)` with `t` not a NaN sets
`logicalPosition` and the cached `percentPos` to the `float` value of
`clamp(t, 0, (float)D) / D`, a number in `[0, 1]`; for a finite `t` that is
`max(0, min(t, (float)D)) / D` rounded to `double` and then to `float`.  `SeekRelative(t)`
for a finite `t` and a finite `logicalPosition` is `SetPositionExact` of
`max(CurrentTime() + t, 0)`, the sum taken in `double`, and also leaves a position in
`[0, 1]`. -/
theorem exact_seek_position (k : PlayerConstants) (ctx : MpvPlayerContext)
    (hlo : (2:ℚ) ^ (-126:ℤ) ≤ Duration ctx) (hhi : Duration ctx < 2 ^ 128 - 2 ^ 103) :
    (∀ (t : Flt) (pausesVideo : Bool), t ≠ Flt.nan →
      ∃ r : ℚ, 0 ≤ r ∧ r ≤ 1 ∧
        Flt.round32 (Flt.div64 (Util.Clamp (Flt.round32 t) (Flt.fin 0)
          (Flt.round32 (Flt.fin (Duration ctx)))) (Flt.fin (Duration ctx))) = Flt.fin r ∧
        (SetPositionExact ctx t pausesVideo).logicalPosition = Flt.fin r ∧
        (SetPositionExact ctx t pausesVideo).data.percentPos = Flt.fin r) ∧
    (∀ (t : ℚ) (pausesVideo : Bool), |t| < 2 ^ 128 - 2 ^ 103 →
      (SetPositionExact ctx (Flt.fin t) pausesVideo).logicalPosition =
        Flt.fin (f32 (f64 (max 0 (min (f32 t) (f32 (Duration ctx))) / Duration ctx))) ∧
      (SetPositionExact ctx (Flt.fin t) pausesVideo).data.percentPos =
        Flt.fin (f32 (f64 (max 0 (min (f32 t) (f32 (Duration ctx))) / Duration ctx)))) ∧
    (∀ (t x : ℚ) (now : Nat), |t| < 2 ^ 128 - 2 ^ 103 → ctx.logicalPosition = Flt.fin x →
      SeekRelative k ctx (Flt.fin t) now =
        SetPositionExact ctx
          (Flt.stdMax (Flt.add64 (CurrentTime ctx now) (Flt.round32 (Flt.fin t)))
            (Flt.fin 0))
          k.pausesVideoDefault ∧
      ∃ r : ℚ, 0 ≤ r ∧ r ≤ 1 ∧
        (SeekRelative k ctx (Flt.fin t) now).logicalPosition = Flt.fin r ∧
        (SeekRelative k ctx (Flt.fin t) now).data.percentPos = Flt.fin r) := by
  have hD : 0 < Duration ctx := lt_of_lt_of_le (two_zpow_pos _) hlo
  refine ⟨fun t pausesVideo ht => SetPositionExact_position ctx t pausesVideo hlo hhi ht,
    ?_, ?_⟩
  · intro t pausesVideo ht
    obtain ⟨r, _, _, hr, h1, h2⟩ :=
      SetPositionExact_position ctx (Flt.fin t) pausesVideo hlo hhi (by simp)
    rw [h1, h2, relPos_value (Duration ctx) t r hD hhi ht hr]
    exact ⟨rfl, rfl⟩
  · intro t x now ht hl
    refine ⟨SeekRelative_eq k ctx (Flt.fin t) now, ?_⟩
    have hne : Flt.stdMax (Flt.add64 (CurrentTime ctx now) (Flt.round32 (Flt.fin t)))
        (Flt.fin 0) ≠ Flt.nan := by
      apply stdMax_ne_nan
      unfold Flt.add64
      apply round64_ne_nan
      rw [round32_fin t ht]
      exact add_ne_nan_fin _ _ (CurrentTime_ne_nan ctx now x hD.ne' hl)
    obtain ⟨r, r0, r1, _, h1, h2⟩ :=
      SetPositionExact_position ctx _ k.pausesVideoDefault hlo hhi hne
    exact ⟨r, r0, r1, by rw [SeekRelative_eq]; exact h1, by rw [SeekRelative_eq]; exact h2⟩

/-- Witness for C28 (amended): in the paused 10 s `sampleContext` (position 0),
`SetPositionExact(25)` moves the position to 1 and `SeekRelative(4)` to
13421773 / 33554432, the `float` nearest to 0.4. -/
theorem exact_seek_position_witness :
    (SetPositionExact sampleContext (Flt.fin 25) false).logicalPosition = Flt.fin 1 ∧
    (∃ r : ℚ, 0 ≤ r ∧ r ≤ 1 ∧
      (SeekRelative sampleConstants sampleContext (Flt.fin 4) 1000).logicalPosition =
        Flt.fin r ∧
      (SeekRelative sampleConstants sampleContext (Flt.fin 4) 1000).data.percentPos =
        Flt.fin r) ∧
    (SeekRelative sampleConstants sampleContext (Flt.fin 4) 1000).logicalPosition =
      Flt.fin (13421773 / 33554432) := by
  have h := exact_seek_position sampleConstants sampleContext (by decide!) (by decide!)
  refine ⟨?_, (h.2.2 4 0 1000 (by norm_num) rfl).2, by decide!⟩
  rw [(h.2.1 25 false (by norm_num)).1]
  decide!

/-! ## `vector_set` -/

/-- On a range split into a part on which `comp · a` holds, of length `p`, followed by a part
on which it fails, the binary search returns `p`. -/
theorem lowerBoundLoop_partitioned {T : Type} (comp : T → T → Bool) (v : List T) (a : T)
    (p : Nat)
    (hlow : ∀ i x, i < p → v[i]? = some x → comp x a = true)
    (hhigh : ∀ i x, p ≤ i → v[i]? = some x → comp x a = false) :
    ∀ fuel first len, len ≤ fuel → first ≤ p → p ≤ first + len → first + len ≤ v.length →
      lowerBoundLoop comp v a fuel first len = p := by
  intro fuel
  induction fuel with
  | zero =>
    intro first len h1 h2 h3 _
    simp only [lowerBoundLoop]
    omega
  | succ fuel ih =>
    intro first len h1 h2 h3 h4
    simp only [lowerBoundLoop]
    split_ifs with hlen
    · have hmid : first + len / 2 < v.length := by omega
      obtain ⟨m, hm⟩ : ∃ m, v[first + len / 2]? = some m :=
        ⟨v[first + len / 2], List.getElem?_eq_getElem hmid⟩
      simp only [hm]
      split_ifs with hc
      · have hlt : first + len / 2 < p := by
          by_contra hcon
          have := hhigh _ m (not_lt.1 hcon) hm
          rw [this] at hc
          exact absurd hc (by decide)
        exact ih _ _ (by omega) (by omega) (by omega) (by omega)
      · have hge : p ≤ first + len / 2 := by
          by_contra hcon
          exact hc (hlow _ m (not_le.1 hcon) hm)
        exact ih _ _ (by omega) h2 hge (by omega)
    · omega

theorem dropWhile_of_increasing {T : Type} (lt : T → T → Bool)
    (htrans : ∀ a b c, lt a b = true → lt b c = true → lt a c = true) (a : T) :
    ∀ v : List T, StrictlyIncreasing lt v →
      ∀ y ∈ v.dropWhile (fun e => lt e a), lt y a = false := by
  intro v
  induction v with
  | nil => intro _ y hy; simp at hy
  | cons z zs ih =>
    intro hv y hy
    unfold StrictlyIncreasing at hv
    rw [List.pairwise_cons] at hv
    by_cases hz : lt z a = true
    · rw [List.dropWhile_cons, if_pos hz] at hy
      exact ih hv.2 y hy
    · rw [List.dropWhile_cons, if_neg hz] at hy
      rcases List.mem_cons.1 hy with h | h
      · rw [h]
        exact Bool.eq_false_iff.2 hz
      · by_contra hcon
        exact hz (htrans z y a (hv.1 y h) (by simpa using hcon))

/-- A strictly increasing list splits at the lower bound of `a`: the elements less than `a`
come first, and the binary search returns their number. -/
theorem increasing_split {T : Type} (lt : T → T → Bool)
    (htrans : ∀ a b c, lt a b = true → lt b c = true → lt a c = true) (v : List T) (a : T)
    (hv : StrictlyIncreasing lt v) :
    ∃ tw dw, v = tw ++ dw ∧ (∀ y ∈ tw, lt y a = true) ∧ (∀ y ∈ dw, lt y a = false) ∧
      vector_set.lower_bound (DefaultComparison lt) v a = tw.length ∧
      v.countP (fun e => lt e a) = tw.length := by
  have hsplit := List.takeWhile_append_dropWhile (fun e => lt e a) v
  have htw : ∀ y ∈ v.takeWhile (fun e => lt e a), lt y a = true :=
    fun y hy => @List.mem_takeWhile_imp T (fun e => lt e a) v y hy
  have hdw := dropWhile_of_increasing lt htrans a v hv
  refine ⟨v.takeWhile (fun e => lt e a), v.dropWhile (fun e => lt e a), hsplit.symm, htw,
    hdw, ?_, ?_⟩
  · unfold vector_set.lower_bound
    have hlen : (v.takeWhile (fun e => lt e a)).length ≤ v.length := by
      conv_rhs => rw [← hsplit]
      rw [List.length_append]
      omega
    apply lowerBoundLoop_partitioned (DefaultComparison lt) v a _ _ _ v.length 0 v.length
      (le_refl _) (Nat.zero_le _) (by omega) (by omega)
    · intro i x hi hx
      rw [← hsplit, List.getElem?_append_left hi] at hx
      exact htw x (List.getElem?_mem hx)
    · intro i x hi hx
      rw [← hsplit, List.getElem?_append_right hi] at hx
      exact hdw x (List.getElem?_mem hx)
  · conv_lhs => rw [← hsplit]
    rw [List.countP_append, List.countP_eq_length.2 htw,
      List.countP_eq_zero.2 (fun y hy => by rw [hdw y hy]; decide)]
    rfl

theorem getElem?_length_append {T : Type} (tw dw : List T) :
    (tw ++ dw)[tw.length]? = dw.head? := by
  rw [List.getElem?_append_right (le_refl _), Nat.sub_self, List.head?_eq_getElem?]

/-- The three cases of `emplace` on a list split at the lower bound: appended at the end,
rejected because the element at the lower bound is equivalent, inserted before it. -/
theorem emplace_split {T : Type} (Comparison : T → T → Bool) (tw dw : List T) (x : T)
    (hlb : vector_set.lower_bound Comparison (tw ++ dw) x = tw.length) :
    vector_set.emplace Comparison (tw ++ dw) x =
      match dw with
      | [] => (true, tw ++ [x])
      | d :: ds =>
        if !Comparison d x && !Comparison x d then (false, tw ++ d :: ds)
        else (true, tw ++ x :: d :: ds) := by
  unfold vector_set.emplace
  simp only [hlb, getElem?_length_append, List.take_left' rfl, List.drop_left' rfl]
  cases dw with
  | nil => simp
  | cons d ds =>
    simp only [List.head?_cons, List.length_append, List.length_cons]
    have hne : tw.length ≠ tw.length + (ds.length + 1) := by omega
    simp only [hne, ne_eq, not_false_eq_true, if_true]
    cases h : (!Comparison d x && !Comparison x d) <;> simp

theorem intLess_strictWeakOrder : StrictWeakOrder intLess := by
  refine ⟨fun a => ?_, fun a b c h1 h2 => ?_, fun a b c h => ?_⟩
  · simp [intLess]
  · simp only [intLess, decide_eq_true_eq] at *
    omega
  · simp only [intLess, decide_eq_true_eq] at *
    omega

theorem intEq_equivalent (a b : Int) (h : intEq a b = true) : Equivalent intLess a b := by
  simp only [intEq, decide_eq_true_eq] at h
  subst h
  simp [Equivalent, intLess]

/-- C24: for a `vector_set` with the default comparison (a transitive `operator<`) whose
contents are strictly increasing, `emplace(x)` returns false and leaves the contents as they
are when an element equivalent to `x` is present; otherwise it returns true and inserts `x`
at its lower bound (the number of elements less than `x`), the contents are strictly
increasing again, the size grows by one and the elements are the old ones and `x`. -/
theorem emplace_increasing {T : Type} (lt : T → T → Bool)
    (htrans : ∀ a b c, lt a b = true → lt b c = true → lt a c = true)
    (v : List T) (x : T) (hv : StrictlyIncreasing lt v) :
    ((∃ e ∈ v, Equivalent lt e x) →
      vector_set.emplace (DefaultComparison lt) v x = (false, v)) ∧
    ((¬ ∃ e ∈ v, Equivalent lt e x) →
      (vector_set.emplace (DefaultComparison lt) v x).1 = true ∧
      (vector_set.emplace (DefaultComparison lt) v x).2 =
        v.take (vector_set.lower_bound (DefaultComparison lt) v x) ++
          x :: v.drop (vector_set.lower_bound (DefaultComparison lt) v x) ∧
      vector_set.lower_bound (DefaultComparison lt) v x = v.countP (fun e => lt e x) ∧
      StrictlyIncreasing lt (vector_set.emplace (DefaultComparison lt) v x).2 ∧
      (vector_set.emplace (DefaultComparison lt) v x).2.length = v.length + 1 ∧
      ∀ y, y ∈ (vector_set.emplace (DefaultComparison lt) v x).2 ↔ y = x ∨ y ∈ v) := by
  obtain ⟨tw, dw, hsplit, htw, hdw, hlb, hcount⟩ := increasing_split lt htrans v x hv
  subst hsplit
  have hem := emplace_split (DefaultComparison lt) tw dw x hlb
  unfold StrictlyIncreasing at hv
  rw [List.pairwise_append] at hv
  obtain ⟨hv1, hv2, hv3⟩ := hv
  cases dw with
  | nil =>
    simp only at hem
    refine ⟨?_, fun _ => ?_⟩
    · rintro ⟨e, he, heq⟩
      rw [List.append_nil] at he
      exact absurd ((htw e he).symm.trans heq.1) (by decide)
    · rw [hem, hlb, hcount]
      refine ⟨rfl, ?_, rfl, ?_, ?_, ?_⟩
      · simp
      · unfold StrictlyIncreasing
        rw [List.pairwise_append]
        refine ⟨hv1, List.pairwise_singleton _ _, fun a ha b hb => ?_⟩
        rw [List.mem_singleton.1 hb]
        exact htw a ha
      · simp
      · intro y
        simp only [List.mem_append, List.mem_singleton, List.append_nil]
        tauto
  | cons d ds =>
    have hd : lt d x = false := hdw d (List.mem_cons_self _ _)
    simp only [DefaultComparison, hd, Bool.not_false, Bool.true_and] at hem
    rw [List.pairwise_cons] at hv2
    cases hxd : lt x d with
    | false =>
      simp only [hxd, Bool.not_false, if_true] at hem
      refine ⟨fun _ => hem, fun hno => ?_⟩
      exact absurd ⟨d, List.mem_append_right _ (List.mem_cons_self _ _), hd, hxd⟩ hno
    | true =>
      simp only [hxd, Bool.not_true, Bool.false_eq_true, if_false] at hem
      have hxds : ∀ y ∈ d :: ds, lt x y = true := by
        intro y hy
        rcases List.mem_cons.1 hy with h | h
        · rw [h]; exact hxd
        · exact htrans x d y hxd (hv2.1 y h)
      refine ⟨?_, fun _ => ?_⟩
      · rintro ⟨e, he, heq⟩
        rcases List.mem_append.1 he with h | h
        · exact absurd ((htw e h).symm.trans heq.1) (by decide)
        · exact absurd ((hxds e h).symm.trans heq.2) (by decide)
      · rw [hem, hlb, hcount]
        refine ⟨rfl, ?_, rfl, ?_, ?_, ?_⟩
        · simp
        · unfold StrictlyIncreasing
          rw [List.pairwise_append, List.pairwise_cons, List.pairwise_cons]
          refine ⟨hv1, ⟨hxds, hv2⟩, fun a ha b hb => ?_⟩
          rcases List.mem_cons.1 hb with h | h
          · rw [h]; exact htw a ha
          · exact hv3 a ha b h
        · simp
          omega
        · intro y
          simp only [List.mem_append, List.mem_cons]
          tauto

/-- Witness for C24: on the contents 1, 3, 5, `emplace(3)` is rejected and `emplace(4)`
gives 1, 3, 4, 5. -/
theorem emplace_increasing_witness :
    vector_set.emplace (DefaultComparison intLess) [1, 3, 5] 3 = (false, [1, 3, 5]) ∧
    vector_set.emplace (DefaultComparison intLess) [1, 3, 5] 4 = (true, [1, 3, 4, 5]) :=
  ⟨(emplace_increasing intLess intLess_strictWeakOrder.trans [1, 3, 5] 3
      (by unfold StrictlyIncreasing; decide)).1 ⟨3, by decide, by decide, by decide⟩,
   by decide⟩

/-- C25: for a strictly increasing `vector_set` with the default comparison (`operator<` a
strict weak ordering, and elements equal by `operator==` equivalent under it), `find(a)`
returns the position of the element equal to `a` when there is one, and that position is
the number of elements less than `a`, which is also what `lower_bound_idx` returns twice;
when no element equals `a` it returns `end()`, the length. -/
theorem find_increasing {T : Type} (lt eq : T → T → Bool) (hlt : StrictWeakOrder lt)
    (heq : ∀ a b, eq a b = true → Equivalent lt a b)
    (v : List T) (a : T) (hv : StrictlyIncreasing lt v) :
    (∀ i e, v[i]? = some e → eq e a = true →
      vector_set.find (DefaultComparison lt) eq v a = i ∧
      i = v.countP (fun y => lt y a) ∧
      vector_set.lower_bound_idx (DefaultComparison lt) v a = (i, i)) ∧
    ((∀ e ∈ v, eq e a = false) →
      vector_set.find (DefaultComparison lt) eq v a = v.length) := by
  obtain ⟨tw, dw, hsplit, htw, hdw, hlb, hcount⟩ := increasing_split lt hlt.trans v a hv
  subst hsplit
  have hidx : vector_set.lower_bound_idx (DefaultComparison lt) (tw ++ dw) a =
      (tw.length, tw.length) := by
    have h := hlb
    unfold vector_set.lower_bound at h
    unfold vector_set.lower_bound_idx
    simp only [h, Nat.sub_zero]
  have hfind : vector_set.find (DefaultComparison lt) eq (tw ++ dw) a =
      match dw.head? with
      | some e => if tw.length ≠ (tw ++ dw).length ∧ eq e a = true then tw.length
        else (tw ++ dw).length
      | none => (tw ++ dw).length := by
    unfold vector_set.find
    simp only [hlb, getElem?_length_append]
  refine ⟨fun i e hi he => ?_, fun hno => ?_⟩
  · have hequiv := heq e a he
    unfold StrictlyIncreasing at hv
    rw [List.pairwise_append] at hv
    obtain ⟨_, hv2, _⟩ := hv
    have hi1 : ¬ i < tw.length := by
      intro hlt1
      rw [List.getElem?_append_left hlt1] at hi
      exact absurd ((htw e (List.getElem?_mem hi)).symm.trans hequiv.1) (by decide)
    rw [List.getElem?_append_right (not_lt.1 hi1)] at hi
    cases dw with
    | nil => simp at hi
    | cons d ds =>
      rw [List.pairwise_cons] at hv2
      have hi2 : i - tw.length = 0 := by
        by_contra hne
        obtain ⟨j, hj⟩ : ∃ j, i - tw.length = j + 1 := ⟨i - tw.length - 1, by omega⟩
        rw [hj, List.getElem?_cons_succ] at hi
        have hde := hv2.1 e (List.getElem?_mem hi)
        rcases hlt.incomp d e a hde with h | h
        · rw [hdw d (List.mem_cons_self _ _)] at h
          exact absurd h (by decide)
        · exact absurd (h.symm.trans hequiv.2) (by decide)
      rw [hi2, List.getElem?_cons_zero, Option.some.injEq] at hi
      have hieq : i = tw.length := by omega
      subst hi
      rw [hfind, hidx, hcount, hieq]
      simp only [List.head?_cons, List.length_append, List.length_cons, he, and_true]
      rw [if_pos (by omega)]
  · rw [hfind]
    cases hd : dw.head? with
    | none => rfl
    | some e =>
      have hmem : e ∈ tw ++ dw := by
        apply List.mem_append_right
        cases dw with
        | nil => simp at hd
        | cons d ds =>
          simp only [List.head?_cons, Option.some.injEq] at hd
          rw [← hd]
          exact List.mem_cons_self _ _
      simp only [hno e hmem, Bool.false_eq_true, and_false, if_false]

/-- Witness for C25: in the contents 1, 3, 5, `find(3)` is position 1 and `find(4)` is
`end()`, position 3. -/
theorem find_increasing_witness :
    vector_set.find (DefaultComparison intLess) intEq [1, 3, 5] 3 = 1 ∧
    vector_set.find (DefaultComparison intLess) intEq [1, 3, 5] 4 = 3 :=
  ⟨((find_increasing intLess intEq intLess_strictWeakOrder intEq_equivalent [1, 3, 5] 3
      (by unfold StrictlyIncreasing; decide)).1 1 3 rfl (by decide)).1,
   (find_increasing intLess intEq intLess_strictWeakOrder intEq_equivalent [1, 3, 5] 4
      (by unfold StrictlyIncreasing; decide)).2 (by decide)⟩

/-- C26, the code at the failing input: with a comparison that orders `int` downwards
(`a > b`), appending 3, 1, 2 with `emplace_back_unsorted` and calling `sort()` leaves the
contents 1, 2, 3, the order of `operator<`, which is not ordered according to the
comparison: `find(3)` then returns `end()` although 3 is present, and `emplace(3)` inserts a
second 3.  Built with `emplace`, which searches with the comparison, the same elements are
stored as 3, 2, 1 and `find(3)` returns position 0. -/
theorem sort_ignores_comparison :
    vector_set.sort intLess
      (vector_set.emplace_back_unsorted
        (vector_set.emplace_back_unsorted (vector_set.emplace_back_unsorted [] 3) 1) 2) =
      [1, 2, 3] ∧
    ¬ OrderedBy intGreater [1, 2, 3] ∧
    vector_set.find intGreater intEq [1, 2, 3] 3 = [1, 2, 3].length ∧
    vector_set.emplace intGreater [1, 2, 3] 3 = (true, [3, 1, 2, 3]) ∧
    (vector_set.emplace intGreater
      (vector_set.emplace intGreater (vector_set.emplace intGreater [] 3).2 1).2 2).2 =
      [3, 2, 1] ∧
    OrderedBy intGreater [3, 2, 1] ∧
    vector_set.find intGreater intEq [3, 2, 1] 3 = 0 := by
  refine ⟨by decide, ?_, by decide, by decide, by decide, ?_, by decide⟩
  · unfold OrderedBy
    decide
  · unfold OrderedBy
    decide

/-! ## The waveform pyramid -/

theorem Util_Max_eq (a b : ℚ) : Util.Max a b = max a b := by
  unfold Util.Max
  split_ifs with h
  · exact (max_eq_right h.le).symm
  · exact (max_eq_left (not_lt.1 h)).symm

theorem maxLoop_fuel (samples : List ℚ) (s : Int) (i : Nat) :
    ∀ f1 f2 j m, samples.length ≤ f1 + (i + j) → samples.length ≤ f2 + (i + j) →
      OFS_Waveform.maxLoop samples s i f1 j m = OFS_Waveform.maxLoop samples s i f2 j m := by
  intro f1
  induction f1 with
  | zero =>
    intro f2 j m h1 _
    cases f2 with
    | zero => rfl
    | succ f2 =>
      simp only [OFS_Waveform.maxLoop]
      rw [if_neg (by omega)]
  | succ f1 ih =>
    intro f2 j m h1 h2
    cases f2 with
    | zero =>
      simp only [OFS_Waveform.maxLoop]
      rw [if_neg (by omega)]
    | succ f2 =>
      simp only [OFS_Waveform.maxLoop]
      split_ifs with hc
      · exact ih f2 (j + 1) _ (by omega) (by omega)
      · rfl

theorem maxLoop_spec (samples : List ℚ) (s : Int) (i : Nat) :
    ∀ fuel j m, samples.length ≤ fuel + (i + j) →
      m ≤ OFS_Waveform.maxLoop samples s i fuel j m ∧
      (∀ t, j ≤ t → (t : Int) < s → i + t < samples.length →
        |samples.getD (i + t) 0| ≤ OFS_Waveform.maxLoop samples s i fuel j m) ∧
      (OFS_Waveform.maxLoop samples s i fuel j m = m ∨
        ∃ t, j ≤ t ∧ (t : Int) < s ∧ i + t < samples.length ∧
          OFS_Waveform.maxLoop samples s i fuel j m = |samples.getD (i + t) 0|) := by
  intro fuel
  induction fuel with
  | zero =>
    intro j m h
    simp only [OFS_Waveform.maxLoop]
    exact ⟨le_refl _, fun t h1 _ h3 => by omega, Or.inl trivial⟩
  | succ fuel ih =>
    intro j m h
    simp only [OFS_Waveform.maxLoop]
    split_ifs with hc
    · obtain ⟨h1, h2, h3⟩ := ih (j + 1) (Util.Max m |samples.getD (i + j) 0|) (by omega)
      rw [Util_Max_eq] at h1 h2 h3 ⊢
      refine ⟨le_trans (le_max_left _ _) h1, fun t ht1 ht2 ht3 => ?_, ?_⟩
      · rcases Nat.eq_or_lt_of_le ht1 with h | h
        · rw [← h]
          exact le_trans (le_max_right _ _) h1
        · exact h2 t h ht2 ht3
      · rcases h3 with h | ⟨t, ht1, ht2, ht3, ht4⟩
        · rcases max_choice m |samples.getD (i + j) 0| with hm | hm
          · left
            rw [h, hm]
          · right
            exact ⟨j, le_refl _, hc.1, hc.2, by rw [h, hm]⟩
        · right
          exact ⟨t, by omega, ht2, ht3, ht4⟩
    · refine ⟨le_refl _, fun t ht1 ht2 ht3 => ?_, Or.inl rfl⟩
      exfalso
      apply hc
      exact ⟨by omega, by omega⟩

/-- The entry computed for the chunk that starts at `i`: it bounds the magnitudes of the
chunk and is one of them. -/
theorem maxLoop_chunk (samples : List ℚ) (s i fuel : Nat) (hs : 1 ≤ s)
    (hi : i < samples.length) (hf : samples.length ≤ fuel) :
    (∀ j, i ≤ j → j < min (i + s) samples.length →
      |samples.getD j 0| ≤ OFS_Waveform.maxLoop samples (s : Int) i fuel 0 0) ∧
    (∃ j, i ≤ j ∧ j < min (i + s) samples.length ∧
      OFS_Waveform.maxLoop samples (s : Int) i fuel 0 0 = |samples.getD j 0|) := by
  obtain ⟨h1, h2, h3⟩ := maxLoop_spec samples (s : Int) i fuel 0 0 (by omega)
  have hbound : ∀ j, i ≤ j → j < min (i + s) samples.length →
      |samples.getD j 0| ≤ OFS_Waveform.maxLoop samples (s : Int) i fuel 0 0 := by
    intro j hj1 hj2
    have hj3 := lt_min_iff.1 hj2
    have := h2 (j - i) (Nat.zero_le _) (by omega) (by omega)
    rwa [Nat.add_sub_cancel' hj1] at this
  refine ⟨hbound, ?_⟩
  rcases h3 with h | ⟨t, _, ht2, ht3, ht4⟩
  · refine ⟨i, le_refl _, lt_min_iff.2 ⟨by omega, hi⟩, ?_⟩
    have hle := hbound i (le_refl _) (lt_min_iff.2 ⟨by omega, hi⟩)
    rw [h] at hle ⊢
    exact le_antisymm (abs_nonneg _) hle
  · exact ⟨i + t, by omega, lt_min_iff.2 ⟨by omega, ht3⟩, ht4⟩

theorem levelLoop_eq (samples : List ℚ) (s fuel : Nat) (hs : 1 ≤ s) :
    ∀ steps i acc, samples.length ≤ steps + i →
      OFS_Waveform.levelLoop samples (s : Int) fuel steps i acc =
        acc ++ (List.range ((samples.length - i + s - 1) / s)).map
          (fun c => OFS_Waveform.maxLoop samples (s : Int) (i + c * s) fuel 0 0) := by
  intro steps
  induction steps with
  | zero =>
    intro i acc h
    simp only [OFS_Waveform.levelLoop]
    have h0 : (samples.length - i + s - 1) / s = 0 := by
      apply Nat.div_eq_of_lt
      omega
    rw [h0]
    simp
  | succ steps ih =>
    intro i acc h
    simp only [OFS_Waveform.levelLoop, Int.toNat_ofNat]
    split_ifs with hc
    · rw [ih (i + s) _ (by omega)]
      have hk : (samples.length - i + s - 1) / s =
          (samples.length - (i + s) + s - 1) / s + 1 := by
        by_cases hle : i + s ≤ samples.length
        · have : samples.length - i + s - 1 = (samples.length - (i + s) + s - 1) + s := by
            omega
          rw [this, Nat.add_div_right _ (by omega)]
        · have h1 : samples.length - (i + s) + s - 1 = s - 1 := by omega
          have h2 : samples.length - i + s - 1 = (samples.length - i - 1) + s := by omega
          rw [h1, h2, Nat.add_div_right _ (by omega), Nat.div_eq_of_lt (by omega),
            Nat.div_eq_of_lt (by omega)]
      rw [hk, List.range_succ_eq_map, List.map_cons, List.map_map, List.append_assoc]
      simp only [Nat.zero_mul, Nat.add_zero, List.singleton_append, List.cons.injEq,
        true_and, List.append_cancel_left_eq]
      apply List.map_congr_left
      intro c _
      simp only [Function.comp, Nat.succ_eq_add_one]
      congr 1
      ring
    · have h0 : (samples.length - i + s - 1) / s = 0 := by
        apply Nat.div_eq_of_lt
        omega
      rw [h0]
      simp

theorem lodStep_cast (k : Nat) : lodStep k = ((10 ^ k : Nat) : Int) := by
  unfold lodStep
  push_cast
  rfl

theorem lodStep_mono {j k : Nat} (h : j ≤ k) : lodStep j ≤ lodStep k := by
  unfold lodStep
  exact pow_le_pow_right₀ (by norm_num) h

theorem lodStep_strictMono {j k : Nat} (h : j < k) : lodStep j < lodStep k := by
  unfold lodStep
  exact pow_lt_pow_right₀ (by norm_num) h

theorem lodStep_succ (k : Nat) (hk : k < 8) : toInt32 (lodStep k * 10) = lodStep (k + 1) := by
  have h1 : lodStep k * 10 = lodStep (k + 1) := by
    unfold lodStep
    ring
  have h2 : lodStep (k + 1) ≤ lodStep 8 := lodStep_mono (by omega)
  have h3 : (0 : Int) < lodStep (k + 1) := by
    unfold lodStep
    positivity
  have h4 : lodStep 8 = 100000000 := by
    unfold lodStep
    norm_num
  rw [h1]
  unfold toInt32
  omega

theorem quotient_bound (n : Nat) : Int.tdiv (toInt32 n) 100 < lodStep 8 := by
  have h4 : lodStep 8 = 100000000 := by
    unfold lodStep
    norm_num
  have h1 : toInt32 n < 2 ^ 31 := by
    unfold toInt32
    omega
  rw [h4]
  by_cases h : 0 ≤ toInt32 (n : Int)
  · rw [Int.tdiv_eq_ediv h (by norm_num)]
    omega
  · obtain ⟨m, hm⟩ : ∃ m, toInt32 (n : Int) = -m := ⟨-toInt32 (n : Int), by omega⟩
    rw [hm, Int.neg_tdiv]
    have : 0 ≤ Int.tdiv m 100 := Int.tdiv_nonneg (by omega) (by norm_num)
    omega

/-- The closed form of the `while` loop entered at step `10^k`: it appends the levels of the
steps `10^k`, ..., `10^(k+L-1)`, where `L` counts the powers of ten from `10^k` on that do
not exceed the quotient the loop compares with. -/
theorem pyramidLoop_eq (samples : List ℚ) (fuel : Nat) :
    ∀ rounds k acc, k ≤ 8 → 9 ≤ rounds + k →
      ∃ L, k + L ≤ 8 ∧
        OFS_Waveform.pyramidLoop samples fuel rounds (lodStep k) acc =
          acc ++ (List.range' k L).map (fun j =>
            ({ maxValues := OFS_Waveform.levelLoop samples (lodStep j) fuel fuel 0 []
               samplesPerPixel := lodStep j } : WaveformLODLevel)) ∧
        ∀ j, k ≤ j → (j < k + L ↔ lodStep j ≤ Int.tdiv (toInt32 samples.length) 100) := by
  intro rounds
  induction rounds with
  | zero => intro k acc h1 h2; omega
  | succ rounds ih =>
    intro k acc h1 h2
    simp only [OFS_Waveform.pyramidLoop]
    split_ifs with hc
    · have hk : k < 8 := by
        by_contra hcon
        have hk8 : k = 8 := by omega
        rw [hk8] at hc
        have := quotient_bound samples.length
        omega
      obtain ⟨L, hL1, hL2, hL3⟩ := ih (k + 1)
        (acc ++ [{ maxValues := OFS_Waveform.levelLoop samples (lodStep k) fuel fuel 0 []
                   samplesPerPixel := lodStep k }]) (by omega) (by omega)
      refine ⟨L + 1, by omega, ?_, fun j hj => ?_⟩
      · rw [lodStep_succ k hk, hL2, List.range'_succ, List.map_cons, List.append_assoc]
        rfl
      · rcases Nat.eq_or_lt_of_le hj with h | h
        · rw [← h]
          exact ⟨fun _ => hc, fun _ => by omega⟩
        · rw [← hL3 j h]
          omega
    · refine ⟨0, by omega, by simp, fun j hj => ?_⟩
      constructor
      · intro h; omega
      · intro h
        exact absurd (le_trans (lodStep_mono hj) h) hc

theorem pyramidLoop_exit (samples : List ℚ) (fuel rounds : Nat) (s : Int)
    (acc : List WaveformLODLevel) (h : ¬ s ≤ Int.tdiv (toInt32 samples.length) 100) :
    OFS_Waveform.pyramidLoop samples fuel rounds s acc = acc := by
  cases rounds with
  | zero => rfl
  | succ rounds =>
    simp only [OFS_Waveform.pyramidLoop]
    rw [if_neg h]

theorem BuildLODPyramid_of_ne_nil (samples : List ℚ) (h : samples ≠ []) :
    OFS_Waveform.BuildLODPyramid samples =
      OFS_Waveform.pyramidLoop samples (samples.length + 10) (samples.length + 10) 1 [] := by
  unfold OFS_Waveform.BuildLODPyramid
  cases samples with
  | nil => exact absurd rfl h
  | cons x xs => simp only [List.isEmpty_cons, Bool.false_eq_true, if_false]

/-- The pyramid in closed form, for every sample list and every iteration bound from the
number of samples plus ten on: the levels of the steps `10^0`, ..., `10^(L-1)`, each the
list of the chunk maxima. -/
theorem pyramid_closed_form (samples : List ℚ) :
    ∃ L, L ≤ 8 ∧
      (∀ fuel, samples.length + 10 ≤ fuel →
        OFS_Waveform.pyramidLoop samples fuel fuel 1 [] =
          (List.range L).map (fun j =>
            ({ maxValues := (List.range ((samples.length + 10 ^ j - 1) / 10 ^ j)).map
                 (fun c => OFS_Waveform.maxLoop samples (lodStep j) (c * 10 ^ j)
                   (samples.length + 10) 0 0)
               samplesPerPixel := lodStep j } : WaveformLODLevel))) ∧
      ∀ j, j < L ↔ lodStep j ≤ Int.tdiv (toInt32 samples.length) 100 := by
  obtain ⟨L, hL1, _, hL3⟩ := pyramidLoop_eq samples (samples.length + 10)
    (samples.length + 10) 0 [] (by omega) (by omega)
  refine ⟨L, by omega, fun fuel hf => ?_, fun j => ?_⟩
  · obtain ⟨L2, _, hM2, hM3⟩ := pyramidLoop_eq samples fuel fuel 0 [] (by omega) (by omega)
    have hLL : L2 = L := by
      have a1 := hL3 L (Nat.zero_le _)
      have a2 := hM3 L (Nat.zero_le _)
      have a3 := hL3 L2 (Nat.zero_le _)
      have a4 := hM3 L2 (Nat.zero_le _)
      by_contra hne2
      rcases Nat.lt_or_gt_of_ne hne2 with h | h
      · have := a4.2 (a3.1 (by omega))
        omega
      · have := a1.2 (a2.1 (by omega))
        omega
    have h1 : lodStep 0 = 1 := by unfold lodStep; norm_num
    rw [h1] at hM2
    rw [hM2, hLL, List.nil_append, List.range_eq_range']
    apply List.map_congr_left
    intro j _
    have hs : 1 ≤ 10 ^ j := Nat.one_le_pow _ _ (by norm_num)
    rw [lodStep_cast, levelLoop_eq samples (10 ^ j) fuel hs fuel 0 [] (by omega)]
    simp only [List.nil_append, Nat.sub_zero, Nat.zero_add, WaveformLODLevel.mk.injEq,
      and_true]
    apply List.map_congr_left
    intro c _
    exact maxLoop_fuel samples _ _ fuel (samples.length + 10) 0 0 (by omega) (by omega)
  · have := hL3 j (Nat.zero_le _)
    rw [Nat.zero_add] at this
    exact this

theorem BuildLODPyramid_eq_loop (samples : List ℚ) :
    OFS_Waveform.BuildLODPyramid samples =
      OFS_Waveform.pyramidLoop samples (samples.length + 10) (samples.length + 10) 1 [] := by
  cases samples with
  | nil =>
    rw [pyramidLoop_exit _ _ _ _ _ (by decide)]
    rfl
  | cons x xs => exact BuildLODPyramid_of_ne_nil _ (List.cons_ne_nil _ _)

theorem quotient_of_int_range (n : Nat) (h : n < 2 ^ 31) :
    Int.tdiv (toInt32 n) 100 = ((n / 100 : Nat) : Int) := by
  have h1 : toInt32 (n : Int) = n := by
    unfold toInt32
    omega
  rw [h1, Int.tdiv_eq_ediv (by omega) (by norm_num), Int.natCast_div]
  rfl

theorem ceil_quotient (n s : Nat) (hs : 1 ≤ s) :
    n ≤ (n + s - 1) / s * s ∧ (n + s - 1) / s * s < n + s := by
  have h1 := Nat.div_add_mod (n + s - 1) s
  have h2 := Nat.mod_lt (n + s - 1) (by omega : s > 0)
  rw [Nat.mul_comm] at h1
  constructor <;> omega

/-- C29 as stated fails: for a list of `2^31` samples the size narrowed to `int` is
negative, the loop condition fails at once and the pyramid has no level, although
`floor(n / 100)` is 21474836. -/
theorem BuildLODPyramid_levels_counterexample :
    ¬ (∀ samples : List ℚ, ∃ L : Nat,
        (OFS_Waveform.BuildLODPyramid samples).map (fun l => l.samplesPerPixel) =
          (List.range L).map lodStep ∧
        ∀ k : Nat, k < L ↔ lodStep k ≤ ((samples.length / 100 : Nat) : Int)) := by
  intro h
  obtain ⟨L, h1, h2⟩ := h (List.replicate (2 ^ 31) 0)
  have hlen : (List.replicate (2 ^ 31) (0 : ℚ)).length = 2 ^ 31 := List.length_replicate _ _
  have hq : ¬ (1 : Int) ≤
      Int.tdiv (toInt32 ((List.replicate (2 ^ 31) (0 : ℚ)).length : Nat)) 100 := by
    rw [hlen]
    decide
  rw [BuildLODPyramid_eq_loop, pyramidLoop_exit _ _ _ _ _ hq] at h1
  have hL : L = 0 := by
    have := congrArg List.length h1
    simp only [List.map_nil, List.length_nil, List.length_map, List.length_range] at this
    exact this.symm
  have h3 := (h2 0).2 (by rw [hlen]; decide)
  omega

/-- C29, amended: building always terminates: from an iteration bound of the number of
samples plus ten on, the loops give the same pyramid whatever the bound.  For a sample list
of size `n < 2^31` the pyramid has one level for each power of ten `s = 10^k` with
`s <= floor(n / 100)`, in increasing order of `k` (none when `n < 100`); in the level of
step `s`, `maxValues` has `ceil(n / s)` entries (the least `len` with `n <= len * s`), and
its `i`-th entry is the maximum of `|samples[j]|` over `i * s <= j < min((i + 1) * s, n)`:
it bounds these magnitudes and is one of them. -/
theorem BuildLODPyramid_levels (samples : List ℚ) :
    (∀ fuel, samples.length + 10 ≤ fuel →
      (if samples.isEmpty then [] else OFS_Waveform.pyramidLoop samples fuel fuel 1 []) =
        OFS_Waveform.BuildLODPyramid samples) ∧
    (samples.length < 2 ^ 31 →
      ∃ L : Nat,
        (OFS_Waveform.BuildLODPyramid samples).length = L ∧
        (∀ k : Nat, k < L ↔ lodStep k ≤ ((samples.length / 100 : Nat) : Int)) ∧
        (samples.length < 100 → OFS_Waveform.BuildLODPyramid samples = []) ∧
        ∀ k, k < L →
          ∃ level, (OFS_Waveform.BuildLODPyramid samples)[k]? = some level ∧
            level.samplesPerPixel = lodStep k ∧
            level.maxValues.length = (samples.length + 10 ^ k - 1) / 10 ^ k ∧
            samples.length ≤ level.maxValues.length * 10 ^ k ∧
            level.maxValues.length * 10 ^ k < samples.length + 10 ^ k ∧
            ∀ i, i < level.maxValues.length →
              ∃ entry, level.maxValues[i]? = some entry ∧
                (∀ j, i * 10 ^ k ≤ j → j < min ((i + 1) * 10 ^ k) samples.length →
                  |samples.getD j 0| ≤ entry) ∧
                ∃ j, i * 10 ^ k ≤ j ∧ j < min ((i + 1) * 10 ^ k) samples.length ∧
                  entry = |samples.getD j 0|) := by
  obtain ⟨L, _, hform, hiff⟩ := pyramid_closed_form samples
  have hbuild := BuildLODPyramid_eq_loop samples
  rw [hform _ (le_refl _)] at hbuild
  refine ⟨fun fuel hf => ?_, fun hn => ?_⟩
  · rw [hbuild]
    cases samples with
    | nil =>
      simp only [List.isEmpty_nil, if_true]
      have h0 : L = 0 := by
        by_contra hne
        have := (hiff 0).1 (by omega)
        revert this
        decide
      rw [h0]
      rfl
    | cons x xs =>
      simp only [List.isEmpty_cons, Bool.false_eq_true, if_false]
      exact hform fuel hf
  · rw [quotient_of_int_range _ hn] at hiff
    refine ⟨L, ?_, hiff, fun h100 => ?_, fun k hk => ?_⟩
    · rw [hbuild, List.length_map, List.length_range]
    · have h0 : L = 0 := by
        by_contra hne
        have h1 := (hiff 0).1 (by omega)
        have h2 : samples.length / 100 = 0 := Nat.div_eq_of_lt h100
        rw [h2] at h1
        revert h1
        decide
      rw [hbuild, h0]
      rfl
    · have hs : 1 ≤ 10 ^ k := Nat.one_le_pow _ _ (by norm_num)
      obtain ⟨c1, c2⟩ := ceil_quotient samples.length (10 ^ k) hs
      refine ⟨{ maxValues := (List.range ((samples.length + 10 ^ k - 1) / 10 ^ k)).map
                  (fun c => OFS_Waveform.maxLoop samples (lodStep k) (c * 10 ^ k)
                    (samples.length + 10) 0 0)
                samplesPerPixel := lodStep k }, ?_, rfl, ?_, ?_, ?_, ?_⟩
      · rw [hbuild, List.getElem?_map, List.getElem?_range hk]
        rfl
      · simp only [List.length_map, List.length_range]
      · simp only [List.length_map, List.length_range]
        exact c1
      · simp only [List.length_map, List.length_range]
        exact c2
      · intro i hi
        simp only [List.length_map, List.length_range] at hi
        have hlt : i * 10 ^ k < samples.length := by
          have := Nat.mul_le_mul_right (10 ^ k) (Nat.succ_le_of_lt hi)
          rw [Nat.succ_mul] at this
          omega
        obtain ⟨m1, m2⟩ := maxLoop_chunk samples (10 ^ k) (i * 10 ^ k)
          (samples.length + 10) hs hlt (by omega)
        rw [← lodStep_cast, ← Nat.succ_mul] at m1 m2
        refine ⟨_, ?_, m1, ?_⟩
        · simp only [List.getElem?_map, List.getElem?_range hi, Option.map_some']
        · obtain ⟨j, j1, j2, j3⟩ := m2
          exact ⟨j, j1, j2, j3⟩

/-- Witness for C29 (amended): 100 samples of value 1 give the single level of step 1 with
100 entries of value 1. -/
theorem BuildLODPyramid_levels_witness :
    OFS_Waveform.BuildLODPyramid (List.replicate 100 1) =
      [{ maxValues := List.replicate 100 1, samplesPerPixel := 1 }] ∧
    ∃ L : Nat, (OFS_Waveform.BuildLODPyramid (List.replicate 100 1)).length = L ∧
      ∀ k : Nat, k < L ↔ lodStep k ≤ (((List.replicate 100 (1 : ℚ)).length / 100 : Nat) : Int) := by
  refine ⟨by decide!, ?_⟩
  obtain ⟨L, h1, h2, _⟩ :=
    (BuildLODPyramid_levels (List.replicate 100 1)).2 (by rw [List.length_replicate]; decide)
  exact ⟨L, h1, h2⟩

theorem bestLoop_spec (k : Int) :
    ∀ (levels : List WaveformLODLevel) (best : WaveformLODLevel),
      levels.Pairwise (fun a b => a.samplesPerPixel < b.samplesPerPixel) →
      (OFS_Waveform.bestLoop k levels best = best ∧
        ∀ l ∈ levels, k < l.samplesPerPixel) ∨
      (OFS_Waveform.bestLoop k levels best ∈ levels ∧
        (OFS_Waveform.bestLoop k levels best).samplesPerPixel ≤ k ∧
        ∀ l ∈ levels, l.samplesPerPixel ≤ k →
          l.samplesPerPixel ≤ (OFS_Waveform.bestLoop k levels best).samplesPerPixel) := by
  intro levels
  induction levels with
  | nil =>
    intro best _
    exact Or.inl ⟨rfl, fun l hl => by simp at hl⟩
  | cons level rest ih =>
    intro best hp
    rw [List.pairwise_cons] at hp
    simp only [OFS_Waveform.bestLoop]
    split_ifs with hc
    · right
      rcases ih level hp.2 with ⟨h1, h2⟩ | ⟨h1, h2, h3⟩
      · rw [h1]
        refine ⟨List.mem_cons_self _ _, hc, fun l hl hle => ?_⟩
        rcases List.mem_cons.1 hl with h | h
        · rw [h]
        · have := h2 l h
          omega
      · refine ⟨List.mem_cons_of_mem _ h1, h2, fun l hl hle => ?_⟩
        rcases List.mem_cons.1 hl with h | h
        · rw [h]
          exact (hp.1 _ h1).le
        · exact h3 l h hle
    · left
      refine ⟨rfl, fun l hl => ?_⟩
      rcases List.mem_cons.1 hl with h | h
      · rw [h]
        omega
      · have := hp.1 l h
        omega

/-- C30: `GetLODForSamplesPerPixel(k)` returns null exactly when there are no levels.  On a
non-empty pyramid built by `BuildLODPyramid` it returns one of the levels: for `k >= 1` the
one with the greatest `samplesPerPixel` not above `k`, and for `k < 1` the first and finest
level, whose `samplesPerPixel` is 1. -/
theorem GetLODForSamplesPerPixel_spec (lodLevels : List WaveformLODLevel)
    (samples : List ℚ) (k : Int) :
    (OFS_Waveform.GetLODForSamplesPerPixel lodLevels k = none ↔ lodLevels = []) ∧
    (OFS_Waveform.BuildLODPyramid samples ≠ [] →
      ∃ level,
        OFS_Waveform.GetLODForSamplesPerPixel (OFS_Waveform.BuildLODPyramid samples) k =
          some level ∧
        level ∈ OFS_Waveform.BuildLODPyramid samples ∧
        (1 ≤ k → level.samplesPerPixel ≤ k ∧
          ∀ l ∈ OFS_Waveform.BuildLODPyramid samples, l.samplesPerPixel ≤ k →
            l.samplesPerPixel ≤ level.samplesPerPixel) ∧
        (k < 1 → level.samplesPerPixel = 1 ∧
          (OFS_Waveform.BuildLODPyramid samples).head? = some level ∧
          ∀ l ∈ OFS_Waveform.BuildLODPyramid samples,
            level.samplesPerPixel ≤ l.samplesPerPixel)) := by
  refine ⟨?_, fun hne => ?_⟩
  · cases lodLevels with
    | nil => exact ⟨fun _ => rfl, fun _ => rfl⟩
    | cons first rest =>
      unfold OFS_Waveform.GetLODForSamplesPerPixel
      exact ⟨fun h => Option.noConfusion h, fun h => List.noConfusion h⟩
  · obtain ⟨L, _, hform, _⟩ := pyramid_closed_form samples
    have hbuild := BuildLODPyramid_eq_loop samples
    rw [hform _ (le_refl _)] at hbuild
    have hpair : (OFS_Waveform.BuildLODPyramid samples).Pairwise
        (fun a b => a.samplesPerPixel < b.samplesPerPixel) := by
      rw [hbuild, List.pairwise_map]
      exact (List.pairwise_lt_range L).imp (fun h => lodStep_strictMono h)
    have hge : ∀ l ∈ OFS_Waveform.BuildLODPyramid samples, 1 ≤ l.samplesPerPixel := by
      intro l hl
      rw [hbuild, List.mem_map] at hl
      obtain ⟨j, _, hj⟩ := hl
      rw [← hj]
      exact lodStep_mono (Nat.zero_le j)
    have hhead : ∀ first rest, OFS_Waveform.BuildLODPyramid samples = first :: rest →
        first.samplesPerPixel = 1 := by
      intro first rest h
      rw [hbuild] at h
      cases L with
      | zero => simp at h
      | succ L =>
        rw [List.range_succ_eq_map, List.map_cons, List.cons.injEq] at h
        rw [← h.1]
        rfl
    cases hb : OFS_Waveform.BuildLODPyramid samples with
    | nil => exact absurd hb hne
    | cons first rest =>
      rw [hb] at hpair hge
      have h1 := hhead first rest hb
      simp only [OFS_Waveform.GetLODForSamplesPerPixel]
      refine ⟨_, rfl, ?_, ?_, ?_⟩
      · rcases bestLoop_spec k (first :: rest) first hpair with ⟨h, _⟩ | ⟨h, _⟩
        · rw [h]
          exact List.mem_cons_self _ _
        · exact h
      · intro hk
        rcases bestLoop_spec k (first :: rest) first hpair with ⟨_, h⟩ | ⟨_, h2, h3⟩
        · have := h first (List.mem_cons_self _ _)
          omega
        · exact ⟨h2, h3⟩
      · intro hk
        rcases bestLoop_spec k (first :: rest) first hpair with ⟨h, _⟩ | ⟨h, h2, _⟩
        · rw [h]
          refine ⟨h1, rfl, fun l hl => ?_⟩
          rw [h1]
          exact hge l hl
        · have := hge _ h
          omega

/-- Witness for C30: on the pyramid of 100 samples, whose only level has step 1, a request
for 5 samples per pixel and a request for 0 both return that level. -/
theorem GetLODForSamplesPerPixel_spec_witness :
    (OFS_Waveform.GetLODForSamplesPerPixel
      (OFS_Waveform.BuildLODPyramid (List.replicate 100 1)) 5).map
        (fun l => l.samplesPerPixel) = some 1 ∧
    (OFS_Waveform.GetLODForSamplesPerPixel
      (OFS_Waveform.BuildLODPyramid (List.replicate 100 1)) 0).map
        (fun l => l.samplesPerPixel) = some 1 := by
  obtain ⟨level, h1, _, _, h4⟩ :=
    (GetLODForSamplesPerPixel_spec [] (List.replicate 100 1) 0).2 (by decide!)
  refine ⟨by decide!, ?_⟩
  rw [h1, Option.map_some', (h4 (by decide)).1]

end OFS
